import Mathlib

/-!
Verification development for the telda toolchain core: a shallow embedding
of the assembler front-end (`src/source.rs`) and the linker (`src/bin/tl.rs`)
of the Telda-2 16-bit virtual machine, together with theorems settling the
specification's claims about them.

Machine integers are embedded as `Nat` with explicit `% 2 ^ 16` (resp. bounds
`< 256`) where 16-bit (resp. 8-bit) wrapping matters.  Fallible code paths
(Rust panics and `Result` errors) are embedded as `Option`/`Except`.
-/

namespace Telda

/-- Modulus of 16-bit arithmetic. -/
def M16 : Nat := 65536

/-- Wrapping 16-bit addition (`u16::wrapping_add` / release-mode `+`). -/
def wadd (a b : Nat) : Nat := (a + b) % M16

/-- Wrapping 16-bit subtraction (`u16::wrapping_sub` / release-mode `-`). -/
def wsub (a b : Nat) : Nat := (a % M16 + M16 - b % M16) % M16

/-- Little-endian byte pair of a 16-bit value (`u16::to_le_bytes`). -/
def le16 (w : Nat) : List Nat := [w % 256, w % M16 / 256]

/-- Byte registers (`source.rs` `enum BReg`); `Zero` is the read-as-zero
pseudo-register, index 0. -/
inductive BReg
  | Zero | Al | Ah | Bl | Bh | Cl | Ch | Io
  deriving DecidableEq, Repr, Inhabited

/-- The `#[repr(u8)]` discriminant of a byte register. -/
def BReg.toNat : BReg → Nat
  | .Zero => 0 | .Al => 1 | .Ah => 2 | .Bl => 3
  | .Bh => 4 | .Cl => 5 | .Ch => 6 | .Io => 7

/-- Wide registers (`source.rs` `enum WReg`). -/
inductive WReg
  | Zero | A | B | C | X | Y | Z | S
  deriving DecidableEq, Repr, Inhabited

/-- The `#[repr(u8)]` discriminant of a wide register. -/
def WReg.toNat : WReg → Nat
  | .Zero => 0 | .A => 1 | .B => 2 | .C => 3
  | .X => 4 | .Y => 5 | .Z => 6 | .S => 7

/-- Parsed source operands (`source.rs` `enum SourceOperand`).  `Byte` carries
a `u8` value, `Wide` a `u16`, `Number` an `i32` (embedded as `Int`). -/
inductive SourceOperand
  | Byte (b : Nat)
  | Wide (w : Nat)
  | Number (n : Int)
  | ByteReg (r : BReg)
  | WideReg (r : WReg)
  | Label (s : String)
  deriving DecidableEq, Repr, Inhabited

/-- Source lines (`source.rs` `enum SourceLine`).  `DirInclude` carries, in
addition to the path, the parsed lines of the included file: the embedding
represents the file system input inline instead of performing I/O. -/
inductive SourceLine
  | Label (s : String)
  | Ins (s : String) (ops : List SourceOperand)
  | Comment
  | DirInclude (path : String) (content : List SourceLine)
  | DirString (s : List Nat)
  | DirByte (b : Nat)
  | DirWide (w : Nat)
  deriving Inhabited

/-- A wide value: either a literal number or a label id (`source.rs` `enum Wide`). -/
inductive Wide
  | Number (n : Nat)
  | Label (id : Nat)
  deriving DecidableEq, Repr, Inhabited

/-- Byte-sized "register xor small immediate" operand (`source.rs` `enum BBigR`). -/
inductive BBigR
  | Register (r : BReg)
  | Byte (b : Nat)
  deriving DecidableEq, Repr, Inhabited

/-- Wide-sized "register xor immediate" operand (`source.rs` `enum WBigR`). -/
inductive WBigR
  | Register (r : WReg)
  | Wide (w : Wide)
  deriving DecidableEq, Repr, Inhabited

/-- Encoded operand layouts (`source.rs` `enum DataOperand`). -/
inductive DataOperand
  | Nothing
  | ByteBigR (br : BBigR)
  | WideBigR (wr : WBigR)
  | ByteRegister (r : BReg)
  | WideRegister (r : WReg)
  | ImmediateByte (b : Nat)
  | ImmediateWide (w : Wide)
  | TwoByteOneBig (r1 r2 : BReg) (br : BBigR)
  | TwoWideOneBig (r1 r2 : WReg) (wr : WBigR)
  | WideBigWide (r1 : WReg) (wr : WBigR) (r2 : WReg)
  | ByteWideBig (r1 : BReg) (r2 : WReg) (wr : WBigR)
  | WideBigByte (r1 : WReg) (wr : WBigR) (r2 : BReg)
  | FourByte (r1 r2 r3 r4 : BReg)
  | FourWide (r1 r2 r3 r4 : WReg)
  deriving DecidableEq, Repr, Inhabited

/-- Modelled from the spec: the `isa` module (opcode constants) of this
repository is not under `src/`; opcodes are embedded as an abstract
enumeration, one tag per constant named in `source.rs`.  No claim depends on
the numeric opcode values. -/
inductive Opcode
  | NULL | HALT | NOP | PUSH_B | PUSH_W | POP_B | POP_W | CALL | RET
  | STORE_B | STORE_W | LOAD_B | LOAD_W | JUMP | JUMP_REG
  | JEZ | JLT | JLE | JGT | JGE | JNZ | JO | JNO | JB | JAE | JA | JBE
  | ADD_B | ADD_W | SUB_B | SUB_W | AND_B | AND_W | OR_B | OR_W
  | XOR_B | XOR_W | MUL_B | MUL_W | DIV_B | DIV_W
  deriving DecidableEq, Repr, Inhabited

/-- Assembled data lines (`source.rs` `enum DataLine`). -/
inductive DataLine
  | Ins (opcode : Opcode) (op : DataOperand)
  | Raw (bytes : List Nat)
  deriving DecidableEq, Repr, Inhabited

/-- Encoded size in bytes of each operand shape (`DataOperand::size`). -/
def DataOperand.size : DataOperand → Nat
  | .Nothing => 0
  | .ByteBigR _ => 1
  | .WideBigR _ => 2
  | .ByteRegister _ => 1
  | .WideRegister _ => 1
  | .ImmediateByte _ => 1
  | .ImmediateWide _ => 2
  | .TwoByteOneBig _ _ _ => 2
  | .TwoWideOneBig _ _ _ => 3
  | .WideBigWide _ _ _ => 3
  | .ByteWideBig _ _ _ => 3
  | .WideBigByte _ _ _ => 3
  | .FourByte _ _ _ _ => 2
  | .FourWide _ _ _ _ => 2

/-- The label interner (`source.rs` `struct LabelMaker`): a list of label
names, the index being the label's dense id. -/
abbrev LabelMaker := List String

/-- `LabelMaker::get_id`: first position of an existing label
(`iter().position`), or append it. -/
def LabelMaker.get_id (lm : LabelMaker) (lbl : String) : Nat × LabelMaker :=
  match lm.findIdx? (· = lbl) with
  | some i => (i, lm)
  | none => (lm.length, lm ++ [lbl])

/-- `DataOperand::byte`: a byte register, or the literal number 0 read as the
zero register. -/
def DataOperand.byte : SourceOperand → Option BReg
  | .Number 0 => some .Zero
  | .ByteReg r => some r
  | _ => none

/-- `DataOperand::wide` (the register-parsing helper of the same name). -/
def DataOperand.wide : SourceOperand → Option WReg
  | .Number 0 => some .Zero
  | .WideReg r => some r
  | _ => none

/-- `DataOperand::imm_byte`; the `i32` of a `Number` is truncated `as u8`. -/
def DataOperand.imm_byte : SourceOperand → Option Nat
  | .Number n => some (n % 256).toNat
  | .Byte n => some n
  | _ => none

/-- `DataOperand::imm_wide`; labels are interned through the label maker. -/
def DataOperand.imm_wide (op : SourceOperand) (lm : LabelMaker) :
    Option Wide × LabelMaker :=
  match op with
  | .Number n => (some (.Number (n % (M16 : Int)).toNat), lm)
  | .Wide n => (some (.Number n), lm)
  | .Label lbl =>
      let (id, lm) := lm.get_id lbl
      (some (.Label id), lm)
  | _ => (none, lm)

/-- `DataOperand::byte_or_imm`. -/
def DataOperand.byte_or_imm (op : SourceOperand) : Option BBigR :=
  (DataOperand.byte op).map BBigR.Register
    |>.orElse fun _ => (DataOperand.imm_byte op).map BBigR.Byte

/-- `DataOperand::wide_or_imm`. -/
def DataOperand.wide_or_imm (op : SourceOperand) (lm : LabelMaker) :
    Option WBigR × LabelMaker :=
  match DataOperand.wide op with
  | some r => (some (.Register r), lm)
  | none =>
      let (w, lm) := DataOperand.imm_wide op lm
      (w.map WBigR.Wide, lm)

/-- `DataOperand::parse_nothing`: succeeds on an exhausted operand list. -/
def DataOperand.parse_nothing (ops : List SourceOperand) : Option DataOperand :=
  if ops.isEmpty then some .Nothing else none

/-- `DataOperand::parse_breg`. -/
def DataOperand.parse_breg : List SourceOperand → Option DataOperand
  | op :: rest => do
      let r ← DataOperand.byte op
      let _ ← DataOperand.parse_nothing rest
      some (.ByteRegister r)
  | [] => none

/-- `DataOperand::parse_wreg`. -/
def DataOperand.parse_wreg : List SourceOperand → Option DataOperand
  | op :: rest => do
      let r ← DataOperand.wide op
      let _ ← DataOperand.parse_nothing rest
      some (.WideRegister r)
  | [] => none

/-- `DataOperand::parse_immediate_u8`. -/
def DataOperand.parse_immediate_u8 : List SourceOperand → Option DataOperand
  | op :: rest => do
      let b ← DataOperand.imm_byte op
      let _ ← DataOperand.parse_nothing rest
      some (.ImmediateByte b)
  | [] => none

/-- `DataOperand::parse_immediate_u16`; interning in `imm_wide` persists even
when the trailing-emptiness check then fails, as in the source. -/
def DataOperand.parse_immediate_u16 (ops : List SourceOperand) (lm : LabelMaker) :
    Option DataOperand × LabelMaker :=
  match ops with
  | op :: rest =>
      let (w, lm) := DataOperand.imm_wide op lm
      match w with
      | none => (none, lm)
      | some w =>
          match DataOperand.parse_nothing rest with
          | none => (none, lm)
          | some _ => (some (.ImmediateWide w), lm)
  | [] => (none, lm)

/-- `DataOperand::parse_b_big_r`. -/
def DataOperand.parse_b_big_r : List SourceOperand → Option DataOperand
  | op :: rest => do
      let br ← DataOperand.byte_or_imm op
      let _ ← DataOperand.parse_nothing rest
      some (.ByteBigR br)
  | [] => none

/-- `DataOperand::parse_w_big_r`. -/
def DataOperand.parse_w_big_r (ops : List SourceOperand) (lm : LabelMaker) :
    Option DataOperand × LabelMaker :=
  match ops with
  | op :: rest =>
      let (wr, lm) := DataOperand.wide_or_imm op lm
      match wr with
      | none => (none, lm)
      | some wr =>
          match DataOperand.parse_nothing rest with
          | none => (none, lm)
          | some _ => (some (.WideBigR wr), lm)
  | [] => (none, lm)

/-- `DataOperand::parse_two_byte_one_big`; note there is no trailing-emptiness
check in the source for this shape. -/
def DataOperand.parse_two_byte_one_big : List SourceOperand → Option DataOperand
  | r1 :: r2 :: op :: _rest => do
      let b1 ← DataOperand.byte r1
      let b2 ← DataOperand.byte r2
      let br ← DataOperand.byte_or_imm op
      some (.TwoByteOneBig b1 b2 br)
  | _ => none

/-- `DataOperand::parse_two_wide_one_big`. -/
def DataOperand.parse_two_wide_one_big (ops : List SourceOperand) (lm : LabelMaker) :
    Option DataOperand × LabelMaker :=
  match ops with
  | r1 :: r2 :: op :: _rest =>
      match DataOperand.wide r1, DataOperand.wide r2 with
      | some w1, some w2 =>
          let (wr, lm) := DataOperand.wide_or_imm op lm
          match wr with
          | none => (none, lm)
          | some wr => (some (.TwoWideOneBig w1 w2 wr), lm)
      | _, _ =>
          -- the source evaluates `wide(reg1)?` and `wide(reg2)?` before
          -- `wide_or_imm`, so no interning happens when a register fails
          (none, lm)
  | _ => (none, lm)

/-- `DataOperand::parse_wide_big_byte`. -/
def DataOperand.parse_wide_big_byte (ops : List SourceOperand) (lm : LabelMaker) :
    Option DataOperand × LabelMaker :=
  match ops with
  | o1 :: o2 :: o3 :: _rest =>
      match DataOperand.wide o1 with
      | none => (none, lm)
      | some w1 =>
          let (wr, lm) := DataOperand.wide_or_imm o2 lm
          match wr with
          | none => (none, lm)
          | some wr =>
              match DataOperand.byte o3 with
              | none => (none, lm)
              | some b => (some (.WideBigByte w1 wr b), lm)
  | _ => (none, lm)

/-- `DataOperand::parse_wide_big_wide`. -/
def DataOperand.parse_wide_big_wide (ops : List SourceOperand) (lm : LabelMaker) :
    Option DataOperand × LabelMaker :=
  match ops with
  | o1 :: o2 :: o3 :: _rest =>
      match DataOperand.wide o1 with
      | none => (none, lm)
      | some w1 =>
          let (wr, lm) := DataOperand.wide_or_imm o2 lm
          match wr with
          | none => (none, lm)
          | some wr =>
              match DataOperand.wide o3 with
              | none => (none, lm)
              | some w2 => (some (.WideBigWide w1 wr w2), lm)
  | _ => (none, lm)

/-- `DataOperand::parse_byte_wide_big`. -/
def DataOperand.parse_byte_wide_big (ops : List SourceOperand) (lm : LabelMaker) :
    Option DataOperand × LabelMaker :=
  match ops with
  | o1 :: o2 :: o3 :: _rest =>
      match DataOperand.byte o1 with
      | none => (none, lm)
      | some b1 =>
          match DataOperand.wide o2 with
          | none => (none, lm)
          | some w1 =>
              let (wr, lm) := DataOperand.wide_or_imm o3 lm
              match wr with
              | none => (none, lm)
              | some wr => (some (.ByteWideBig b1 w1 wr), lm)
  | _ => (none, lm)

/-- `DataOperand::parse_four_byte`.  The source calls `parse_nothing` on the
remaining operands but discards its result, so trailing operands are ignored. -/
def DataOperand.parse_four_byte : List SourceOperand → Option DataOperand
  | r1 :: r2 :: r3 :: r4 :: rest => do
      let _ := DataOperand.parse_nothing rest
      let b1 ← DataOperand.byte r1
      let b2 ← DataOperand.byte r2
      let b3 ← DataOperand.byte r3
      let b4 ← DataOperand.byte r4
      some (.FourByte b1 b2 b3 b4)
  | _ => none

/-- `DataOperand::parse_four_wide`; the discarded `parse_nothing` again makes
trailing operands ignored. -/
def DataOperand.parse_four_wide : List SourceOperand → Option DataOperand
  | r1 :: r2 :: r3 :: r4 :: rest => do
      let _ := DataOperand.parse_nothing rest
      let w1 ← DataOperand.wide r1
      let w2 ← DataOperand.wide r2
      let w3 ← DataOperand.wide r3
      let w4 ← DataOperand.wide r4
      some (.FourWide w1 w2 w3 w4)
  | _ => none

/-- Helper for the conditional-jump arms of `parse_ins`, all of which read
`O::parse_immediate_u16(ops, lbl_mkr).expect(..)` with a fixed opcode. -/
def jumpArm (opc : Opcode) (ops : List SourceOperand) (lm : LabelMaker) :
    Option ((Opcode × DataOperand) × LabelMaker) :=
  match DataOperand.parse_immediate_u16 ops lm with
  | (some d, lm) => some ((opc, d), lm)
  | (none, _) => none

/-- Helper for the `add`/`sub`/`and`/`or`/`xor` arms of `parse_ins`:
`parse_two_byte_one_big` first, then `parse_two_wide_one_big`. -/
def arithArm (bOpc wOpc : Opcode) (ops : List SourceOperand) (lm : LabelMaker) :
    Option ((Opcode × DataOperand) × LabelMaker) :=
  match DataOperand.parse_two_byte_one_big ops with
  | some d => some ((bOpc, d), lm)
  | none =>
      match DataOperand.parse_two_wide_one_big ops lm with
      | (some d, lm) => some ((wOpc, d), lm)
      | (none, _) => none

/-- Helper for the `mul`/`div` arms of `parse_ins`: `parse_four_byte` first,
then `parse_four_wide`. -/
def mulDivArm (bOpc wOpc : Opcode) (ops : List SourceOperand) (lm : LabelMaker) :
    Option ((Opcode × DataOperand) × LabelMaker) :=
  match DataOperand.parse_four_byte ops with
  | some d => some ((bOpc, d), lm)
  | none =>
      match DataOperand.parse_four_wide ops with
      | some d => some ((wOpc, d), lm)
      | none => none

/-- `source.rs` `parse_ins`: mnemonic dispatch to shape parsers.  `none`
embeds the `panic!`/`expect` failure paths.  The label maker is threaded
through failed attempts exactly as the source's `&mut LabelMaker` is. -/
def parse_ins (s : String) (ops : List SourceOperand) (lm : LabelMaker) :
    Option ((Opcode × DataOperand) × LabelMaker) :=
  if s = "null" then (DataOperand.parse_nothing ops).map (fun d => ((.NULL, d), lm))
  else if s = "halt" then (DataOperand.parse_nothing ops).map (fun d => ((.HALT, d), lm))
  else if s = "nop" then (DataOperand.parse_nothing ops).map (fun d => ((.NOP, d), lm))
  else if s = "push" then
    match DataOperand.parse_b_big_r ops with
    | some d => some ((.PUSH_B, d), lm)
    | none =>
        match DataOperand.parse_w_big_r ops lm with
        | (some d, lm) => some ((.PUSH_W, d), lm)
        | (none, _) => none
  else if s = "pop" then
    match DataOperand.parse_breg ops with
    | some d => some ((.POP_B, d), lm)
    | none =>
        match DataOperand.parse_wreg ops with
        | some d => some ((.POP_W, d), lm)
        | none => none
  else if s = "call" then jumpArm .CALL ops lm
  else if s = "ret" then
    match DataOperand.parse_nothing ops with
    | some _ => some ((.RET, .ImmediateByte 0), lm)
    | none =>
        match DataOperand.parse_immediate_u8 ops with
        | some d => some ((.RET, d), lm)
        | none => none
  else if s = "store" then
    match DataOperand.parse_wide_big_byte ops lm with
    | (some d, lm) => some ((.STORE_B, d), lm)
    | (none, lm) =>
        match DataOperand.parse_wide_big_wide ops lm with
        | (some d, lm) => some ((.STORE_W, d), lm)
        | (none, _) => none
  else if s = "load" then
    match DataOperand.parse_byte_wide_big ops lm with
    | (some d, lm) => some ((.LOAD_B, d), lm)
    | (none, lm) =>
        match DataOperand.parse_two_wide_one_big ops lm with
        | (some d, lm) => some ((.LOAD_W, d), lm)
        | (none, _) => none
  else if s = "jmp" ∨ s = "jump" then
    match DataOperand.parse_immediate_u16 ops lm with
    | (some d, lm) => some ((.JUMP, d), lm)
    | (none, lm) =>
        match DataOperand.parse_wreg ops with
        | some d => some ((.JUMP_REG, d), lm)
        | none => none
  else if s = "jez" then jumpArm .JEZ ops lm
  else if s = "jlt" then jumpArm .JLT ops lm
  else if s = "jle" then jumpArm .JLE ops lm
  else if s = "jgt" then jumpArm .JGT ops lm
  else if s = "jge" then jumpArm .JGE ops lm
  else if s = "jnz" then jumpArm .JNZ ops lm
  else if s = "jo" then jumpArm .JO ops lm
  else if s = "jno" then jumpArm .JNO ops lm
  else if s = "jb" ∨ s = "jc" then jumpArm .JB ops lm
  else if s = "jae" ∨ s = "jnc" then jumpArm .JAE ops lm
  else if s = "ja" then jumpArm .JA ops lm
  else if s = "jbe" then jumpArm .JBE ops lm
  else if s = "add" then arithArm .ADD_B .ADD_W ops lm
  else if s = "sub" then arithArm .SUB_B .SUB_W ops lm
  else if s = "and" then arithArm .AND_B .AND_W ops lm
  else if s = "or" then arithArm .OR_B .OR_W ops lm
  else if s = "xor" then arithArm .XOR_B .XOR_W ops lm
  else if s = "mul" then mulDivArm .MUL_B .MUL_W ops lm
  else if s = "div" then mulDivArm .DIV_B .DIV_W ops lm
  else none

/-- `source.rs` `big_r_to_byte`: a register encodes as its index, the byte 0
as the zero register, and a nonzero byte `b` as `b.checked_add(7)`; the
`expect` on `checked_add` (failure exactly when `b + 7` overflows a `u8`)
is embedded as `none`. -/
def big_r_to_byte : BBigR → Option Nat
  | .Register r => some r.toNat
  | .Byte b =>
      if b = 0 then some BReg.Zero.toNat
      else if b + 7 ≤ 255 then some (b + 7) else none

/-- `source.rs` `parse_wide`: resolve a label id through the map, `none` on a
missing label (the source panics with "no such label"). -/
def parse_wide (w : Wide) (id_to_pos : List (Nat × Nat)) : Option Nat :=
  match w with
  | .Label l => (id_to_pos.find? (fun p => p.1 = l)).map (·.2)
  | .Number n => some n

/-- `source.rs` `big_r_to_wide`: little-endian bytes of the register index,
or of the resolved value `w` — 0 encoded as the zero register, nonzero `w` as
`w.checked_add(7)` (failure exactly when `w + 7` overflows a `u16`). -/
def big_r_to_wide (wr : WBigR) (id_to_pos : List (Nat × Nat)) : Option (List Nat) :=
  match wr with
  | .Register r => some (le16 r.toNat)
  | .Wide w => do
      let w ← parse_wide w id_to_pos
      if w = 0 then some (le16 WReg.Zero.toNat)
      else if w + 7 ≤ 65535 then some (le16 (w + 7)) else none

/-- Lookup in a `HashMap<usize, u16>` embedded as an association list whose
newest binding comes first (insertion conses, so re-insertion overwrites). -/
def lookupPos (m : List (Nat × Nat)) (k : Nat) : Option Nat :=
  (m.find? (fun p => p.1 = k)).map (·.2)

/-- Accumulated state of one `inner_process` call (`source.rs`): the
`id_to_pos` map, the label interner, and the emitted data lines. -/
structure PAcc where
  idToPos : List (Nat × Nat)
  labels : LabelMaker
  dataLines : List DataLine
  deriving DecidableEq, Inhabited

/-- The label renaming applied to labels imported through `include`
(`inner_process`, the `DirInclude` arm): keep the name when its first
character is uppercase, otherwise prefix the include path and two spaces.
(The source's `char::is_uppercase` is Unicode-aware; `Char.isUpper` restricts
to ASCII, which coincides on the ASCII labels the claims concern.) -/
def renameLabel (path lbl : String) : String :=
  if (lbl.data.headD 'A').isUpper then lbl else path ++ "  " ++ lbl

/-- The merge loop at the end of the `DirInclude` arm of `inner_process`:
for each included label (with its index `i`), rename it, intern the new name
in the enclosing label maker and bind it to the included position.  `none`
embeds the panics on an empty label name (`chars().next().unwrap()`) and on a
label with no recorded position (`included_id_to_pos[&i]`). -/
def mergeIncluded (path : String) (incPos : List (Nat × Nat)) :
    List String → Nat → PAcc → Option PAcc
  | [], _, acc => some acc
  | lbl :: rest, i, acc =>
      match lbl.data with
      | [] => none
      | _c :: _ =>
          match lookupPos incPos i with
          | none => none
          | some pos =>
              let (id, lm) := acc.labels.get_id (renameLabel path lbl)
              mergeIncluded path incPos rest (i + 1)
                { acc with labels := lm, idToPos := (id, pos) :: acc.idToPos }

mutual

/-- One iteration of the `for line in lines` loop of `inner_process`
(`source.rs`), threading the 16-bit offset counter and the accumulated state.
`none` embeds the panics of `parse_ins` and of the include merge. -/
def processLine (acc : PAcc) (off : Nat) : SourceLine → Option (PAcc × Nat)
  | .Label s =>
      let (id, lm) := acc.labels.get_id s
      some ({ acc with labels := lm, idToPos := (id, off) :: acc.idToPos }, off)
  | .Ins s ops =>
      match parse_ins s ops acc.labels with
      | none => none
      | some ((opc, dop), lm) =>
          some ({ acc with labels := lm, dataLines := acc.dataLines ++ [.Ins opc dop] },
                wadd off (1 + dop.size))
  | .Comment => some (acc, off)
  | .DirByte b =>
      some ({ acc with dataLines := acc.dataLines ++ [.Raw [b]] }, wadd off 1)
  | .DirWide w =>
      some ({ acc with dataLines := acc.dataLines ++ [.Raw (le16 w)] }, wadd off 2)
  | .DirString s =>
      some ({ acc with dataLines := acc.dataLines ++ [.Raw s] },
            wadd off (s.length % M16))
  | .DirInclude path content =>
      match processLines ⟨[], [], []⟩ off content with
      | none => none
      | some (inc, offInc) =>
          match mergeIncluded path inc.idToPos inc.labels 0
              { acc with dataLines := acc.dataLines ++ inc.dataLines } with
          | none => none
          | some acc' => some (acc', offInc)

/-- The body of `inner_process` (`source.rs`): fold `processLine` over the
line sequence.  An `include` recurses here with a fresh accumulator but the
same offset counter. -/
def processLines (acc : PAcc) (off : Nat) : List SourceLine → Option (PAcc × Nat)
  | [] => some (acc, off)
  | l :: rest =>
      match processLine acc off l with
      | none => none
      | some (acc', off') => processLines acc' off' rest

end

/-- `source.rs` `inner_process`: process a unit's lines starting from a given
offset with fresh label state. -/
def inner_process (lines : List SourceLine) (cur_offset : Nat) :
    Option (PAcc × Nat) :=
  processLines ⟨[], [], []⟩ cur_offset lines

/-- `source.rs` `process`: entry point of pass 1, offset counter starts at 0. -/
def process (lines : List SourceLine) : Option (PAcc × Nat) :=
  inner_process lines 0

/-- Resolution of a label name in a processed unit: intern lookup (the first
index with that name, as `LabelMaker::get_id` finds it) composed with the
`id_to_pos` map.  This is what "label `x` is visible as position `p`" means. -/
def lookupLabel (acc : PAcc) (name : String) : Option Nat :=
  (acc.labels.findIdx? (· = name)).bind (lookupPos acc.idToPos)

/-! ## Claims about the BigR operand encoder (C1) -/

/-- C1, counterexample: the claim says byte-form encoding succeeds exactly for
immediates at most 247, so that `push 248b` is a fatal `EncodingError`; but
`big_r_to_byte` encodes the immediate 248 successfully as byte 255 (and the
wide form encodes 65528, one above the claimed wide bound 65527, as 0xffff),
because `checked_add(7)` only overflows above those values. -/
theorem big_r_claimed_bound_fails :
    big_r_to_byte (BBigR.Byte 248) = some 255 ∧ 247 < 248 ∧
    big_r_to_wide (WBigR.Wide (Wide.Number 65528)) [] = some [255, 255] ∧
    65527 < 65528 := by
  refine ⟨by decide, by decide, by decide, by decide⟩

/-- C1, amended: the BigR operand encoder maps a register to its index, an
immediate of exactly 0 to the zero-register index 0, and a nonzero immediate
`n` to `n + 7`; encoding succeeds exactly when the immediate is at most 248
in byte form and at most 65528 in wide form, so `push 247b` encodes its
operand as byte 254 and `push 248b` as byte 255, and an immediate exceeding
the range (249 in byte form, 65529 in wide form) is a fatal assembly error
(the `expect` on `checked_add` fails). -/
theorem big_r_encoding_characterisation :
    (∀ r : BReg, big_r_to_byte (.Register r) = some r.toNat) ∧
    big_r_to_byte (.Byte 0) = some 0 ∧
    (∀ b : Nat, 0 < b → b ≤ 248 → big_r_to_byte (.Byte b) = some (b + 7)) ∧
    (∀ b : Nat, 248 < b → big_r_to_byte (.Byte b) = none) ∧
    (∀ r : WReg, ∀ m, big_r_to_wide (.Register r) m = some (le16 r.toNat)) ∧
    (∀ m, big_r_to_wide (.Wide (.Number 0)) m = some (le16 0)) ∧
    (∀ w : Nat, ∀ m, 0 < w → w ≤ 65528 →
      big_r_to_wide (.Wide (.Number w)) m = some (le16 (w + 7))) ∧
    (∀ w : Nat, ∀ m, 65528 < w → big_r_to_wide (.Wide (.Number w)) m = none) ∧
    big_r_to_byte (.Byte 247) = some 254 ∧
    (∀ lm, parse_ins "push" [.Byte 247] lm = some ((.PUSH_B, .ByteBigR (.Byte 247)), lm)) := by
  refine ⟨fun r => by cases r <;> rfl, by decide, ?_, ?_, fun r m => by cases r <;> rfl,
    fun m => rfl, ?_, ?_, by decide, fun lm => rfl⟩
  · intro b hb hb'
    simp only [big_r_to_byte]
    rw [if_neg (by omega), if_pos (by omega)]
  · intro b hb
    simp only [big_r_to_byte]
    rw [if_neg (by omega), if_neg (by omega)]
  · intro w m hw hw'
    simp only [big_r_to_wide, parse_wide, Option.bind_eq_bind, Option.some_bind]
    rw [if_neg (by omega), if_pos (by omega)]
  · intro w m hw
    simp only [big_r_to_wide, parse_wide, Option.bind_eq_bind, Option.some_bind]
    rw [if_neg (by omega), if_neg (by omega)]

/-- Witness for `big_r_encoding_characterisation` at concrete immediates. -/
theorem big_r_encoding_characterisation_witness :
    big_r_to_byte (.Byte 5) = some 12 ∧ big_r_to_byte (.Byte 249) = none ∧
    big_r_to_wide (.Wide (.Number 300)) [] = some (le16 307) ∧
    big_r_to_wide (.Wide (.Number 65529)) [] = none :=
  ⟨big_r_encoding_characterisation.2.2.1 5 (by decide) (by decide),
   big_r_encoding_characterisation.2.2.2.1 249 (by decide),
   big_r_encoding_characterisation.2.2.2.2.2.2.1 300 [] (by decide) (by decide),
   big_r_encoding_characterisation.2.2.2.2.2.2.2.1 65529 [] (by decide)⟩

/-! ## Claim about `mul`/`div` operand lists (C10) -/

/-- C10: for the mnemonics `mul` and `div`, an operand list with more than
four (register) operands is accepted rather than rejected: the first four
register operands are encoded and all trailing operands are silently ignored
(`parse_four_byte`/`parse_four_wide` discard the `parse_nothing` result), so
`parse_ins` does not fail on the extra operands. -/
theorem mul_div_ignore_trailing_operands :
    ∀ (r1 r2 r3 r4 : BReg) (w1 w2 w3 w4 : WReg) (rest : List SourceOperand)
      (lm : LabelMaker),
      parse_ins "mul" (.ByteReg r1 :: .ByteReg r2 :: .ByteReg r3 :: .ByteReg r4 :: rest) lm
        = some ((.MUL_B, .FourByte r1 r2 r3 r4), lm) ∧
      parse_ins "div" (.ByteReg r1 :: .ByteReg r2 :: .ByteReg r3 :: .ByteReg r4 :: rest) lm
        = some ((.DIV_B, .FourByte r1 r2 r3 r4), lm) ∧
      parse_ins "mul" (.WideReg w1 :: .WideReg w2 :: .WideReg w3 :: .WideReg w4 :: rest) lm
        = some ((.MUL_W, .FourWide w1 w2 w3 w4), lm) ∧
      parse_ins "div" (.WideReg w1 :: .WideReg w2 :: .WideReg w3 :: .WideReg w4 :: rest) lm
        = some ((.DIV_W, .FourWide w1 w2 w3 w4), lm) := by
  intro r1 r2 r3 r4 w1 w2 w3 w4 rest lm
  refine ⟨rfl, rfl, rfl, rfl⟩

/-! ## Claim about pass-1 offset accounting (C6) -/

/-- C6: for every instruction processed by pass 1 (`inner_process`), the
offset counter advances by exactly `1 + operand_shape_size(opcode)` (the
counter is 16-bit, so exactness is stated below the wrap-around and modulo
`2^16` in general), where the shape sizes are: Nothing=0, ByteBigR=1,
WideBigR=2, ByteRegister=1, WideRegister=1, ImmediateByte=1, ImmediateWide=2,
TwoByteOneBig=2, TwoWideOneBig=3, WideBigWide=3, ByteWideBig=3, WideBigByte=3,
FourByte=2, FourWide=2. -/
theorem instruction_offset_accounting :
    (∀ (acc : PAcc) (off : Nat) (s : String) (ops : List SourceOperand)
       (acc' : PAcc) (off' : Nat),
      processLine acc off (.Ins s ops) = some (acc', off') →
      ∃ opc dop lm, parse_ins s ops acc.labels = some ((opc, dop), lm) ∧
        off' = (off + (1 + DataOperand.size dop)) % M16 ∧
        (off + (1 + DataOperand.size dop) < M16 →
          off' = off + (1 + DataOperand.size dop))) ∧
    DataOperand.size .Nothing = 0 ∧
    (∀ x, DataOperand.size (.ByteBigR x) = 1) ∧
    (∀ x, DataOperand.size (.WideBigR x) = 2) ∧
    (∀ x, DataOperand.size (.ByteRegister x) = 1) ∧
    (∀ x, DataOperand.size (.WideRegister x) = 1) ∧
    (∀ x, DataOperand.size (.ImmediateByte x) = 1) ∧
    (∀ x, DataOperand.size (.ImmediateWide x) = 2) ∧
    (∀ a b c, DataOperand.size (.TwoByteOneBig a b c) = 2) ∧
    (∀ a b c, DataOperand.size (.TwoWideOneBig a b c) = 3) ∧
    (∀ a b c, DataOperand.size (.WideBigWide a b c) = 3) ∧
    (∀ a b c, DataOperand.size (.ByteWideBig a b c) = 3) ∧
    (∀ a b c, DataOperand.size (.WideBigByte a b c) = 3) ∧
    (∀ a b c d, DataOperand.size (.FourByte a b c d) = 2) ∧
    (∀ a b c d, DataOperand.size (.FourWide a b c d) = 2) := by
  refine ⟨?_, rfl, fun x => rfl, fun x => rfl, fun x => rfl, fun x => rfl,
    fun x => rfl, fun x => rfl, fun a b c => rfl, fun a b c => rfl,
    fun a b c => rfl, fun a b c => rfl, fun a b c => rfl,
    fun a b c d => rfl, fun a b c d => rfl⟩
  intro acc off s ops acc' off' h
  rcases hp : parse_ins s ops acc.labels with _ | ⟨⟨opc, dop⟩, lm⟩
  · rw [processLine, hp] at h
    exact absurd h (by simp)
  · rw [processLine, hp] at h
    refine ⟨opc, dop, lm, rfl, ?_, ?_⟩
    · cases h
      rfl
    · intro hlt
      cases h
      exact Nat.mod_eq_of_lt hlt

/-- Witness for `instruction_offset_accounting`: a `halt` at offset 0
advances the counter to 1. -/
theorem instruction_offset_accounting_witness :
    ∃ opc dop lm, parse_ins "halt" [] ([] : LabelMaker) = some ((opc, dop), lm) ∧
      (1 : Nat) = (0 + (1 + DataOperand.size dop)) % M16 ∧
      (0 + (1 + DataOperand.size dop) < M16 →
        (1 : Nat) = 0 + (1 + DataOperand.size dop)) :=
  instruction_offset_accounting.1 ⟨[], [], []⟩ 0 "halt" []
    ⟨[], [], [.Ins .HALT .Nothing]⟩ 1 (by decide)

/-! ## Claim about include namespacing (C9) -/

theorem get_id_findIdx (lm : LabelMaker) (lbl : String) :
    ((lm.get_id lbl).2).findIdx? (· = lbl) = some (lm.get_id lbl).1 := by
  rcases h : lm.findIdx? (· = lbl) with _ | i
  · simp only [LabelMaker.get_id, h, List.findIdx?_append]
    simp [h, List.findIdx?_cons]
  · simp only [LabelMaker.get_id, h]

theorem get_id_frame (lm : LabelMaker) (lbl name : String) (hne : name ≠ lbl) :
    ((lm.get_id lbl).2).findIdx? (· = name) = lm.findIdx? (· = name) := by
  rcases h : lm.findIdx? (· = lbl) with _ | i
  · simp only [LabelMaker.get_id, h, List.findIdx?_append]
    have : List.findIdx? (· = name) [lbl] = none := by
      simp [List.findIdx?_cons, Ne.symm hne]
    simp [this]
  · simp only [LabelMaker.get_id, h]

theorem findIdx?_index_eq (l : List String) (name : String) (i : Nat)
    (h : l.findIdx? (· = name) = some i) : ∃ hi : i < l.length, l[i] = name := by
  rw [List.findIdx?_eq_some_iff_getElem] at h
  obtain ⟨hi, h1, -⟩ := h
  exact ⟨hi, by simpa using h1⟩

theorem findIdx?_index_ne (l : List String) (a b : String) (i j : Nat)
    (hab : a ≠ b) (ha : l.findIdx? (· = a) = some i)
    (hb : l.findIdx? (· = b) = some j) : i ≠ j := by
  obtain ⟨hi, hia⟩ := findIdx?_index_eq l a i ha
  obtain ⟨hj, hjb⟩ := findIdx?_index_eq l b j hb
  rintro rfl
  exact hab (hia ▸ hjb ▸ rfl)

theorem lookupPos_cons_self (m : List (Nat × Nat)) (k v : Nat) :
    lookupPos ((k, v) :: m) k = some v := by
  simp [lookupPos, List.find?_cons]

theorem lookupPos_cons_ne (m : List (Nat × Nat)) (k k' v : Nat) (h : k' ≠ k) :
    lookupPos ((k, v) :: m) k' = lookupPos m k' := by
  simp only [lookupPos, List.find?_cons]
  have : (fun p : Nat × Nat => decide (p.1 = k')) (k, v) = false := by
    simpa using Ne.symm h
  simp only [this]

/-- Binding just made by `get_id` + map insertion: the renamed label is
visible at the included position. -/
theorem lookupLabel_insert_self (acc : PAcc) (lbl : String) (pos : Nat) :
    lookupLabel
      { acc with labels := (acc.labels.get_id lbl).2,
                 idToPos := ((acc.labels.get_id lbl).1, pos) :: acc.idToPos }
      lbl = some pos := by
  simp only [lookupLabel, get_id_findIdx, Option.some_bind, lookupPos_cons_self]

/-- Frame: interning `lbl` and binding its id leaves the resolution of every
other name unchanged. -/
theorem lookupLabel_insert_other (acc : PAcc) (lbl name : String) (pos : Nat)
    (hne : name ≠ lbl) :
    lookupLabel
      { acc with labels := (acc.labels.get_id lbl).2,
                 idToPos := ((acc.labels.get_id lbl).1, pos) :: acc.idToPos }
      name = lookupLabel acc name := by
  simp only [lookupLabel, get_id_frame acc.labels lbl name hne]
  rcases h : acc.labels.findIdx? (· = name) with _ | k
  · simp
  · have hid : ((acc.labels.get_id lbl).2).findIdx? (· = name) = some k := by
      rw [get_id_frame acc.labels lbl name hne, h]
    have hk : k ≠ (acc.labels.get_id lbl).1 :=
      findIdx?_index_ne ((acc.labels.get_id lbl).2) name lbl k (acc.labels.get_id lbl).1
        hne hid (get_id_findIdx acc.labels lbl)
    simp only [Option.some_bind, lookupPos_cons_ne _ _ _ _ hk]

/-- Correctness of the include merge loop: when every included label is
nonempty and carries a position, and the renamed labels are pairwise
distinct, the loop succeeds, touches no data lines, binds each renamed label
to its included position, and resolves every other name as before. -/
theorem mergeIncluded_spec (path : String) (incPos : List (Nat × Nat)) :
    ∀ (lbls : List String) (i : Nat) (acc : PAcc),
      (∀ l ∈ lbls, l ≠ "") →
      (∀ j, j < lbls.length → (lookupPos incPos (i + j)).isSome) →
      (lbls.map (renameLabel path)).Nodup →
      ∃ acc', mergeIncluded path incPos lbls i acc = some acc' ∧
        acc'.dataLines = acc.dataLines ∧
        (∀ j lbl, lbls.get? j = some lbl →
          lookupLabel acc' (renameLabel path lbl) = lookupPos incPos (i + j)) ∧
        (∀ name, name ∉ lbls.map (renameLabel path) →
          lookupLabel acc' name = lookupLabel acc name) := by
  intro lbls
  induction lbls with
  | nil =>
      intro i acc _ _ _
      exact ⟨acc, rfl, rfl, fun j lbl h => by simp at h, fun name _ => rfl⟩
  | cons lbl rest ih =>
      intro i acc hne hpos hnodup
      have hlbl : lbl ≠ "" := hne lbl (List.mem_cons_self _ _)
      have hdata : ∃ c cs, lbl.data = c :: cs := by
        rcases h : lbl.data with _ | ⟨c, cs⟩
        · exact absurd (by ext1; simp [h]) hlbl
        · exact ⟨c, cs, rfl⟩
      obtain ⟨c, cs, hdata⟩ := hdata
      have hp0 : (lookupPos incPos i).isSome := by
        simpa using hpos 0 (by simp)
      rcases hpe : lookupPos incPos i with _ | pos
      · rw [hpe] at hp0; simp at hp0
      have hnodup' : (rest.map (renameLabel path)).Nodup := by
        simpa using hnodup.of_cons
      have hmem : renameLabel path lbl ∉ rest.map (renameLabel path) := by
        have h := hnodup
        simp only [List.map_cons, List.nodup_cons] at h
        exact h.1
      set acc1 : PAcc :=
        { acc with labels := (acc.labels.get_id (renameLabel path lbl)).2,
                   idToPos := ((acc.labels.get_id (renameLabel path lbl)).1, pos)
                     :: acc.idToPos } with hacc1
      obtain ⟨acc', hmerge, hdl, hbind, hframe⟩ :=
        ih (i + 1) acc1 (fun l hl => hne l (List.mem_cons_of_mem _ hl))
          (fun j hj => by
            have := hpos (j + 1) (by simpa using Nat.succ_lt_succ hj)
            simpa [Nat.add_assoc, Nat.add_comm 1 j] using this)
          hnodup'
      refine ⟨acc', ?_, ?_, ?_, ?_⟩
      · rw [mergeIncluded, hdata, hpe]
        exact hmerge
      · rw [hdl]
      · intro j l hjl
        rcases j with _ | j
        · simp only [List.get?_cons_zero, Option.some.injEq] at hjl
          subst hjl
          rw [hframe (renameLabel path lbl) hmem, Nat.add_zero, hpe]
          exact lookupLabel_insert_self acc (renameLabel path lbl) pos
        · simp only [List.get?_cons_succ] at hjl
          have := hbind j l hjl
          rw [this]
          congr 1
          omega
      · intro name hname
        have hname1 : name ∉ rest.map (renameLabel path) := by
          intro h; exact hname (by simp [h])
        have hname2 : name ≠ renameLabel path lbl := by
          intro h; exact hname (by simp [h])
        rw [hframe name hname1]
        exact lookupLabel_insert_other acc (renameLabel path lbl) name pos hname2

/-- C9: a file pulled in by an `include` directive is processed recursively
in the same offset coordinate system (the included lines are processed from
the enclosing unit's current offset, and the enclosing unit continues at the
offset they produce), and every label it defines is renamed in the enclosing
unit by prefixing the include path followed by two spaces (`<path>  <label>`)
unless the label's first character is uppercase, in which case the name is
retained verbatim (`renameLabel`); each renamed label resolves to the
position the included unit assigned it.  (Hypotheses: the included labels
are nonempty and all carry positions — otherwise the source panics — and the
renamed labels are pairwise distinct.) -/
theorem include_namespacing :
    ∀ (acc : PAcc) (off : Nat) (path : String) (content : List SourceLine)
      (inc : PAcc) (offInc : Nat),
      processLines ⟨[], [], []⟩ off content = some (inc, offInc) →
      (∀ l ∈ inc.labels, l ≠ "") →
      (∀ j, j < inc.labels.length → (lookupPos inc.idToPos j).isSome) →
      (inc.labels.map (renameLabel path)).Nodup →
      ∃ acc', processLine acc off (.DirInclude path content) = some (acc', offInc) ∧
        acc'.dataLines = acc.dataLines ++ inc.dataLines ∧
        (∀ j lbl, inc.labels.get? j = some lbl →
          lookupLabel acc' (renameLabel path lbl) = lookupPos inc.idToPos j) := by
  intro acc off path content inc offInc hproc hne hpos hnodup
  obtain ⟨acc', hmerge, hdl, hbind, -⟩ :=
    mergeIncluded_spec path inc.idToPos inc.labels 0
      { acc with dataLines := acc.dataLines ++ inc.dataLines }
      hne (fun j hj => by simpa using hpos j hj) hnodup
  refine ⟨acc', ?_, by simpa using hdl, fun j lbl hjl => by simpa using hbind j lbl hjl⟩
  rw [processLine, hproc]
  dsimp only
  rw [hmerge]

/-- Witness for `include_namespacing`: the spec's scenario — including
`lib.t`, which defines `tmp` (at offset 0) and `Public` (at offset 1 after a
`halt`) — makes `tmp` visible as `lib.t  tmp` and keeps `Public` verbatim. -/
theorem include_namespacing_witness :
    ∃ acc', processLine ⟨[], [], []⟩ 0
        (.DirInclude "lib.t" [.Label "tmp", .Ins "halt" [], .Label "Public"])
        = some (acc', 1) ∧
      acc'.dataLines = [] ++ [DataLine.Ins .HALT .Nothing] ∧
      (∀ j lbl,
        (["tmp", "Public"] : List String).get? j = some lbl →
        lookupLabel acc' (renameLabel "lib.t" lbl) =
          lookupPos [(1, 1), (0, 0)] j) :=
  include_namespacing ⟨[], [], []⟩ 0 "lib.t"
    [.Label "tmp", .Ins "halt" [], .Label "Public"]
    ⟨[(1, 1), (0, 0)], ["tmp", "Public"], [DataLine.Ins .HALT .Nothing]⟩ 1
    (by decide) (by decide) (by decide) (by decide)

/-! ## The linker (`src/bin/tl.rs`)

The object container lives in the `aalv` module of the library crate, which
is not among the sources; its data model is modelled from the spec (§3, §6.1)
with exactly the fields `tl.rs` uses.  The linker logic itself is embedded
from `tl.rs`. -/

/-- Modelled from the spec: the segment-type enumeration of `aalv::obj`
(absent from the sources) — `Zero` (absolute values), a family of content
segments, and `Unknown` (external).  The wire format assigns stable integer
tags (`SegmentType.tag`); the linker iterates `BTreeMap`s in tag order. -/
inductive SegmentType
  | Zero | Text | RoData | Data | Bss | Unknown
  deriving DecidableEq, Repr, Inhabited

/-- Modelled from the spec: the stable integer tag ordering segment types. -/
def SegmentType.tag : SegmentType → Nat
  | .Zero => 0 | .Text => 1 | .RoData => 2 | .Data => 3 | .Bss => 4 | .Unknown => 5

/-- Modelled from the spec: `aalv::obj::SymbolDefinition` —
`(name, segment_type, location, is_global)`. -/
structure SymbolDefinition where
  name : String
  is_global : Bool
  segment_type : SegmentType
  location : Nat
  deriving DecidableEq, Repr, Inhabited

/-- Modelled from the spec: `aalv::obj::RelocationEntry` —
`(reference_segment, reference_location, symbol_index)`. -/
structure RelocationEntry where
  reference_segment : SegmentType
  reference_location : Nat
  symbol_index : Nat
  deriving DecidableEq, Repr, Inhabited

/-- Modelled from the spec: the `aalv::obj::Object` fields used by `tl.rs`.
`segs` embeds the `BTreeMap<SegmentType, (u16, Vec<u8>)>` as an association
list (sorted by tag with unique keys for a map read from the wire). -/
structure Object where
  segs : List (SegmentType × (Nat × List Nat)) := []
  symbols : List SymbolDefinition := []
  relocation_table : List RelocationEntry := []
  entry : Option (SegmentType × Nat) := none
  file_offset : Nat := 0
  deriving DecidableEq, Repr, Inhabited

/-- First value stored under a key (`BTreeMap` lookup on a unique-key list). -/
def segFind? {α : Type} (m : List (SegmentType × α)) (k : SegmentType) : Option α :=
  (m.find? (fun p => p.1 = k)).map (·.2)

/-- Lookup with a default. -/
def segFindD {α : Type} (m : List (SegmentType × α)) (k : SegmentType) (d : α) : α :=
  (segFind? m k).getD d

/-- `BTreeMap::insert` on a tag-sorted association list. -/
def segInsert {α : Type} (k : SegmentType) (v : α) :
    List (SegmentType × α) → List (SegmentType × α)
  | [] => [(k, v)]
  | (k', v') :: rest =>
      if k = k' then (k, v) :: rest
      else if k.tag < k'.tag then (k, v) :: (k', v') :: rest
      else (k', v') :: segInsert k v rest

/-- In-place mutation of the value under an existing key (`get_mut` write). -/
def segReplace {α : Type} (k : SegmentType) (v : α)
    (m : List (SegmentType × α)) : List (SegmentType × α) :=
  m.map (fun p => if p.1 = k then (k, v) else p)

/-- `BTreeMap::remove`, keeping the rest. -/
def segErase {α : Type} (k : SegmentType) (m : List (SegmentType × α)) :
    List (SegmentType × α) :=
  m.filter (fun p => ¬p.1 = k)

/-- Modelled from the spec: the crate-level constant `SEGMENT_ALIGNMENT`
(not among the sources); the spec requires a 16-bit power of two. -/
def SEGMENT_ALIGNMENT : Nat := 256

/-- Modelled from the spec: the crate-level `align` (not among the sources)
rounds up to the next multiple of the alignment, in 16-bit arithmetic. -/
def align (x a : Nat) : Nat := (a * ((x + a - 1) / a)) % M16

/-- The errors of `tl.rs` (`enum Error`).  `Io` is not modelled (file input
is given as values); `Panic` embeds the Rust panics (`expect`, slice and
map indexing), which abort the process. -/
inductive LinkError
  | InvalidEntryPointFormat
  | ObjectFailure
  | NoEntryPoint
  | ReferenceToNonExistantSegment
  | Panic
  deriving DecidableEq, Repr, Inhabited

/-- The diagnostics `tl_main` writes to stderr, one constructor per
`eprintln!` site, carrying exactly the data the format string interpolates:
`DupGlobal` (tl.rs:157) the symbol name, the current input file, the
(rebased) location and the segment of the later definition; `UndefinedRef`
(tl.rs:237) the symbol name and its location; `StartSymbolNotFound`
(tl.rs:264) the `-E` argument. -/
inductive Diag
  | DupGlobal (symbol : String) (file : String) (location : Nat) (segment : SegmentType)
  | UndefinedRef (symbol : String) (location : Nat)
  | StartSymbolNotFound (symbol : String)
  deriving DecidableEq, Repr, Inhabited

/-- The file paths a diagnostic names (the path-typed format arguments of its
`eprintln!`). -/
def Diag.mentionedFiles : Diag → List String
  | .DupGlobal _ f _ _ => [f]
  | .UndefinedRef _ _ => []
  | .StartSymbolNotFound _ => []

/-- Per-segment total byte length across all inputs (tl.rs:96-101):
`*lengths.entry(stype).or_insert(0) += v.len() as u16`. -/
def segLengths (objects : List (String × Object)) : List (SegmentType × Nat) :=
  objects.foldl
    (fun lengths obj =>
      obj.2.segs.foldl
        (fun lengths sv =>
          segInsert sv.1 (wadd (segFindD lengths sv.1 0) (sv.2.2.length % M16)) lengths)
        lengths)
    []

/-- One step of the segment-layout loop (tl.rs:106-110): the next segment's
base is the running mark rounded up to `SEGMENT_ALIGNMENT`, and the mark
advances past the segment's total length. -/
def layoutStep (acc : List (SegmentType × (Nat × List Nat)) × Nat)
    (sv : SegmentType × Nat) : List (SegmentType × (Nat × List Nat)) × Nat :=
  let start := align acc.2 SEGMENT_ALIGNMENT
  (acc.1 ++ [(sv.1, (start, ([] : List Nat)))], wadd start sv.2)

/-- Segment layout (tl.rs:95-111): remove `Zero`, start the high-water mark
at `max(length_of_Zero, SEGMENT_ALIGNMENT)`, and give each remaining segment
(in key order) the mark rounded up to `SEGMENT_ALIGNMENT` as base, advancing
the mark by the segment's total length. -/
def segLayout (objects : List (String × Object)) :
    List (SegmentType × (Nat × List Nat)) :=
  let lengths := segLengths objects
  let zeroLen := segFindD lengths SegmentType.Zero 0
  let lengths := segErase SegmentType.Zero lengths
  (lengths.foldl layoutStep ([], max zeroLen SEGMENT_ALIGNMENT)).1

/-- The linker's accumulated state across the per-object merge loop of
`tl_main`: the output segments (fixed bases, growing bytes), the running
insertion bases (the `segs` map of copies), the global-symbol map, the merged
symbol/relocation tables, the undefined-references list, the candidate entry
point, the diagnostics written to stderr, and the `failure` flag. -/
structure MergeSt where
  segsOut : List (SegmentType × (Nat × List Nat))
  curBase : List (SegmentType × Nat)
  globalSymbols : List (String × Nat)
  symbolsOut : List SymbolDefinition
  relocOut : List RelocationEntry
  undefinedRefs : List RelocationEntry
  entry : Option (SegmentType × Nat)
  diags : List Diag
  failure : Bool
  deriving DecidableEq, Repr, Inhabited

/-- Initial merge state from the computed layout. -/
def initMergeSt (layout : List (SegmentType × (Nat × List Nat))) : MergeSt :=
  { segsOut := layout, curBase := layout.map (fun p => (p.1, p.2.1)),
    globalSymbols := [], symbolsOut := [], relocOut := [], undefinedRefs := [],
    entry := none, diags := [], failure := false }

/-- Lookup in the `HashMap<String, usize>` of global symbols. -/
def strFind? (m : List (String × Nat)) (k : String) : Option Nat :=
  (m.find? (fun p => p.1 = k)).map (·.2)

/-- Rebasing of a location from input-object coordinates into output
coordinates (tl.rs:142-143): subtract the input segment base, add the
running output base, both `unwrap_or(0)` when the segment is absent. -/
def rebaseLocation (objSegs : List (SegmentType × (Nat × List Nat)))
    (curBase : List (SegmentType × Nat)) (st : SegmentType) (loc : Nat) : Nat :=
  wadd (wsub loc (((segFind? objSegs st).map (·.1)).getD 0)) (segFindD curBase st 0)

/-- A symbol with its location rebased into output coordinates. -/
def rebasedSym (objSegs : List (SegmentType × (Nat × List Nat)))
    (curBase : List (SegmentType × Nat)) (sym : SymbolDefinition) :
    SymbolDefinition :=
  { sym with location := rebaseLocation objSegs curBase sym.segment_type sym.location }

/-- One iteration of the symbol-rewriting loop (tl.rs:138-181), threading the
merge state and the `file_symbol_to_out_symbol` translation list. -/
def processSymbol (strip_internal : Bool) (input_file : String)
    (objSegs : List (SegmentType × (Nat × List Nat)))
    (st : MergeSt × List Nat) (symdef0 : SymbolDefinition) : MergeSt × List Nat :=
  let ms := st.1
  let fstos := st.2
  let next_id := ms.symbolsOut.length
  let symdef := rebasedSym objSegs ms.curBase symdef0
  if symdef.is_global then
    match strFind? ms.globalSymbols symdef.name with
    | none =>
        ({ ms with globalSymbols := (symdef.name, next_id) :: ms.globalSymbols,
                   symbolsOut := ms.symbolsOut ++ [symdef] },
         fstos ++ [next_id])
    | some id =>
        -- `&mut symbols_out[id]`: ids stored in the global map always index
        -- `symbols_out`, so the `getD` default is never read
        let cur := ms.symbolsOut.getD id default
        if symdef.segment_type = .Unknown then
          (ms, fstos ++ [id])
        else if cur.segment_type = .Unknown then
          ({ ms with symbolsOut := ms.symbolsOut.set id symdef }, fstos ++ [id])
        else
          ({ ms with
              diags := ms.diags ++
                [.DupGlobal symdef.name input_file symdef.location symdef.segment_type],
              failure := true },
           fstos ++ [id])
  else
    let symdef := if strip_internal then { symdef with name := "" } else symdef
    ({ ms with symbolsOut := ms.symbolsOut ++ [symdef] }, fstos ++ [next_id])

/-- Write `w` as two little-endian bytes at positions `i`, `i + 1`
(`copy_from_slice` into a 2-byte subslice). -/
def setLE16 (bytes : List Nat) (i w : Nat) : List Nat :=
  (bytes.set i (w % 256)).set (i + 1) (w % M16 / 256)

/-- One iteration of the relocation re-keying loop (tl.rs:185-218):
translate the symbol index, rebase the reference location, eagerly patch the
input segment bytes with the current symbol address, and record the entry
(and remember it among the undefined references when the symbol is still
`Unknown`). -/
def processReloc (fstos : List Nat) :
    Except LinkError (MergeSt × List (SegmentType × (Nat × List Nat))) →
    RelocationEntry →
    Except LinkError (MergeSt × List (SegmentType × (Nat × List Nat)))
  | .error e, _ => .error e
  | .ok (ms, objSegs), re =>
    -- `file_symbol_to_out_symbol[symbol_index as usize]`: index panic
    match fstos.get? re.symbol_index with
    | none => .error .Panic
    | some symbol_index =>
    -- `obj.segs[&reference_segment].0` (tl.rs:193): index panic
    match segFind? objSegs re.reference_segment with
    | none => .error .Panic
    | some (base_in, _) =>
    let location_in_file := wsub re.reference_location base_in
    -- `segs[&reference_segment].0` (tl.rs:194): index panic
    match segFind? ms.curBase re.reference_segment with
    | none => .error .Panic
    | some base_out =>
    let reference_location := wadd location_in_file base_out
    -- `.ok_or(Error::ReferenceToNonExistantSegment)?` (tl.rs:196-199);
    -- unreachable after the index on line 193, kept for faithfulness
    match segFind? objSegs re.reference_segment with
    | none => .error .ReferenceToNonExistantSegment
    | some (base_in', bytes) =>
    -- `&symbols_out[symbol_index]`: index panic
    match ms.symbolsOut.get? symbol_index with
    | none => .error .Panic
    | some symdef =>
    let undefined := symdef.segment_type = SegmentType.Unknown
    -- the 2-byte subslice write panics when out of range
    if location_in_file + 2 ≤ bytes.length then
      let objSegs := segReplace re.reference_segment
        (base_in', setLE16 bytes location_in_file symdef.location) objSegs
      let entry : RelocationEntry :=
        ⟨re.reference_segment, reference_location, symbol_index % M16⟩
      .ok ({ ms with
              relocOut := ms.relocOut ++ [entry],
              undefinedRefs :=
                if undefined then ms.undefinedRefs ++ [entry] else ms.undefinedRefs },
           objSegs)
    else .error .Panic

/-- Entry-point propagation (tl.rs:130-133):
`entry_point = entry_point.or_else(..)`, rebasing the first carried entry
into output coordinates against the running base. -/
def mergeEntry (ms : MergeSt) (obj : Object) : Except LinkError MergeSt :=
  match ms.entry, obj.entry with
  | none, some (st, ep) =>
      -- `obj.segs[&st].0` and `segs[&st].0`: index panics
      match segFind? obj.segs st, segFind? ms.curBase st with
      | some (b, _), some cb =>
          .ok { ms with entry := some (st, wadd (wsub ep b) cb) }
      | _, _ => .error LinkError.Panic
  | _, _ => .ok ms

/-- One iteration of the byte-concatenation loop (tl.rs:220-224): advance the
running base copy and extend the output segment's bytes. -/
def concatStep :
    Except LinkError MergeSt → (SegmentType × (Nat × List Nat)) →
    Except LinkError MergeSt
  | .error e, _ => .error e
  | .ok ms, sv =>
    -- `segs.get_mut(&t).expect("segment guaranteed to exist")`
    match segFind? ms.curBase sv.1, segFind? ms.segsOut sv.1 with
    | some cb, some bo =>
        .ok { ms with
          curBase := segReplace sv.1 (wadd cb (sv.2.2.length % M16)) ms.curBase,
          segsOut := segReplace sv.1 (bo.1, bo.2 ++ sv.2.2) ms.segsOut }
    | _, _ => .error LinkError.Panic

/-- The per-object merge (tl.rs:129-225): entry-point propagation, symbol
rewriting, relocation re-keying with eager patching, byte concatenation. -/
def processObject (strip_internal : Bool) :
    Except LinkError MergeSt → (String × Object) → Except LinkError MergeSt
  | .error e, _ => .error e
  | .ok ms, input =>
    match mergeEntry ms input.2 with
    | .error e => .error e
    | .ok ms =>
      let fs := input.2.symbols.foldl
        (processSymbol strip_internal input.1 input.2.segs) (ms, [])
      match input.2.relocation_table.foldl (processReloc fs.2) (.ok (fs.1, input.2.segs)) with
      | .error e => .error e
      | .ok mos => mos.2.foldl concatStep (.ok mos.1)

/-- One iteration of the final resolution pass over the undefined-references
list (tl.rs:228-251): if the symbol is still `Unknown`, report it (executable
mode only) and leave the bytes; otherwise patch the output bytes at the
rebased location with the symbol's final little-endian address. -/
def finalResolve (executable : Bool) (symbolsOut : List SymbolDefinition) :
    Except LinkError (List (SegmentType × (Nat × List Nat)) × List Diag × Bool) →
    RelocationEntry →
    Except LinkError (List (SegmentType × (Nat × List Nat)) × List Diag × Bool)
  | .error e, _ => .error e
  | .ok (segsOut, diags, failure), re =>
    -- `&symbols_out[symbol_index as usize]`: index panic
    match symbolsOut.get? re.symbol_index with
    | none => .error .Panic
    | some symdef =>
    if symdef.segment_type = SegmentType.Unknown then
      if executable then
        .ok (segsOut, diags ++ [.UndefinedRef symdef.name symdef.location], true)
      else
        .ok (segsOut, diags, failure)
    else
      -- `segs_out.get_mut(..).expect("would have been caught earlier")`
      match segFind? segsOut re.reference_segment with
      | none => .error .Panic
      | some (b, bytes) =>
      let index := wsub re.reference_location b
      if index + 2 ≤ bytes.length then
        .ok (segReplace re.reference_segment (b, setLE16 bytes index symdef.location) segsOut,
             diags, failure)
      else .error .Panic

/-- `u16::from_str_radix(s, 16)` on the characters of `s`: an optional
leading `+`, then at least one hexadecimal digit, and the value must fit in
16 bits. -/
def parseHexU16 (s : List Char) : Option Nat :=
  let t := match s with | '+' :: rest => rest | cs => cs
  if t ≠ [] ∧ t.all
      (fun c => c.isDigit || ('a' ≤ c && c ≤ 'f') || ('A' ≤ c && c ≤ 'F')) then
    let v := t.foldl
      (fun a c =>
        a * 16 + (if c.isDigit then c.toNat - 48
                  else if c.isLower then c.toNat - 87 else c.toNat - 55))
      0
    if v < M16 then some v else none
  else none

/-- The `-E` entry-point override (tl.rs:253-270): a `0x`-prefixed argument
is parsed as 16-bit hex with segment `Zero` (a parse failure is the fatal
`InvalidEntryPointFormat`); otherwise the argument is looked up among the
global symbols, and a missing symbol is reported and fails the link. -/
def applySetEntry (set_entry : Option String) (ms : MergeSt) :
    Except LinkError MergeSt :=
  match set_entry with
  | none => .ok ms
  | some entry =>
      -- `entry.strip_prefix("0x")`, modelled on the character list
      match entry.data with
      | '0' :: 'x' :: rest =>
          (match parseHexU16 rest with
          | some v => .ok { ms with entry := some (SegmentType.Zero, v) }
          | none => .error .InvalidEntryPointFormat)
      | _ =>
        match strFind? ms.globalSymbols entry with
        | some pos =>
            -- `&symbols_out[pos]`
            match ms.symbolsOut.get? pos with
            | some sym => .ok { ms with entry := some (sym.segment_type, sym.location) }
            | none => .error .Panic
        | none =>
            .ok { ms with diags := ms.diags ++ [.StartSymbolNotFound entry],
                          failure := true,
                          entry := some (SegmentType.Unknown, 0xffff) }

/-- The shebang line written in executable mode (`writeln!(file, "#!/bin/env t")`). -/
def shebang : String := "#!/bin/env t\n"

/-- The observable output of a successful link: the object handed to
`write_to_file` (serialisation itself lives outside the sources), whether
the shebang line was written before it, and whether the executable
permission bits were added.  `chmodExec` is `false` on every path because
the `set_mode(mode | 0o111)` call is commented out in tl.rs:300 — the file's
permissions are read and written back unchanged. -/
structure LinkOutput where
  obj : Object
  shebangWritten : Bool
  chmodExec : Bool
  deriving DecidableEq, Repr, Inhabited

deriving instance DecidableEq for Except

/-- `tl_main` (tl.rs:78-307) minus the file I/O: link the given
`(path, object)` inputs and return the stderr diagnostics together with
either the produced output or the error.  On a `Panic` the process aborts;
the diagnostics already printed are not modelled on that path. -/
def tl_link (input_files : List (String × Object)) (set_entry : Option String)
    (strip_internal executable : Bool) : List Diag × Except LinkError LinkOutput :=
  let layout := segLayout input_files
  match input_files.foldl (processObject strip_internal) (.ok (initMergeSt layout)) with
  | .error e => ([], .error e)
  | .ok ms =>
      match ms.undefinedRefs.foldl (finalResolve executable ms.symbolsOut)
          (.ok (ms.segsOut, ms.diags, ms.failure)) with
      | .error e => ([], .error e)
      | .ok (segsOut, diags, failure) =>
          let ms := { ms with segsOut := segsOut, diags := diags, failure := failure }
          match applySetEntry set_entry ms with
          | .error e => (ms.diags, .error e)
          | .ok ms =>
              if ms.failure then (ms.diags, .error .ObjectFailure)
              else
                let obj : Object :=
                  { segs := ms.segsOut, symbols := ms.symbolsOut,
                    relocation_table := ms.relocOut, entry := ms.entry, file_offset := 0 }
                if executable then
                  match obj.entry with
                  | none => (ms.diags, .error .NoEntryPoint)
                  | some _ =>
                      (ms.diags, .ok { obj := { obj with file_offset := shebang.length },
                                       shebangWritten := true, chmodExec := false })
                else
                  (ms.diags, .ok { obj := obj, shebangWritten := false, chmodExec := false })

/-- The two bytes an output segment map holds at a relocation's site
(`reference_location` rebased against the segment's base). -/
def relocSlot (segs : List (SegmentType × (Nat × List Nat)))
    (re : RelocationEntry) : Option (List Nat) :=
  (segFind? segs re.reference_segment).map
    (fun p => [p.2.getD (wsub re.reference_location p.1) 0,
               p.2.getD (wsub re.reference_location p.1 + 1) 0])

/-- The relocation's segment is present and its 2-byte site lies inside the
segment's bytes. -/
def InRange (segs : List (SegmentType × (Nat × List Nat)))
    (e : RelocationEntry) : Prop :=
  ∃ b bs, segFind? segs e.reference_segment = some (b, bs) ∧
    b ≤ e.reference_location ∧ e.reference_location < M16 ∧
    e.reference_location - b + 2 ≤ bs.length

/-- Two relocations touch disjoint 2-byte sites (or different segments). -/
def Rdisj (e1 e2 : RelocationEntry) : Prop :=
  e1.reference_segment ≠ e2.reference_segment ∨
    e1.reference_location + 2 ≤ e2.reference_location ∨
    e2.reference_location + 2 ≤ e1.reference_location

/-- An input object whose single `Text` relocation site refers to the global
`helper`, which it leaves undefined (`Unknown`, location 0): one opcode byte
followed by the 2-byte slot at location 0x101. -/
def objRefHelper : Object :=
  { segs := [(SegmentType.Text, (256, [1, 0, 0]))],
    symbols := [{ name := "helper", is_global := true,
                  segment_type := SegmentType.Unknown, location := 0 }],
    relocation_table := [{ reference_segment := SegmentType.Text,
                           reference_location := 257, symbol_index := 0 }] }

/-- An input object that defines the global `helper` at the start of its own
one-byte `Text` segment. -/
def objDefHelper : Object :=
  { segs := [(SegmentType.Text, (256, [9]))],
    symbols := [{ name := "helper", is_global := true,
                  segment_type := SegmentType.Text, location := 256 }] }

/-- An entryless input object contributing two `Text` bytes. -/
def objPad : Object := { segs := [(SegmentType.Text, (0, [5, 5]))] }

/-- An input object carrying entry point `(Text, 1)` in a two-byte `Text`
segment based at 0. -/
def objEntryOne : Object :=
  { segs := [(SegmentType.Text, (0, [7, 7]))], entry := some (SegmentType.Text, 1) }

/-- An input object carrying entry point `(Text, 0)`. -/
def objEntryZero : Object :=
  { segs := [(SegmentType.Text, (0, [7, 7]))], entry := some (SegmentType.Text, 0) }

/-- An input object defining the global `start` at offset 1 of its `Text`
segment. -/
def objStart : Object :=
  { segs := [(SegmentType.Text, (0, [7, 7]))],
    symbols := [{ name := "start", is_global := true,
                  segment_type := SegmentType.Text, location := 1 }] }

/-- A self-contained input object: a three-byte `Text` segment whose slot at
location 1 refers to the global `f` defined at location 1, with entry point
`(Text, 0)`. -/
def objSelf : Object :=
  { segs := [(SegmentType.Text, (0, [1, 0, 0]))],
    symbols := [{ name := "f", is_global := true,
                  segment_type := SegmentType.Text, location := 1 }],
    relocation_table := [{ reference_segment := SegmentType.Text,
                           reference_location := 1, symbol_index := 0 }],
    entry := some (SegmentType.Text, 0) }

/-- The running insertion base (`segs[&st].0`, the mutable copy the merge
loop advances) of every output segment equals the segment's fixed output
base plus, modulo 2^16, the number of bytes already placed into it. -/
def CBInv (ms : MergeSt) : Prop :=
  ∀ st p, segFind? ms.segsOut st = some p →
    segFind? ms.curBase st = some (wadd p.1 (p.2.length % M16))

/-- The output segment bases assigned by the layout, as the initial running
bases (`initMergeSt`'s `curBase`). -/
def layoutBases (inputs : List (String × Object)) : List (SegmentType × Nat) :=
  (segLayout inputs).map (fun q => (q.1, q.2.1))

/-- Spec side of the C5 refinement: the claimed output symbol table of a
single-object link — the input's symbol table with every location re-based
to the output's segment bases. -/
def specLinkSymbols (o : Object) (curBase : List (SegmentType × Nat)) :
    List SymbolDefinition :=
  o.symbols.map (rebasedSym o.segs curBase)

/-- Spec side of the C5 refinement: the claimed output relocation table of a
single-object link — the input's relocation table with every reference
location re-based to the output's segment bases and the symbol indices
unchanged. -/
def specLinkRelocs (o : Object) (curBase : List (SegmentType × Nat)) :
    List RelocationEntry :=
  o.relocation_table.map (fun re =>
    RelocationEntry.mk re.reference_segment
      (rebaseLocation o.segs curBase re.reference_segment re.reference_location)
      re.symbol_index)

/-- Spec side of the C5 refinement: write one relocation's 2-byte slot with
the little-endian (re-based) location of its symbol, in input coordinates. -/
def specPatchSlot (syms : List SymbolDefinition)
    (segs : List (SegmentType × (Nat × List Nat))) (re : RelocationEntry) :
    List (SegmentType × (Nat × List Nat)) :=
  match segFind? segs re.reference_segment, syms.get? re.symbol_index with
  | some (b, bytes), some sym =>
      segReplace re.reference_segment
        (b, setLE16 bytes (wsub re.reference_location b) sym.location) segs
  | _, _ => segs

/-- Spec side of the C5 refinement: the claimed output segment contents of a
single-object link — the input's segment bytes with every relocation slot
holding the re-based location of its symbol (still at the input bases; the
link then only moves each segment to its output base). -/
def specLinkSegs (o : Object) (curBase : List (SegmentType × Nat)) :
    List (SegmentType × (Nat × List Nat)) :=
  o.relocation_table.foldl (specPatchSlot (specLinkSymbols o curBase)) o.segs

/-! ## Infrastructure for reasoning about the linker folds -/

theorem foldl_except_error {σ β : Type} (f : Except LinkError σ → β → Except LinkError σ)
    (herr : ∀ e b, f (.error e) b = .error e) :
    ∀ (l : List β) (e : LinkError), l.foldl f (.error e) = .error e := by
  intro l
  induction l with
  | nil => intro e; rfl
  | cons b rest ih => intro e; rw [List.foldl_cons, herr]; exact ih e

/-- Invariant preservation along a fold with `Except` accumulator. -/
theorem foldl_except_ok {σ β : Type} (f : Except LinkError σ → β → Except LinkError σ)
    (P : σ → Prop)
    (herr : ∀ e b, f (.error e) b = .error e)
    (hstep : ∀ s b s', f (.ok s) b = .ok s' → P s → P s') :
    ∀ (l : List β) (s s' : σ), l.foldl f (.ok s) = .ok s' → P s → P s' := by
  intro l
  induction l with
  | nil =>
      intro s s' h hp
      cases h
      exact hp
  | cons b rest ih =>
      intro s s' h hp
      rw [List.foldl_cons] at h
      rcases hf : f (.ok s) b with e | s1
      · rw [hf, foldl_except_error f herr] at h
        cases h
      · rw [hf] at h
        exact ih s1 s' h (hstep s b s1 hf hp)

theorem segFind?_mem {α : Type} {m : List (SegmentType × α)} {k : SegmentType} {v : α}
    (h : segFind? m k = some v) : (k, v) ∈ m := by
  unfold segFind? at h
  rcases hf : m.find? (fun p => p.1 = k) with _ | q
  · rw [hf] at h; cases h
  · rw [hf] at h
    have hq1 : q.1 = k := by simpa using List.find?_some hf
    have hq2 : q.2 = v := by simpa using h
    have hm := List.mem_of_find?_eq_some hf
    rw [← hq1, ← hq2]
    simpa using hm

theorem segReplace_mem {α : Type} {k : SegmentType} {v : α}
    {m : List (SegmentType × α)} {q : SegmentType × α}
    (h : q ∈ segReplace k v m) : q = (k, v) ∨ q ∈ m := by
  unfold segReplace at h
  obtain ⟨p, hp, hpq⟩ := List.mem_map.mp h
  by_cases hk : p.1 = k
  · left; rw [← hpq, if_pos hk]
  · right; rw [← hpq, if_neg hk]; exact hp

theorem segErase_ne {α : Type} {k : SegmentType} {m : List (SegmentType × α)}
    {q : SegmentType × α} (h : q ∈ segErase k m) : ¬q.1 = k := by
  unfold segErase at h
  simpa using (List.mem_filter.mp h).2

/-! ## Claim about the segment layout (C7) -/

theorem align_mod (x : Nat) : align x SEGMENT_ALIGNMENT % SEGMENT_ALIGNMENT = 0 := by
  have hdvd : SEGMENT_ALIGNMENT ∣
      (SEGMENT_ALIGNMENT * ((x + SEGMENT_ALIGNMENT - 1) / SEGMENT_ALIGNMENT)) % M16 := by
    rw [Nat.dvd_mod_iff ⟨256, by norm_num [M16, SEGMENT_ALIGNMENT]⟩]
    exact dvd_mul_right _ _
  obtain ⟨c, hc⟩ := hdvd
  rw [align, hc, Nat.mul_mod_right]

theorem layout_fold_mem :
    ∀ (l : List (SegmentType × Nat)) (acc : List (SegmentType × (Nat × List Nat)) × Nat)
      (q : SegmentType × (Nat × List Nat)),
      q ∈ (l.foldl layoutStep acc).1 →
      q ∈ acc.1 ∨ (q.2.1 % SEGMENT_ALIGNMENT = 0 ∧ q.1 ∈ l.map Prod.fst) := by
  intro l
  induction l with
  | nil => intro acc q h; exact .inl h
  | cons sv rest ih =>
      intro acc q h
      rw [List.foldl_cons] at h
      rcases ih (layoutStep acc sv) q h with h1 | h2
      · unfold layoutStep at h1
        rcases List.mem_append.mp h1 with h1 | h1
        · exact .inl h1
        · right
          have hq : q = (sv.1, (align acc.2 SEGMENT_ALIGNMENT, ([] : List Nat))) := by
            simpa using h1
          constructor
          · rw [hq]; exact align_mod acc.2
          · rw [hq]; simp
      · exact .inr ⟨h2.1, by simp [h2.2]⟩

/-- All layout entries have an aligned base and a non-`Zero` key. -/
theorem segLayout_aligned {objects : List (String × Object)}
    {q : SegmentType × (Nat × List Nat)} (h : q ∈ segLayout objects) :
    q.2.1 % SEGMENT_ALIGNMENT = 0 ∧ q.1 ≠ SegmentType.Zero := by
  unfold segLayout at h
  rcases layout_fold_mem _ _ _ h with h1 | h2
  · simp at h1
  · refine ⟨h2.1, ?_⟩
    obtain ⟨p, hp, hpq⟩ := List.mem_map.mp h2.2
    rw [← hpq]
    exact segErase_ne hp

/-- Bases and keys of the output segments: the property preserved from the
layout through the whole link. -/
def SegsAligned (m : List (SegmentType × (Nat × List Nat))) : Prop :=
  ∀ q ∈ m, q.2.1 % SEGMENT_ALIGNMENT = 0 ∧ q.1 ≠ SegmentType.Zero

/-- Entry-point propagation changes nothing but the entry field. -/
theorem mergeEntry_frame (ms : MergeSt) (obj : Object) (ms' : MergeSt)
    (h : mergeEntry ms obj = .ok ms') :
    ms'.segsOut = ms.segsOut ∧ ms'.curBase = ms.curBase ∧
      ms'.globalSymbols = ms.globalSymbols ∧ ms'.symbolsOut = ms.symbolsOut ∧
      ms'.relocOut = ms.relocOut ∧ ms'.undefinedRefs = ms.undefinedRefs ∧
      ms'.diags = ms.diags ∧ ms'.failure = ms.failure := by
  unfold mergeEntry at h
  split at h
  · split at h
    · cases h; exact ⟨rfl, rfl, rfl, rfl, rfl, rfl, rfl, rfl⟩
    · cases h
  · cases h; exact ⟨rfl, rfl, rfl, rfl, rfl, rfl, rfl, rfl⟩

theorem concatStep_aligned (s : MergeSt) (b : SegmentType × (Nat × List Nat))
    (s' : MergeSt) (h : concatStep (.ok s) b = .ok s')
    (hp : SegsAligned s.segsOut) : SegsAligned s'.segsOut := by
  simp only [concatStep] at h
  split at h
  · rename_i cb bo h1 h2
    cases h
    intro q hq
    rcases segReplace_mem hq with h3 | h3
    · have := hp (b.1, bo) (segFind?_mem h2)
      rw [h3]
      exact ⟨this.1, this.2⟩
    · exact hp q h3
  · cases h

theorem processReloc_fold_segsOut (fstos : List Nat)
    (l : List RelocationEntry) (s : MergeSt × List (SegmentType × (Nat × List Nat)))
    (s' : MergeSt × List (SegmentType × (Nat × List Nat)))
    (h : l.foldl (processReloc fstos) (.ok s) = .ok s') :
    s'.1.segsOut = s.1.segsOut ∧ s'.1.curBase = s.1.curBase ∧
      s'.1.symbolsOut = s.1.symbolsOut ∧ s'.1.entry = s.1.entry ∧
      s'.1.globalSymbols = s.1.globalSymbols ∧ s'.1.diags = s.1.diags ∧
      s'.1.failure = s.1.failure := by
  have := foldl_except_ok (processReloc fstos)
    (fun t => t.1.segsOut = s.1.segsOut ∧ t.1.curBase = s.1.curBase ∧
      t.1.symbolsOut = s.1.symbolsOut ∧ t.1.entry = s.1.entry ∧
      t.1.globalSymbols = s.1.globalSymbols ∧ t.1.diags = s.1.diags ∧
      t.1.failure = s.1.failure)
    (fun e b => rfl) ?step l s s' h ⟨rfl, rfl, rfl, rfl, rfl, rfl, rfl⟩
  · exact this
  case step =>
    intro t b t' hstep hp
    rcases t with ⟨ms, objSegs⟩
    simp only [processReloc] at hstep
    split at hstep
    · cases hstep
    split at hstep
    · cases hstep
    split at hstep
    · cases hstep
    split at hstep
    · cases hstep
    split at hstep
    · cases hstep
    split at hstep
    · cases hstep
      exact hp
    · cases hstep

/-- Frame of one symbol-rewriting step: it only touches the symbol table,
the global map, the diagnostics and the failure flag. -/
theorem processSymbol_step_frame (strip : Bool) (file : String)
    (objSegs : List (SegmentType × (Nat × List Nat)))
    (s : MergeSt × List Nat) (sym : SymbolDefinition) :
    (processSymbol strip file objSegs s sym).1.segsOut = s.1.segsOut ∧
    (processSymbol strip file objSegs s sym).1.curBase = s.1.curBase ∧
    (processSymbol strip file objSegs s sym).1.entry = s.1.entry ∧
    (processSymbol strip file objSegs s sym).1.relocOut = s.1.relocOut ∧
    (processSymbol strip file objSegs s sym).1.undefinedRefs = s.1.undefinedRefs := by
  rcases s with ⟨ms, fstos⟩
  simp only [processSymbol]
  split
  · split
    · exact ⟨rfl, rfl, rfl, rfl, rfl⟩
    · split
      · exact ⟨rfl, rfl, rfl, rfl, rfl⟩
      · split
        · exact ⟨rfl, rfl, rfl, rfl, rfl⟩
        · exact ⟨rfl, rfl, rfl, rfl, rfl⟩
  · exact ⟨rfl, rfl, rfl, rfl, rfl⟩

/-- Frame of the symbol-rewriting fold. -/
theorem processSymbol_fold_frame (strip : Bool) (file : String)
    (objSegs : List (SegmentType × (Nat × List Nat)))
    (syms : List SymbolDefinition) :
    ∀ (s : MergeSt × List Nat),
      (syms.foldl (processSymbol strip file objSegs) s).1.segsOut = s.1.segsOut ∧
      (syms.foldl (processSymbol strip file objSegs) s).1.curBase = s.1.curBase ∧
      (syms.foldl (processSymbol strip file objSegs) s).1.entry = s.1.entry ∧
      (syms.foldl (processSymbol strip file objSegs) s).1.relocOut = s.1.relocOut ∧
      (syms.foldl (processSymbol strip file objSegs) s).1.undefinedRefs = s.1.undefinedRefs := by
  induction syms with
  | nil => intro s; exact ⟨rfl, rfl, rfl, rfl, rfl⟩
  | cons sym rest ih =>
      intro s
      rw [List.foldl_cons]
      have h1 := processSymbol_step_frame strip file objSegs s sym
      have h2 := ih (processSymbol strip file objSegs s sym)
      exact ⟨h2.1.trans h1.1, h2.2.1.trans h1.2.1, h2.2.2.1.trans h1.2.2.1,
        h2.2.2.2.1.trans h1.2.2.2.1, h2.2.2.2.2.trans h1.2.2.2.2⟩

theorem processObject_aligned (strip : Bool) (s : MergeSt) (b : String × Object)
    (s' : MergeSt) (h : processObject strip (.ok s) b = .ok s')
    (hp : SegsAligned s.segsOut) : SegsAligned s'.segsOut := by
  simp only [processObject] at h
  split at h
  · cases h
  rename_i ms1 h1
  split at h
  · cases h
  rename_i mos h2
  have hme := mergeEntry_frame s b.2 ms1 h1
  have hsym := processSymbol_fold_frame strip b.1 b.2.segs b.2.symbols (ms1, [])
  have hrel := processReloc_fold_segsOut _ _ _ _ h2
  have hmos : mos.1.segsOut = s.segsOut := by
    rw [hrel.1]
    rw [hsym.1]
    exact hme.1
  exact foldl_except_ok concatStep (fun t => SegsAligned t.segsOut)
    (fun e b => rfl) (fun t b t' ht hq => concatStep_aligned t b t' ht hq)
    mos.2 mos.1 s' h (by show SegsAligned mos.1.segsOut; rw [hmos]; exact hp)

theorem finalResolve_fold_aligned (exe : Bool) (syms : List SymbolDefinition)
    (l : List RelocationEntry)
    (s s' : List (SegmentType × (Nat × List Nat)) × List Diag × Bool)
    (h : l.foldl (finalResolve exe syms) (.ok s) = .ok s')
    (hp : SegsAligned s.1) : SegsAligned s'.1 := by
  refine foldl_except_ok (finalResolve exe syms) (fun t => SegsAligned t.1)
    (fun e b => rfl) ?_ l s s' h hp
  intro t b t' ht hq
  rcases t with ⟨segsOut, diags, failure⟩
  simp only [finalResolve] at ht
  split at ht
  · cases ht
  split at ht
  · split at ht
    · cases ht; exact hq
    · cases ht; exact hq
  · split at ht
    · cases ht
    rename_i bs bytes h3
    split at ht
    · cases ht
      intro q hqm
      rcases segReplace_mem hqm with h5 | h5
      · have := hq (b.reference_segment, (bs, bytes)) (segFind?_mem h3)
        rw [h5]
        exact ⟨this.1, this.2⟩
      · exact hq q h5
    · cases ht

/-- The `-E` handling changes nothing but the entry, the diagnostics and the
failure flag. -/
theorem applySetEntry_frame (se : Option String) (ms ms' : MergeSt)
    (h : applySetEntry se ms = .ok ms') :
    ms'.segsOut = ms.segsOut ∧ ms'.curBase = ms.curBase ∧
      ms'.globalSymbols = ms.globalSymbols ∧ ms'.symbolsOut = ms.symbolsOut ∧
      ms'.relocOut = ms.relocOut ∧ ms'.undefinedRefs = ms.undefinedRefs := by
  unfold applySetEntry at h
  split at h
  · cases h; exact ⟨rfl, rfl, rfl, rfl, rfl, rfl⟩
  · split at h
    · split at h
      · cases h; exact ⟨rfl, rfl, rfl, rfl, rfl, rfl⟩
      · cases h
    · split at h
      · split at h
        · cases h; exact ⟨rfl, rfl, rfl, rfl, rfl, rfl⟩
        · cases h
      · cases h; exact ⟨rfl, rfl, rfl, rfl, rfl, rfl⟩

/-- C7 (spec-modelled: `align` and `SEGMENT_ALIGNMENT` live in the library
crate outside the sources and are modelled from the spec — `align` rounds up
to the next multiple of the 16-bit power-of-two alignment, instantiated at
256): the linker's segment layout (`segLayout`) assigns every non-`Zero`
output segment, iterated in key order, a base equal to the running
high-water mark (initialised to `max(length_of_Zero, SEGMENT_ALIGNMENT)`)
rounded up to `SEGMENT_ALIGNMENT` — that is `layoutStep` — so every layout
entry, and every segment of a successfully linked output object, satisfies
`base % SEGMENT_ALIGNMENT = 0`; the `Zero` segment is never among them (it
keeps its implicit base 0). -/
theorem output_segment_bases_aligned :
    (∀ (objects : List (String × Object)) (st : SegmentType) (p : Nat × List Nat),
      segFind? (segLayout objects) st = some p →
      p.1 % SEGMENT_ALIGNMENT = 0 ∧ st ≠ SegmentType.Zero) ∧
    (∀ (inputs : List (String × Object)) (se : Option String) (strip exe : Bool)
       (diags : List Diag) (out : LinkOutput),
      tl_link inputs se strip exe = (diags, .ok out) →
      ∀ (st : SegmentType) (p : Nat × List Nat),
        segFind? out.obj.segs st = some p →
        p.1 % SEGMENT_ALIGNMENT = 0 ∧ st ≠ SegmentType.Zero) := by
  constructor
  · intro objects st p h
    have := segLayout_aligned (segFind?_mem h)
    exact this
  · intro inputs se strip exe diags out h st p hf
    simp only [tl_link] at h
    split at h
    · exact absurd (congrArg Prod.snd h) (by simp)
    rename_i ms h1
    have hms : SegsAligned ms.segsOut := by
      refine foldl_except_ok (processObject strip) (fun t => SegsAligned t.segsOut)
        (fun e b => rfl) (fun t b t' ht hq => processObject_aligned strip t b t' ht hq)
        inputs _ ms h1 ?_
      intro q hq
      exact segLayout_aligned hq
    split at h
    · exact absurd (congrArg Prod.snd h) (by simp)
    rename_i segsOut2 diags2 failure2 h2
    have hfr : SegsAligned segsOut2 :=
      finalResolve_fold_aligned exe ms.symbolsOut ms.undefinedRefs _ _ h2 hms
    split at h
    · exact absurd (congrArg Prod.snd h) (by simp)
    rename_i ms3 h3
    have hfr3 : SegsAligned ms3.segsOut := by
      rw [(applySetEntry_frame se _ ms3 h3).1]
      exact hfr
    split at h
    · exact absurd (congrArg Prod.snd h) (by simp)
    split at h
    · split at h
      · exact absurd (congrArg Prod.snd h) (by simp)
      · have h5 := congrArg Prod.snd h
        injection h5 with h6
        rw [← h6] at hf
        exact hfr3 (st, p) (segFind?_mem hf)
    · have h5 := congrArg Prod.snd h
      injection h5 with h6
      rw [← h6] at hf
      exact hfr3 (st, p) (segFind?_mem hf)

/-- Witness for `output_segment_bases_aligned` at a one-object link: the
`Text` segment gets base 256. -/
theorem output_segment_bases_aligned_witness :
    ((256 : Nat), ([] : List Nat)).1 % SEGMENT_ALIGNMENT = 0 ∧
    SegmentType.Text ≠ SegmentType.Zero ∧
    ((256 : Nat), ([7] : List Nat)).1 % SEGMENT_ALIGNMENT = 0 :=
  have h1 := output_segment_bases_aligned.1
    [("c.to", { segs := [(.Text, (0, [7]))] })] .Text (256, []) (by decide)
  have h2 := output_segment_bases_aligned.2
    [("c.to", { segs := [(.Text, (0, [7]))] })] none false false []
    { obj := { segs := [(.Text, (256, [7]))] }, shebangWritten := false,
      chmodExec := false }
    (by decide) .Text (256, [7]) (by decide)
  ⟨h1.1, h1.2, h2.1⟩

/-! ## Claim about executable emission (C3) -/

/-- C3, evaluated at the failing input (a single-object executable link):
with an entry point the link succeeds, the shebang line `#!/bin/env t\n` is
written first, the byte offset after it (13) is recorded as the object's
`file_offset` and the object is serialised there — but `chmodExec` is
`false`: the output file's permission bits are NOT union-ed with `0o111`,
because the `set_mode` call is commented out (tl.rs:300).  Without any entry
point the link fails with `NoEntryPoint` as claimed. -/
theorem executable_emission_behaviour :
    tl_link [("c.to", { segs := [(.Text, (0, [7]))], entry := some (.Text, 0) })]
        none false true
      = ([], .ok { obj := { segs := [(.Text, (256, [7]))], entry := some (.Text, 256),
                            file_offset := 13 },
                   shebangWritten := true, chmodExec := false }) ∧
    shebang = "#!/bin/env t\n" ∧ shebang.length = 13 ∧
    tl_link [("c.to", { segs := [(.Text, (0, [7]))] })] none false true
      = ([], .error .NoEntryPoint) := by
  exact ⟨by decide, rfl, by decide, by decide⟩

/-! ## Claim about duplicate globals (C2): invariants of the symbol merge -/

theorem strFind?_cons_self (m : List (String × Nat)) (k : String) (v : Nat) :
    strFind? ((k, v) :: m) k = some v := by
  simp [strFind?, List.find?_cons]

theorem strFind?_cons_ne (m : List (String × Nat)) (k k' : String) (v : Nat)
    (h : k' ≠ k) : strFind? ((k, v) :: m) k' = strFind? m k' := by
  simp only [strFind?, List.find?_cons]
  have : (fun p : String × Nat => decide (p.1 = k')) (k, v) = false := by
    simpa using Ne.symm h
  simp only [this]

theorem getD_append_left {α : Type} [Inhabited α] (l : List α) (x : α) (i : Nat)
    (h : i < l.length) : (l ++ [x]).getD i default = l.getD i default := by
  rw [List.getD_eq_getElem?_getD, List.getD_eq_getElem?_getD,
    List.getElem?_append_left h]

theorem getD_concat {α : Type} [Inhabited α] (l : List α) (x : α) :
    (l ++ [x]).getD l.length default = x := by
  rw [List.getD_eq_getElem?_getD, List.getElem?_concat_length]
  rfl

theorem getD_set_self {α : Type} [Inhabited α] (l : List α) (i : Nat) (x : α)
    (h : i < l.length) : (l.set i x).getD i default = x := by
  rw [List.getD_eq_getElem?_getD, List.getElem?_set_self',
    List.getElem?_eq_getElem h]
  rfl

theorem getD_set_ne {α : Type} [Inhabited α] (l : List α) (i j : Nat) (x : α)
    (h : i ≠ j) : (l.set i x).getD j default = l.getD j default := by
  rw [List.getD_eq_getElem?_getD, List.getD_eq_getElem?_getD,
    List.getElem?_set_ne h]

/-- Invariant of the global-symbol map: every id it stores indexes a merged
symbol that is global and carries the mapped name. -/
def GInv (ms : MergeSt) : Prop :=
  ∀ name id, strFind? ms.globalSymbols name = some id →
    id < ms.symbolsOut.length ∧ (ms.symbolsOut.getD id default).name = name ∧
    (ms.symbolsOut.getD id default).is_global = true

/-- The name `n` is a global with a concrete (non-`Unknown`) definition in
the merged table. -/
def DefG (n : String) (ms : MergeSt) : Prop :=
  ∃ id, strFind? ms.globalSymbols n = some id ∧ id < ms.symbolsOut.length ∧
    (ms.symbolsOut.getD id default).segment_type ≠ SegmentType.Unknown

theorem rebasedSym_name (o : List (SegmentType × (Nat × List Nat)))
    (c : List (SegmentType × Nat)) (s : SymbolDefinition) :
    (rebasedSym o c s).name = s.name := rfl

theorem rebasedSym_is_global (o : List (SegmentType × (Nat × List Nat)))
    (c : List (SegmentType × Nat)) (s : SymbolDefinition) :
    (rebasedSym o c s).is_global = s.is_global := rfl

theorem rebasedSym_segment_type (o : List (SegmentType × (Nat × List Nat)))
    (c : List (SegmentType × Nat)) (s : SymbolDefinition) :
    (rebasedSym o c s).segment_type = s.segment_type := rfl

/-- Exhaustive case analysis of one symbol-rewriting step (tl.rs:138-181):
a fresh global is appended and mapped; a global re-encountered as `Unknown`
is dropped; a concrete definition upgrades a previously `Unknown` global in
place; two concrete definitions of one global emit the duplicate diagnostic
and set the failure flag; a non-global is appended (possibly stripped). -/
theorem processSymbol_spec (strip : Bool) (file : String)
    (objSegs : List (SegmentType × (Nat × List Nat)))
    (ms : MergeSt) (fstos : List Nat) (sym : SymbolDefinition) :
    (sym.is_global = true ∧ strFind? ms.globalSymbols sym.name = none ∧
      processSymbol strip file objSegs (ms, fstos) sym =
        ({ ms with
            globalSymbols := (sym.name, ms.symbolsOut.length) :: ms.globalSymbols,
            symbolsOut := ms.symbolsOut ++ [rebasedSym objSegs ms.curBase sym] },
         fstos ++ [ms.symbolsOut.length])) ∨
    (∃ id, sym.is_global = true ∧ strFind? ms.globalSymbols sym.name = some id ∧
      sym.segment_type = SegmentType.Unknown ∧
      processSymbol strip file objSegs (ms, fstos) sym = (ms, fstos ++ [id])) ∨
    (∃ id, sym.is_global = true ∧ strFind? ms.globalSymbols sym.name = some id ∧
      sym.segment_type ≠ SegmentType.Unknown ∧
      (ms.symbolsOut.getD id default).segment_type = SegmentType.Unknown ∧
      processSymbol strip file objSegs (ms, fstos) sym =
        ({ ms with symbolsOut :=
            ms.symbolsOut.set id (rebasedSym objSegs ms.curBase sym) },
         fstos ++ [id])) ∨
    (∃ id, sym.is_global = true ∧ strFind? ms.globalSymbols sym.name = some id ∧
      sym.segment_type ≠ SegmentType.Unknown ∧
      (ms.symbolsOut.getD id default).segment_type ≠ SegmentType.Unknown ∧
      processSymbol strip file objSegs (ms, fstos) sym =
        ({ ms with
            diags := ms.diags ++ [.DupGlobal sym.name file
              (rebaseLocation objSegs ms.curBase sym.segment_type sym.location)
              sym.segment_type],
            failure := true },
         fstos ++ [id])) ∨
    (sym.is_global = false ∧
      ∃ sd, processSymbol strip file objSegs (ms, fstos) sym =
        ({ ms with symbolsOut := ms.symbolsOut ++ [sd] },
         fstos ++ [ms.symbolsOut.length]) ∧
        sd.is_global = false ∧ sd.segment_type = sym.segment_type) := by
  simp only [processSymbol]
  split
  · rename_i hgl
    split
    · rename_i hnone
      exact .inl ⟨hgl, hnone, rfl⟩
    · rename_i id hsome
      split
      · rename_i hunk
        exact .inr (.inl ⟨id, hgl, hsome, hunk, rfl⟩)
      · rename_i hnunk
        split
        · rename_i hcur
          exact .inr (.inr (.inl ⟨id, hgl, hsome, hnunk, hcur, rfl⟩))
        · rename_i hncur
          exact .inr (.inr (.inr (.inl ⟨id, hgl, hsome, hnunk, hncur, rfl⟩)))
  · rename_i hngl
    refine .inr (.inr (.inr (.inr ⟨by simpa using hngl, ?_⟩)))
    refine ⟨_, rfl, ?_, ?_⟩
    · cases strip <;> simpa using hngl
    · cases strip <;> rfl

theorem processSymbol_GInv (strip : Bool) (file : String)
    (objSegs : List (SegmentType × (Nat × List Nat)))
    (ms : MergeSt) (fstos : List Nat) (sym : SymbolDefinition)
    (hg : GInv ms) : GInv (processSymbol strip file objSegs (ms, fstos) sym).1 := by
  rcases processSymbol_spec strip file objSegs ms fstos sym with
    ⟨hgl, hnone, heq⟩ | ⟨id, hgl, hsome, hunk, heq⟩ |
    ⟨id, hgl, hsome, hnunk, hcur, heq⟩ | ⟨id, hgl, hsome, hnunk, hncur, heq⟩ |
    ⟨hngl, sd, heq, hsdg, hsdt⟩ <;> rw [heq]
  · intro name id' hfind
    by_cases hn : name = sym.name
    · subst hn
      rw [strFind?_cons_self] at hfind
      cases hfind
      refine ⟨by simp, ?_, ?_⟩
      · rw [getD_concat, rebasedSym_name]
      · rw [getD_concat, rebasedSym_is_global]; exact hgl
    · rw [strFind?_cons_ne _ _ _ _ hn] at hfind
      obtain ⟨hlen, hname, hgl'⟩ := hg name id' hfind
      exact ⟨by simp; omega, by rw [getD_append_left _ _ _ hlen]; exact hname,
        by rw [getD_append_left _ _ _ hlen]; exact hgl'⟩
  · exact hg
  · obtain ⟨hlen0, hname0, _⟩ := hg sym.name id hsome
    intro name id' hfind
    obtain ⟨hlen, hname, hgl'⟩ := hg name id' hfind
    refine ⟨by simpa using hlen, ?_, ?_⟩
    · by_cases hid : id = id'
      · subst hid
        rw [getD_set_self _ _ _ hlen0, rebasedSym_name]
        rw [hname0] at hname
        exact hname
      · rw [getD_set_ne _ _ _ _ hid]; exact hname
    · by_cases hid : id = id'
      · subst hid
        rw [getD_set_self _ _ _ hlen0, rebasedSym_is_global]
        exact hgl
      · rw [getD_set_ne _ _ _ _ hid]; exact hgl'
  · exact hg
  · intro name id' hfind
    obtain ⟨hlen, hname, hgl'⟩ := hg name id' hfind
    exact ⟨by simp; omega, by rw [getD_append_left _ _ _ hlen]; exact hname,
      by rw [getD_append_left _ _ _ hlen]; exact hgl'⟩

theorem processSymbol_DefG (strip : Bool) (file : String)
    (objSegs : List (SegmentType × (Nat × List Nat)))
    (ms : MergeSt) (fstos : List Nat) (sym : SymbolDefinition) (n : String)
    (hg : GInv ms) (hd : DefG n ms) :
    DefG n (processSymbol strip file objSegs (ms, fstos) sym).1 := by
  obtain ⟨id, hfind, hlen, hseg⟩ := hd
  rcases processSymbol_spec strip file objSegs ms fstos sym with
    ⟨hgl, hnone, heq⟩ | ⟨id0, hgl, hsome, hunk, heq⟩ |
    ⟨id0, hgl, hsome, hnunk, hcur, heq⟩ | ⟨id0, hgl, hsome, hnunk, hncur, heq⟩ |
    ⟨hngl, sd, heq, hsdg, hsdt⟩ <;> rw [heq]
  · have hn : n ≠ sym.name := by
      intro h; rw [h, hnone] at hfind; cases hfind
    refine ⟨id, ?_, by simp; omega, ?_⟩
    · rw [strFind?_cons_ne _ _ _ _ hn]; exact hfind
    · rw [getD_append_left _ _ _ hlen]; exact hseg
  · exact ⟨id, hfind, hlen, hseg⟩
  · by_cases hn : n = sym.name
    · subst hn
      rw [hfind] at hsome
      cases hsome
      refine ⟨id, hfind, by simpa using hlen, ?_⟩
      rw [getD_set_self _ _ _ hlen]
      exact hnunk
    · have hid : id0 ≠ id := by
        intro h
        subst h
        obtain ⟨-, hname1, -⟩ := hg n id0 hfind
        obtain ⟨-, hname2, -⟩ := hg sym.name id0 hsome
        exact hn (hname1.symm.trans hname2)
      refine ⟨id, hfind, by simpa using hlen, ?_⟩
      rw [getD_set_ne _ _ _ _ hid]
      exact hseg
  · exact ⟨id, hfind, hlen, hseg⟩
  · exact ⟨id, hfind, by simp; omega, by rw [getD_append_left _ _ _ hlen]; exact hseg⟩

theorem processSymbol_establish (strip : Bool) (file : String)
    (objSegs : List (SegmentType × (Nat × List Nat)))
    (ms : MergeSt) (fstos : List Nat) (sym : SymbolDefinition)
    (hg : GInv ms) (hgl : sym.is_global = true)
    (hseg : sym.segment_type ≠ SegmentType.Unknown) :
    DefG sym.name (processSymbol strip file objSegs (ms, fstos) sym).1 := by
  rcases processSymbol_spec strip file objSegs ms fstos sym with
    ⟨-, hnone, heq⟩ | ⟨id0, -, hsome, hunk, heq⟩ |
    ⟨id0, -, hsome, hnunk, hcur, heq⟩ | ⟨id0, -, hsome, hnunk, hncur, heq⟩ |
    ⟨hngl, sd, heq, hsdg, hsdt⟩ <;> rw [heq]
  · refine ⟨ms.symbolsOut.length, ?_, by simp, ?_⟩
    · rw [strFind?_cons_self]
    · rw [getD_concat]; exact hseg
  · exact absurd hunk hseg
  · obtain ⟨hlen0, -, -⟩ := hg sym.name id0 hsome
    refine ⟨id0, hsome, by simpa using hlen0, ?_⟩
    rw [getD_set_self _ _ _ hlen0]
    exact hseg
  · obtain ⟨hlen0, -, -⟩ := hg sym.name id0 hsome
    exact ⟨id0, hsome, hlen0, hncur⟩
  · rw [hgl] at hngl; cases hngl

theorem processSymbol_dup (strip : Bool) (file : String)
    (objSegs : List (SegmentType × (Nat × List Nat)))
    (ms : MergeSt) (fstos : List Nat) (sym : SymbolDefinition)
    (hg : GInv ms) (hd : DefG sym.name ms) (hgl : sym.is_global = true)
    (hseg : sym.segment_type ≠ SegmentType.Unknown) :
    (processSymbol strip file objSegs (ms, fstos) sym).1.diags
      = ms.diags ++ [.DupGlobal sym.name file
          (rebaseLocation objSegs ms.curBase sym.segment_type sym.location)
          sym.segment_type] ∧
    (processSymbol strip file objSegs (ms, fstos) sym).1.failure = true := by
  obtain ⟨id, hfind, hlen, hcur'⟩ := hd
  rcases processSymbol_spec strip file objSegs ms fstos sym with
    ⟨-, hnone, heq⟩ | ⟨id0, -, hsome, hunk, heq⟩ |
    ⟨id0, -, hsome, hnunk, hcur, heq⟩ | ⟨id0, -, hsome, hnunk, hncur, heq⟩ |
    ⟨hngl, sd, heq, hsdg, hsdt⟩
  · rw [hnone] at hfind; cases hfind
  · exact absurd hunk hseg
  · rw [hfind] at hsome
    cases hsome
    exact absurd hcur hcur'
  · rw [heq]
    exact ⟨rfl, rfl⟩
  · rw [hgl] at hngl; cases hngl

theorem processSymbol_mono (strip : Bool) (file : String)
    (objSegs : List (SegmentType × (Nat × List Nat)))
    (ms : MergeSt) (fstos : List Nat) (sym : SymbolDefinition) :
    (∃ ds, (processSymbol strip file objSegs (ms, fstos) sym).1.diags
      = ms.diags ++ ds) ∧
    (ms.failure = true → (processSymbol strip file objSegs (ms, fstos) sym).1.failure
      = true) := by
  rcases processSymbol_spec strip file objSegs ms fstos sym with
    ⟨-, -, heq⟩ | ⟨id0, -, -, -, heq⟩ | ⟨id0, -, -, -, -, heq⟩ |
    ⟨id0, -, -, -, -, heq⟩ | ⟨-, sd, heq, -, -⟩ <;> rw [heq]
  · exact ⟨⟨[], by simp⟩, fun h => h⟩
  · exact ⟨⟨[], by simp⟩, fun h => h⟩
  · exact ⟨⟨[], by simp⟩, fun h => h⟩
  · exact ⟨⟨_, rfl⟩, fun h => rfl⟩
  · exact ⟨⟨[], by simp⟩, fun h => h⟩

theorem GInv_congr {ms ms' : MergeSt} (hg : GInv ms)
    (h1 : ms'.globalSymbols = ms.globalSymbols)
    (h2 : ms'.symbolsOut = ms.symbolsOut) : GInv ms' := by
  intro name id hf
  rw [h1] at hf
  have := hg name id hf
  rw [h2]
  exact this

theorem DefG_congr {n : String} {ms ms' : MergeSt} (hd : DefG n ms)
    (h1 : ms'.globalSymbols = ms.globalSymbols)
    (h2 : ms'.symbolsOut = ms.symbolsOut) : DefG n ms' := by
  obtain ⟨id, hf, hl, hs⟩ := hd
  exact ⟨id, by rw [h1]; exact hf, by rw [h2]; exact hl, by rw [h2]; exact hs⟩

theorem symfold_GInv (strip : Bool) (file : String)
    (objSegs : List (SegmentType × (Nat × List Nat))) :
    ∀ (syms : List SymbolDefinition) (s : MergeSt × List Nat),
      GInv s.1 → GInv (syms.foldl (processSymbol strip file objSegs) s).1 := by
  intro syms
  induction syms with
  | nil => intro s h; exact h
  | cons sym rest ih =>
      intro s h
      rw [List.foldl_cons]
      rcases s with ⟨ms, fstos⟩
      exact ih _ (processSymbol_GInv _ _ _ _ _ _ h)

theorem symfold_GDefG (strip : Bool) (file : String)
    (objSegs : List (SegmentType × (Nat × List Nat))) (n : String) :
    ∀ (syms : List SymbolDefinition) (s : MergeSt × List Nat),
      GInv s.1 → DefG n s.1 →
      GInv (syms.foldl (processSymbol strip file objSegs) s).1 ∧
        DefG n (syms.foldl (processSymbol strip file objSegs) s).1 := by
  intro syms
  induction syms with
  | nil => intro s hg hd; exact ⟨hg, hd⟩
  | cons sym rest ih =>
      intro s hg hd
      rw [List.foldl_cons]
      rcases s with ⟨ms, fstos⟩
      exact ih _ (processSymbol_GInv _ _ _ _ _ _ hg)
        (processSymbol_DefG _ _ _ _ _ _ _ hg hd)

theorem symfold_mono (strip : Bool) (file : String)
    (objSegs : List (SegmentType × (Nat × List Nat))) :
    ∀ (syms : List SymbolDefinition) (s : MergeSt × List Nat),
      (∃ ds, (syms.foldl (processSymbol strip file objSegs) s).1.diags
        = s.1.diags ++ ds) ∧
      (s.1.failure = true →
        (syms.foldl (processSymbol strip file objSegs) s).1.failure = true) := by
  intro syms
  induction syms with
  | nil => intro s; exact ⟨⟨[], by simp⟩, fun h => h⟩
  | cons sym rest ih =>
      intro s
      rw [List.foldl_cons]
      rcases s with ⟨ms, fstos⟩
      obtain ⟨⟨ds1, h1⟩, hf1⟩ := processSymbol_mono strip file objSegs ms fstos sym
      obtain ⟨⟨ds2, h2⟩, hf2⟩ := ih (processSymbol strip file objSegs (ms, fstos) sym)
      exact ⟨⟨ds1 ++ ds2, by rw [h2, h1, List.append_assoc]⟩, fun h => hf2 (hf1 h)⟩

theorem symfold_establish (strip : Bool) (file : String)
    (objSegs : List (SegmentType × (Nat × List Nat))) (n : String)
    (syms : List SymbolDefinition) (s : MergeSt × List Nat)
    (hg : GInv s.1)
    (hw : ∃ w ∈ syms, w.is_global = true ∧ w.name = n ∧
      w.segment_type ≠ SegmentType.Unknown) :
    GInv (syms.foldl (processSymbol strip file objSegs) s).1 ∧
      DefG n (syms.foldl (processSymbol strip file objSegs) s).1 := by
  obtain ⟨w, hmem, hwg, hwn, hws⟩ := hw
  obtain ⟨l1, l2, rfl⟩ := List.append_of_mem hmem
  rw [List.foldl_append, List.foldl_cons]
  have hg1 := symfold_GInv strip file objSegs l1 s hg
  rcases hfold : l1.foldl (processSymbol strip file objSegs) s with ⟨ms1, f1⟩
  rw [hfold] at hg1
  refine symfold_GDefG strip file objSegs n l2 _
    (processSymbol_GInv _ _ _ _ _ _ hg1) ?_
  have := processSymbol_establish strip file objSegs ms1 f1 w hg1 hwg hws
  rwa [hwn] at this

theorem symfold_dup (strip : Bool) (file : String)
    (objSegs : List (SegmentType × (Nat × List Nat))) (n : String)
    (syms : List SymbolDefinition) (s : MergeSt × List Nat)
    (hg : GInv s.1) (hd : DefG n s.1)
    (hw : ∃ w ∈ syms, w.is_global = true ∧ w.name = n ∧
      w.segment_type ≠ SegmentType.Unknown) :
    (∃ loc seg, Diag.DupGlobal n file loc seg ∈
      (syms.foldl (processSymbol strip file objSegs) s).1.diags) ∧
    (syms.foldl (processSymbol strip file objSegs) s).1.failure = true := by
  obtain ⟨w, hmem, hwg, hwn, hws⟩ := hw
  obtain ⟨l1, l2, rfl⟩ := List.append_of_mem hmem
  rw [List.foldl_append, List.foldl_cons]
  have hgd1 := symfold_GDefG strip file objSegs n l1 s hg hd
  rcases hfold : l1.foldl (processSymbol strip file objSegs) s with ⟨ms1, f1⟩
  rw [hfold] at hgd1
  have hdn : DefG w.name ms1 := by rw [hwn]; exact hgd1.2
  obtain ⟨hdiags, hfail⟩ :=
    processSymbol_dup strip file objSegs ms1 f1 w hgd1.1 hdn hwg hws
  obtain ⟨⟨ds2, h2⟩, hf2⟩ :=
    symfold_mono strip file objSegs l2 (processSymbol strip file objSegs (ms1, f1) w)
  constructor
  · refine ⟨rebaseLocation objSegs ms1.curBase w.segment_type w.location,
      w.segment_type, ?_⟩
    rw [h2, hdiags, hwn]
    simp
  · exact hf2 hfail

theorem concatStep_frame (s : MergeSt) (b : SegmentType × (Nat × List Nat))
    (s' : MergeSt) (h : concatStep (.ok s) b = .ok s') :
    s'.globalSymbols = s.globalSymbols ∧ s'.symbolsOut = s.symbolsOut ∧
    s'.diags = s.diags ∧ s'.failure = s.failure ∧ s'.entry = s.entry ∧
    s'.relocOut = s.relocOut ∧ s'.undefinedRefs = s.undefinedRefs := by
  simp only [concatStep] at h
  split at h
  · cases h; exact ⟨rfl, rfl, rfl, rfl, rfl, rfl, rfl⟩
  · cases h

theorem concatFold_frame (l : List (SegmentType × (Nat × List Nat)))
    (s s' : MergeSt) (h : l.foldl concatStep (.ok s) = .ok s') :
    s'.globalSymbols = s.globalSymbols ∧ s'.symbolsOut = s.symbolsOut ∧
    s'.diags = s.diags ∧ s'.failure = s.failure ∧ s'.entry = s.entry ∧
    s'.relocOut = s.relocOut ∧ s'.undefinedRefs = s.undefinedRefs := by
  refine foldl_except_ok concatStep
    (fun t => t.globalSymbols = s.globalSymbols ∧ t.symbolsOut = s.symbolsOut ∧
      t.diags = s.diags ∧ t.failure = s.failure ∧ t.entry = s.entry ∧
      t.relocOut = s.relocOut ∧ t.undefinedRefs = s.undefinedRefs)
    (fun e b => rfl) ?_ l s s' h ⟨rfl, rfl, rfl, rfl, rfl, rfl, rfl⟩
  intro t b t' ht hp
  have := concatStep_frame t b t' ht
  exact ⟨this.1.trans hp.1, this.2.1.trans hp.2.1, this.2.2.1.trans hp.2.2.1,
    this.2.2.2.1.trans hp.2.2.2.1, this.2.2.2.2.1.trans hp.2.2.2.2.1,
    this.2.2.2.2.2.1.trans hp.2.2.2.2.2.1, this.2.2.2.2.2.2.trans hp.2.2.2.2.2.2⟩

/-- Destructure a successful `processObject` run into its phases. -/
theorem processObject_phases (strip : Bool) (s : MergeSt) (b : String × Object)
    (s' : MergeSt) (h : processObject strip (.ok s) b = .ok s') :
    ∃ ms1 mos,
      mergeEntry s b.2 = .ok ms1 ∧
      b.2.relocation_table.foldl
        (processReloc (b.2.symbols.foldl (processSymbol strip b.1 b.2.segs) (ms1, [])).2)
        (.ok ((b.2.symbols.foldl (processSymbol strip b.1 b.2.segs) (ms1, [])).1,
          b.2.segs)) = .ok mos ∧
      mos.2.foldl concatStep (.ok mos.1) = .ok s' := by
  simp only [processObject] at h
  split at h
  · cases h
  rename_i ms1 h1
  split at h
  · cases h
  rename_i mos h2
  exact ⟨ms1, mos, h1, h2, h⟩

theorem processObject_GInv (strip : Bool) (s : MergeSt) (b : String × Object)
    (s' : MergeSt) (h : processObject strip (.ok s) b = .ok s')
    (hg : GInv s) : GInv s' := by
  obtain ⟨ms1, mos, h1, h2, h3⟩ := processObject_phases strip s b s' h
  have hme := mergeEntry_frame s b.2 ms1 h1
  have hg1 : GInv ms1 := GInv_congr hg hme.2.2.1 hme.2.2.2.1
  have hg2 := symfold_GInv strip b.1 b.2.segs b.2.symbols (ms1, []) hg1
  have hrel := processReloc_fold_segsOut _ _ _ _ h2
  have hg3 : GInv mos.1 := GInv_congr hg2 hrel.2.2.2.2.1 hrel.2.2.1
  have hcf := concatFold_frame mos.2 mos.1 s' h3
  exact GInv_congr hg3 hcf.1 hcf.2.1

theorem processObject_GDefG (strip : Bool) (n : String) (s : MergeSt)
    (b : String × Object) (s' : MergeSt)
    (h : processObject strip (.ok s) b = .ok s')
    (hg : GInv s) (hd : DefG n s) : GInv s' ∧ DefG n s' := by
  obtain ⟨ms1, mos, h1, h2, h3⟩ := processObject_phases strip s b s' h
  have hme := mergeEntry_frame s b.2 ms1 h1
  have hg1 : GInv ms1 := GInv_congr hg hme.2.2.1 hme.2.2.2.1
  have hd1 : DefG n ms1 := DefG_congr hd hme.2.2.1 hme.2.2.2.1
  have hgd2 := symfold_GDefG strip b.1 b.2.segs n b.2.symbols (ms1, []) hg1 hd1
  have hrel := processReloc_fold_segsOut _ _ _ _ h2
  have hg3 : GInv mos.1 := GInv_congr hgd2.1 hrel.2.2.2.2.1 hrel.2.2.1
  have hd3 : DefG n mos.1 := DefG_congr hgd2.2 hrel.2.2.2.2.1 hrel.2.2.1
  have hcf := concatFold_frame mos.2 mos.1 s' h3
  exact ⟨GInv_congr hg3 hcf.1 hcf.2.1, DefG_congr hd3 hcf.1 hcf.2.1⟩

theorem processObject_establish (strip : Bool) (n : String) (s : MergeSt)
    (b : String × Object) (s' : MergeSt)
    (h : processObject strip (.ok s) b = .ok s') (hg : GInv s)
    (hw : ∃ w ∈ b.2.symbols, w.is_global = true ∧ w.name = n ∧
      w.segment_type ≠ SegmentType.Unknown) : GInv s' ∧ DefG n s' := by
  obtain ⟨ms1, mos, h1, h2, h3⟩ := processObject_phases strip s b s' h
  have hme := mergeEntry_frame s b.2 ms1 h1
  have hg1 : GInv ms1 := GInv_congr hg hme.2.2.1 hme.2.2.2.1
  have hgd2 := symfold_establish strip b.1 b.2.segs n b.2.symbols (ms1, []) hg1 hw
  have hrel := processReloc_fold_segsOut _ _ _ _ h2
  have hg3 : GInv mos.1 := GInv_congr hgd2.1 hrel.2.2.2.2.1 hrel.2.2.1
  have hd3 : DefG n mos.1 := DefG_congr hgd2.2 hrel.2.2.2.2.1 hrel.2.2.1
  have hcf := concatFold_frame mos.2 mos.1 s' h3
  exact ⟨GInv_congr hg3 hcf.1 hcf.2.1, DefG_congr hd3 hcf.1 hcf.2.1⟩

theorem processObject_dup (strip : Bool) (n : String) (s : MergeSt)
    (b : String × Object) (s' : MergeSt)
    (h : processObject strip (.ok s) b = .ok s')
    (hg : GInv s) (hd : DefG n s)
    (hw : ∃ w ∈ b.2.symbols, w.is_global = true ∧ w.name = n ∧
      w.segment_type ≠ SegmentType.Unknown) :
    (∃ loc seg, Diag.DupGlobal n b.1 loc seg ∈ s'.diags) ∧ s'.failure = true := by
  obtain ⟨ms1, mos, h1, h2, h3⟩ := processObject_phases strip s b s' h
  have hme := mergeEntry_frame s b.2 ms1 h1
  have hg1 : GInv ms1 := GInv_congr hg hme.2.2.1 hme.2.2.2.1
  have hd1 : DefG n ms1 := DefG_congr hd hme.2.2.1 hme.2.2.2.1
  have hdup := symfold_dup strip b.1 b.2.segs n b.2.symbols (ms1, []) hg1 hd1 hw
  have hrel := processReloc_fold_segsOut _ _ _ _ h2
  have hcf := concatFold_frame mos.2 mos.1 s' h3
  constructor
  · obtain ⟨loc, seg, hmem⟩ := hdup.1
    refine ⟨loc, seg, ?_⟩
    rw [hcf.2.2.1, hrel.2.2.2.2.2.1]
    exact hmem
  · rw [hcf.2.2.2.1, hrel.2.2.2.2.2.2]
    exact hdup.2

theorem processObject_mono (strip : Bool) (s : MergeSt) (b : String × Object)
    (s' : MergeSt) (h : processObject strip (.ok s) b = .ok s') :
    (∃ ds, s'.diags = s.diags ++ ds) ∧ (s.failure = true → s'.failure = true) := by
  obtain ⟨ms1, mos, h1, h2, h3⟩ := processObject_phases strip s b s' h
  have hme := mergeEntry_frame s b.2 ms1 h1
  have hsm := symfold_mono strip b.1 b.2.segs b.2.symbols (ms1, [])
  have hrel := processReloc_fold_segsOut _ _ _ _ h2
  have hcf := concatFold_frame mos.2 mos.1 s' h3
  obtain ⟨⟨ds, hds⟩, hf⟩ := hsm
  constructor
  · refine ⟨ds, ?_⟩
    rw [hcf.2.2.1, hrel.2.2.2.2.2.1, hds, hme.2.2.2.2.2.2.1]
  · intro hfail
    rw [hcf.2.2.2.1, hrel.2.2.2.2.2.2]
    exact hf (by rw [hme.2.2.2.2.2.2.2]; exact hfail)

theorem mergefold_GInv (strip : Bool) :
    ∀ (l : List (String × Object)) (s s' : MergeSt),
      l.foldl (processObject strip) (.ok s) = .ok s' → GInv s → GInv s' :=
  foldl_except_ok (processObject strip) GInv (fun e b => rfl)
    (fun s b s' h hg => processObject_GInv strip s b s' h hg)

theorem mergefold_GDefG (strip : Bool) (n : String) :
    ∀ (l : List (String × Object)) (s s' : MergeSt),
      l.foldl (processObject strip) (.ok s) = .ok s' →
      GInv s ∧ DefG n s → GInv s' ∧ DefG n s' :=
  foldl_except_ok (processObject strip) (fun t => GInv t ∧ DefG n t)
    (fun e b => rfl)
    (fun s b s' h hp => processObject_GDefG strip n s b s' h hp.1 hp.2)

theorem mergefold_mono (strip : Bool) :
    ∀ (l : List (String × Object)) (s s' : MergeSt),
      l.foldl (processObject strip) (.ok s) = .ok s' →
      (∃ ds, s'.diags = s.diags ++ ds) ∧ (s.failure = true → s'.failure = true) := by
  intro l
  induction l with
  | nil =>
      intro s s' h
      cases h
      exact ⟨⟨[], by simp⟩, fun h => h⟩
  | cons b rest ih =>
      intro s s' h
      rw [List.foldl_cons] at h
      rcases hb : processObject strip (.ok s) b with e | s1
      · rw [hb, foldl_except_error _ (fun e b => rfl)] at h
        cases h
      · rw [hb] at h
        obtain ⟨⟨ds1, h1⟩, hf1⟩ := processObject_mono strip s b s1 hb
        obtain ⟨⟨ds2, h2⟩, hf2⟩ := ih s1 s' h
        exact ⟨⟨ds1 ++ ds2, by rw [h2, h1, List.append_assoc]⟩, fun hx => hf2 (hf1 hx)⟩

theorem finalResolve_mono (exe : Bool) (syms : List SymbolDefinition)
    (l : List RelocationEntry)
    (s s' : List (SegmentType × (Nat × List Nat)) × List Diag × Bool)
    (h : l.foldl (finalResolve exe syms) (.ok s) = .ok s') :
    (∀ d ∈ s.2.1, d ∈ s'.2.1) ∧ (s.2.2 = true → s'.2.2 = true) := by
  refine foldl_except_ok (finalResolve exe syms)
    (fun t => (∀ d ∈ s.2.1, d ∈ t.2.1) ∧ (s.2.2 = true → t.2.2 = true))
    (fun e b => rfl) ?_ l s s' h ⟨fun d hd => hd, fun hx => hx⟩
  intro t b t' ht hp
  rcases t with ⟨segsOut, diags, failure⟩
  simp only [finalResolve] at ht
  split at ht
  · cases ht
  split at ht
  · split at ht
    · cases ht
      exact ⟨fun d hd => by simp only [List.mem_append]; exact .inl (hp.1 d hd),
        fun _ => rfl⟩
    · cases ht
      exact hp
  · split at ht
    · cases ht
    split at ht
    · cases ht
      exact hp
    · cases ht

theorem foldl_except_split {σ β : Type}
    (f : Except LinkError σ → β → Except LinkError σ)
    (herr : ∀ e b, f (.error e) b = .error e)
    (l1 l2 : List β) (s s' : σ)
    (h : (l1 ++ l2).foldl f (.ok s) = .ok s') :
    ∃ s1, l1.foldl f (.ok s) = .ok s1 ∧ l2.foldl f (.ok s1) = .ok s' := by
  rw [List.foldl_append] at h
  rcases h1 : l1.foldl f (.ok s) with e | s1
  · rw [h1, foldl_except_error f herr] at h
    cases h
  · rw [h1] at h
    exact ⟨s1, rfl, h⟩

theorem GInv_init (layout : List (SegmentType × (Nat × List Nat))) :
    GInv (initMergeSt layout) := by
  intro name id hf
  exact absurd hf (by simp [initMergeSt, strFind?])

/-- C2, counterexample: two objects each defining global `main` in a `Text`
segment fail the link, but the single duplicate-global diagnostic
(tl.rs:157) interpolates only the *current* input file (`b.to`) — its final
format argument is the symbol's segment, not the previous file — so the
failure does not name both file paths: `a.to` is never mentioned. -/
theorem duplicate_global_single_file_diag :
    tl_link
        [("a.to", { segs := [(.Text, (0, [0]))],
                    symbols := [⟨"main", true, .Text, 0⟩] }),
         ("b.to", { segs := [(.Text, (0, [1]))],
                    symbols := [⟨"main", true, .Text, 0⟩] })]
        none false false
      = ([.DupGlobal "main" "b.to" 257 .Text], .error .ObjectFailure) ∧
    Diag.mentionedFiles (.DupGlobal "main" "b.to" 257 .Text) = ["b.to"] ∧
    "a.to" ∉ Diag.mentionedFiles (.DupGlobal "main" "b.to" 257 .Text) :=
  ⟨by decide, rfl, by decide⟩

/-- C2, amended: when two input objects each define the same global symbol
name in concrete (non-`Unknown`) segments, the linker reports a
duplicate-global failure naming the symbol and the file path of the later
definition (not both paths), continues processing the remaining inputs to
gather further duplicate errors, fails the link at the end with
`ObjectFailure`, and writes no output file (`tl_link` returns no
`LinkOutput`).  Stated over any run whose merge and final-resolution phases
complete without a Rust panic. -/
theorem duplicate_global_failure
    (pre : List (String × Object)) (p1 p2 : String) (o1 o2 : Object)
    (rest : List (String × Object)) (n : String) (strip exe : Bool) (ms : MergeSt)
    (fr : List (SegmentType × (Nat × List Nat)) × List Diag × Bool)
    (hm : (pre ++ (p1, o1) :: (p2, o2) :: rest).foldl (processObject strip)
        (.ok (initMergeSt (segLayout (pre ++ (p1, o1) :: (p2, o2) :: rest)))) = .ok ms)
    (hfr : ms.undefinedRefs.foldl (finalResolve exe ms.symbolsOut)
        (.ok (ms.segsOut, ms.diags, ms.failure)) = .ok fr)
    (h1 : ∃ s1 ∈ o1.symbols, s1.is_global = true ∧ s1.name = n ∧
      s1.segment_type ≠ SegmentType.Unknown)
    (h2 : ∃ s2 ∈ o2.symbols, s2.is_global = true ∧ s2.name = n ∧
      s2.segment_type ≠ SegmentType.Unknown) :
    (∃ loc seg, Diag.DupGlobal n p2 loc seg ∈ fr.2.1) ∧
    ms.failure = true ∧
    tl_link (pre ++ (p1, o1) :: (p2, o2) :: rest) none strip exe
      = (fr.2.1, .error .ObjectFailure) ∧
    (∀ p3 o3 r1 r2, rest = r1 ++ (p3, o3) :: r2 →
      (∃ s3 ∈ o3.symbols, s3.is_global = true ∧ s3.name = n ∧
        s3.segment_type ≠ SegmentType.Unknown) →
      ∃ loc seg, Diag.DupGlobal n p3 loc seg ∈ fr.2.1) := by
  obtain ⟨frs, frd, frf⟩ := fr
  obtain ⟨s0, hpre, hrest0⟩ := foldl_except_split _ (fun e b => rfl) pre _ _ ms hm
  rw [List.foldl_cons] at hrest0
  rcases hp1 : processObject strip (.ok s0) (p1, o1) with e | s1
  · rw [hp1, foldl_except_error _ (fun e b => rfl)] at hrest0; cases hrest0
  rw [hp1, List.foldl_cons] at hrest0
  rcases hp2 : processObject strip (.ok s1) (p2, o2) with e | s2
  · rw [hp2, foldl_except_error _ (fun e b => rfl)] at hrest0; cases hrest0
  rw [hp2] at hrest0
  have hg0 : GInv s0 := mergefold_GInv strip pre _ s0 hpre (GInv_init _)
  have hgd1 := processObject_establish strip n s0 (p1, o1) s1 hp1 hg0 h1
  have hdup2 := processObject_dup strip n s1 (p2, o2) s2 hp2 hgd1.1 hgd1.2 h2
  have hgd2 := processObject_establish strip n s1 (p2, o2) s2 hp2 hgd1.1 h2
  have hrm := mergefold_mono strip rest s2 ms hrest0
  have hfailms : ms.failure = true := hrm.2 hdup2.2
  have hdupms : ∃ loc seg, Diag.DupGlobal n p2 loc seg ∈ ms.diags := by
    obtain ⟨loc, seg, hmem⟩ := hdup2.1
    obtain ⟨ds, hds⟩ := hrm.1
    exact ⟨loc, seg, by rw [hds]; exact List.mem_append_left _ hmem⟩
  have hfrm := finalResolve_mono exe ms.symbolsOut ms.undefinedRefs _ _ hfr
  have hfailfr : frf = true := hfrm.2 hfailms
  refine ⟨?_, hfailms, ?_, ?_⟩
  · obtain ⟨loc, seg, hmem⟩ := hdupms
    exact ⟨loc, seg, hfrm.1 _ hmem⟩
  · simp only [tl_link, hm, hfr, applySetEntry]
    simp only [hfailfr]
    simp
  · intro p3 o3 r1 r2 hr hw3
    subst hr
    obtain ⟨t1, hrest1, hrest2⟩ :=
      foldl_except_split _ (fun e b => rfl) r1 _ s2 ms hrest0
    rw [List.foldl_cons] at hrest2
    rcases hp3 : processObject strip (.ok t1) (p3, o3) with e | t2
    · rw [hp3, foldl_except_error _ (fun e b => rfl)] at hrest2; cases hrest2
    rw [hp3] at hrest2
    have hgdt1 := mergefold_GDefG strip n r1 s2 t1 hrest1 hgd2
    have hdup3 := processObject_dup strip n t1 (p3, o3) t2 hp3 hgdt1.1 hgdt1.2 hw3
    have hmono := mergefold_mono strip r2 t2 ms hrest2
    obtain ⟨loc, seg, hmem⟩ := hdup3.1
    obtain ⟨ds, hds⟩ := hmono.1
    refine ⟨loc, seg, hfrm.1 _ ?_⟩
    rw [hds]
    exact List.mem_append_left _ hmem

/-- Witness for `duplicate_global_failure` at the two-object `main` clash. -/
theorem duplicate_global_failure_witness :
    ∃ loc seg, Diag.DupGlobal "main" "b.to" loc seg ∈
      ([Diag.DupGlobal "main" "b.to" 257 SegmentType.Text] : List Diag) :=
  (duplicate_global_failure [] "a.to" "b.to"
    { segs := [(.Text, (0, [0]))], symbols := [⟨"main", true, .Text, 0⟩] }
    { segs := [(.Text, (0, [1]))], symbols := [⟨"main", true, .Text, 0⟩] }
    [] "main" false false
    { segsOut := [(.Text, (256, [0, 1]))], curBase := [(.Text, 258)],
      globalSymbols := [("main", 0)],
      symbolsOut := [⟨"main", true, .Text, 256⟩], relocOut := [],
      undefinedRefs := [], entry := none,
      diags := [.DupGlobal "main" "b.to" 257 .Text], failure := true }
    ([(.Text, (256, [0, 1]))], [.DupGlobal "main" "b.to" 257 .Text], true)
    (by decide) (by decide) (by decide) (by decide)).1

/-! ## Claim about final relocation resolution (C4) -/

theorem wsub_of_le (a b : Nat) (hb : b ≤ a) (ha : a < M16) : wsub a b = a - b := by
  unfold wsub M16
  rw [Nat.mod_eq_of_lt (show a < 65536 from ha),
    Nat.mod_eq_of_lt (show b < 65536 by unfold M16 at ha; omega),
    show a + 65536 - b = (a - b) + 65536 by omega, Nat.add_mod_right]
  exact Nat.mod_eq_of_lt (by unfold M16 at ha; omega)

theorem setLE16_length (bs : List Nat) (i w : Nat) :
    (setLE16 bs i w).length = bs.length := by
  simp [setLE16]

theorem setLE16_getD_lo (bs : List Nat) (i w : Nat) (h : i + 1 < bs.length) :
    (setLE16 bs i w).getD i 0 = w % 256 := by
  unfold setLE16
  rw [List.getD_eq_getElem?_getD, List.getElem?_set_ne (by omega),
    List.getElem?_set_self', List.getElem?_eq_getElem (by omega)]
  rfl

theorem setLE16_getD_hi (bs : List Nat) (i w : Nat) (h : i + 1 < bs.length) :
    (setLE16 bs i w).getD (i + 1) 0 = w % M16 / 256 := by
  unfold setLE16
  rw [List.getD_eq_getElem?_getD, List.getElem?_set_self',
    List.getElem?_eq_getElem (by simpa using h)]
  rfl

theorem setLE16_getD_other (bs : List Nat) (i w j : Nat)
    (h1 : j ≠ i) (h2 : j ≠ i + 1) : (setLE16 bs i w).getD j 0 = bs.getD j 0 := by
  unfold setLE16
  rw [List.getD_eq_getElem?_getD, List.getD_eq_getElem?_getD,
    List.getElem?_set_ne (by omega), List.getElem?_set_ne (by omega)]

theorem segFind?_cons {α : Type} (p : SegmentType × α) (m : List (SegmentType × α))
    (k : SegmentType) :
    segFind? (p :: m) k = if p.1 = k then some p.2 else segFind? m k := by
  by_cases h : p.1 = k
  · simp [segFind?, List.find?_cons, h]
  · simp [segFind?, List.find?_cons, h]

theorem segReplace_cons {α : Type} (k : SegmentType) (v : α)
    (p : SegmentType × α) (m : List (SegmentType × α)) :
    segReplace k v (p :: m)
      = (if p.1 = k then (k, v) else p) :: segReplace k v m := rfl

theorem segFind?_segReplace_self {α : Type} (k : SegmentType) (v : α)
    (m : List (SegmentType × α)) (h : (segFind? m k).isSome) :
    segFind? (segReplace k v m) k = some v := by
  induction m with
  | nil => simp [segFind?] at h
  | cons p rest ih =>
      rw [segReplace_cons]
      by_cases hk : p.1 = k
      · rw [if_pos hk, segFind?_cons, if_pos rfl]
      · rw [if_neg hk, segFind?_cons, if_neg hk]
        refine ih ?_
        rw [segFind?_cons, if_neg hk] at h
        exact h

theorem segFind?_segReplace_ne {α : Type} (k k0 : SegmentType) (v : α)
    (m : List (SegmentType × α)) (h : k0 ≠ k) :
    segFind? (segReplace k v m) k0 = segFind? m k0 := by
  induction m with
  | nil => rfl
  | cons p rest ih =>
      rw [segReplace_cons]
      by_cases hk : p.1 = k
      · rw [if_pos hk, segFind?_cons, segFind?_cons,
          if_neg (show ¬((k, v).1 = k0) from fun hh => h hh.symm),
          if_neg (show ¬(p.1 = k0) from fun hh => h (hk.symm.trans hh).symm)]
        exact ih
      · rw [if_neg hk, segFind?_cons, segFind?_cons]
        by_cases hp : p.1 = k0
        · rw [if_pos hp, if_pos hp]
        · rw [if_neg hp, if_neg hp]
          exact ih

theorem segFind?_segReplace_none {α : Type} (k : SegmentType) (v : α)
    (m : List (SegmentType × α)) (h : segFind? m k = none) :
    segFind? (segReplace k v m) k = none := by
  induction m with
  | nil => rfl
  | cons p rest ih =>
      rw [segReplace_cons]
      rw [segFind?_cons] at h
      by_cases hk : p.1 = k
      · rw [if_pos hk] at h; cases h
      · rw [if_neg hk] at h
        rw [if_neg hk, segFind?_cons, if_neg hk]
        exact ih h

theorem segFind?_segReplace_base {α β : Type} (k : SegmentType)
    (v : α × β) (m : List (SegmentType × (α × β))) (k0 : SegmentType)
    (hsame : ∀ p, segFind? m k = some p → p.1 = v.1) :
    ((segFind? (segReplace k v m) k0).map (·.1))
      = ((segFind? m k0).map (·.1)) := by
  by_cases hk : k0 = k
  · subst hk
    rcases hs : segFind? m k0 with _ | p
    · rw [segFind?_segReplace_none _ _ _ hs]
    · rw [segFind?_segReplace_self _ _ _ (by rw [hs]; rfl)]
      simp only [Option.map_some']
      rw [hsame p hs]
  · rw [segFind?_segReplace_ne _ _ _ _ hk]

theorem Rdisj_symm {e1 e2 : RelocationEntry} (h : Rdisj e1 e2) : Rdisj e2 e1 := by
  rcases h with h | h | h
  · exact .inl (Ne.symm h)
  · exact .inr (.inr h)
  · exact .inr (.inl h)

theorem InRange_of_shape {segs segs1 : List (SegmentType × (Nat × List Nat))}
    (hshape : ∀ k, ((segFind? segs1 k).map (fun p => (p.1, p.2.length)))
      = ((segFind? segs k).map (fun p => (p.1, p.2.length))))
    (e : RelocationEntry) (h : InRange segs e) : InRange segs1 e := by
  obtain ⟨b, bs, hf, h1, h2, h3⟩ := h
  have := hshape e.reference_segment
  rw [hf] at this
  rcases hf1 : segFind? segs1 e.reference_segment with _ | p
  · rw [hf1] at this; cases this
  · rw [hf1] at this
    simp only [Option.map_some', Option.some.injEq, Prod.mk.injEq] at this
    exact ⟨p.1, p.2, by rw [hf1], by rw [this.1]; exact h1, h2,
      by rw [this.1, this.2]; exact h3⟩

/-- Patching one relocation's 2-byte site leaves every disjoint site's bytes
unchanged. -/
theorem patch_slot_frame (segs : List (SegmentType × (Nat × List Nat)))
    (b : RelocationEntry) (b0 : Nat) (bytes : List Nat) (w : Nat)
    (hfind : segFind? segs b.reference_segment = some (b0, bytes))
    (e0 : RelocationEntry) (h0 : InRange segs e0) (hb : InRange segs b)
    (hd : Rdisj e0 b) :
    relocSlot (segReplace b.reference_segment
      (b0, setLE16 bytes (wsub b.reference_location b0) w) segs) e0
      = relocSlot segs e0 := by
  rcases hd with hd | hd | hd
  · unfold relocSlot
    rw [segFind?_segReplace_ne _ _ _ _ hd]
  all_goals {
    obtain ⟨c0, cs, hf0, h01, h02, h03⟩ := h0
    obtain ⟨d0', ds, hfb, hb1, hb2, hb3⟩ := hb
    rw [hfind] at hfb
    injection hfb with hfb'
    injection hfb' with hd1 hd2
    subst hd1
    subst hd2
    by_cases hseg : e0.reference_segment = b.reference_segment
    · rw [hseg, hfind] at hf0
      injection hf0 with hf0'
      injection hf0' with hc1 hc2
      subst hc1
      subst hc2
      unfold relocSlot
      rw [hseg, segFind?_segReplace_self _ _ _ (by rw [hfind]; rfl), hfind]
      simp only [Option.map_some']
      have hia : wsub e0.reference_location b0 = e0.reference_location - b0 :=
        wsub_of_le _ _ h01 h02
      have hib : wsub b.reference_location b0 = b.reference_location - b0 :=
        wsub_of_le _ _ hb1 hb2
      rw [hia, hib, setLE16_getD_other _ _ _ _ (by omega) (by omega),
        setLE16_getD_other _ _ _ _ (by omega) (by omega)]
    · unfold relocSlot
      rw [segFind?_segReplace_ne _ _ _ _ hseg]
  }

/-- Patching a 2-byte site does not change any segment's base or length. -/
theorem segs_shape_setLE16 (segs : List (SegmentType × (Nat × List Nat)))
    (key : SegmentType) (b : Nat) (bs : List Nat) (i w : Nat)
    (hfind : segFind? segs key = some (b, bs)) (k : SegmentType) :
    (segFind? (segReplace key (b, setLE16 bs i w) segs) k).map
        (fun p => (p.1, p.2.length))
      = (segFind? segs k).map (fun p => (p.1, p.2.length)) := by
  by_cases hk : k = key
  · subst hk
    rw [segFind?_segReplace_self _ _ _ (by rw [hfind]; rfl), hfind]
    simp [setLE16_length]
  · rw [segFind?_segReplace_ne _ _ _ _ hk]

/-- Patching a relocation's own site makes its slot read back the
little-endian bytes of the written word. -/
theorem patch_slot_self (segs : List (SegmentType × (Nat × List Nat)))
    (e : RelocationEntry) (b : Nat) (bs : List Nat) (w : Nat)
    (hfind : segFind? segs e.reference_segment = some (b, bs))
    (h1 : b ≤ e.reference_location) (h2 : e.reference_location < M16)
    (h3 : e.reference_location - b + 2 ≤ bs.length) :
    relocSlot (segReplace e.reference_segment
      (b, setLE16 bs (wsub e.reference_location b) w) segs) e
      = some (le16 w) := by
  unfold relocSlot
  rw [segFind?_segReplace_self _ _ _ (by rw [hfind]; rfl)]
  simp only [Option.map_some']
  rw [wsub_of_le _ _ h1 h2,
    setLE16_getD_lo _ _ _ (by omega), setLE16_getD_hi _ _ _ (by omega)]
  rfl

/-- The final-resolution step on a still-`Unknown` symbol: the segments are
untouched; in executable mode a diagnostic is appended and the failure flag
set, otherwise nothing happens. -/
theorem finalResolve_step_unknown (exe : Bool) (syms : List SymbolDefinition)
    (segs : List (SegmentType × (Nat × List Nat))) (diags : List Diag)
    (fail : Bool) (e : RelocationEntry) (sym : SymbolDefinition)
    (hsym : syms.get? e.symbol_index = some sym)
    (hu : sym.segment_type = SegmentType.Unknown) :
    finalResolve exe syms (.ok (segs, diags, fail)) e
      = if exe then
          .ok (segs, diags ++ [.UndefinedRef sym.name sym.location], true)
        else .ok (segs, diags, fail) := by
  simp only [finalResolve, hsym, hu, if_pos rfl]
  cases exe <;> rfl

/-- The final-resolution step on a by-now defined symbol patches the output
bytes at the rebased site with the symbol's little-endian location. -/
theorem finalResolve_step_defined (exe : Bool) (syms : List SymbolDefinition)
    (segs : List (SegmentType × (Nat × List Nat))) (diags : List Diag)
    (fail : Bool) (e : RelocationEntry) (sym : SymbolDefinition)
    (b : Nat) (bs : List Nat)
    (hsym : syms.get? e.symbol_index = some sym)
    (hnu : ¬sym.segment_type = SegmentType.Unknown)
    (hfind : segFind? segs e.reference_segment = some (b, bs))
    (h1 : b ≤ e.reference_location) (h2 : e.reference_location < M16)
    (h3 : e.reference_location - b + 2 ≤ bs.length) :
    finalResolve exe syms (.ok (segs, diags, fail)) e
      = .ok (segReplace e.reference_segment
          (b, setLE16 bs (wsub e.reference_location b) sym.location) segs,
          diags, fail) := by
  have hw : wsub e.reference_location b = e.reference_location - b :=
    wsub_of_le _ _ h1 h2
  simp only [finalResolve, hsym, hfind, if_neg hnu, hw, if_pos (by omega :
    e.reference_location - b + 2 ≤ bs.length)]

/-- Full characterisation of the final resolution pass (tl.rs:228-251) over a
list of undefined references with valid symbol indices, in-range sites and
pairwise-disjoint sites: the fold succeeds, segment bases and lengths are
preserved, sites disjoint from every entry keep their bytes, every entry
whose symbol is by now defined reads back the symbol's little-endian
location, every entry whose symbol is still `Unknown` keeps its bytes and
(in executable mode) sets the failure flag and reports the symbol, and in
relocatable mode the diagnostics and the failure flag are untouched. -/
theorem finalResolve_fold_spec (exe : Bool) (syms : List SymbolDefinition) :
    ∀ (l : List RelocationEntry) (segs : List (SegmentType × (Nat × List Nat)))
      (diags : List Diag) (fail : Bool),
      (∀ e ∈ l, (syms.get? e.symbol_index).isSome ∧ InRange segs e) →
      l.Pairwise Rdisj →
      ∃ segs' diags' fail',
        l.foldl (finalResolve exe syms) (.ok (segs, diags, fail))
          = .ok (segs', diags', fail') ∧
        (∀ k, (segFind? segs' k).map (fun p => (p.1, p.2.length))
            = (segFind? segs k).map (fun p => (p.1, p.2.length))) ∧
        (∀ e0, InRange segs e0 → (∀ b ∈ l, Rdisj e0 b) →
          relocSlot segs' e0 = relocSlot segs e0) ∧
        (∀ e ∈ l, ∀ sym, syms.get? e.symbol_index = some sym →
          (sym.segment_type = SegmentType.Unknown →
            relocSlot segs' e = relocSlot segs e ∧
            (exe = true → fail' = true ∧
              Diag.UndefinedRef sym.name sym.location ∈ diags')) ∧
          (sym.segment_type ≠ SegmentType.Unknown →
            relocSlot segs' e = some (le16 sym.location))) ∧
        (∀ d ∈ diags, d ∈ diags') ∧
        (fail = true → fail' = true) ∧
        (exe = false → diags' = diags ∧ fail' = fail) := by
  intro l
  induction l with
  | nil =>
      intro segs diags fail _ _
      exact ⟨segs, diags, fail, rfl, fun k => rfl, fun e0 _ _ => rfl,
        fun e he => absurd he (List.not_mem_nil e), fun d hd => hd,
        fun h => h, fun _ => ⟨rfl, rfl⟩⟩
  | cons e t ih =>
      intro segs diags fail hent hdisj
      obtain ⟨hes, heir⟩ := hent e (List.mem_cons_self e t)
      obtain ⟨sym, hsym⟩ := Option.isSome_iff_exists.mp hes
      have hdhead : ∀ b ∈ t, Rdisj e b := (List.pairwise_cons.mp hdisj).1
      have hdt : t.Pairwise Rdisj := (List.pairwise_cons.mp hdisj).2
      have hentt : ∀ e' ∈ t, (syms.get? e'.symbol_index).isSome ∧ InRange segs e' :=
        fun e' he' => hent e' (List.mem_cons_of_mem e he')
      rw [List.foldl_cons]
      by_cases hu : sym.segment_type = SegmentType.Unknown
      · rw [finalResolve_step_unknown exe syms segs diags fail e sym hsym hu]
        cases exe with
        | false =>
            rw [if_neg (by decide : ¬(false = true))]
            obtain ⟨segs', diags', fail', hfold, hshape, hframe, hmain, hdm,
              hfm, hnoexe⟩ := ih segs diags fail hentt hdt
            refine ⟨segs', diags', fail', hfold, hshape, ?_, ?_, hdm, hfm, hnoexe⟩
            · exact fun e0 h0 hd0 =>
                hframe e0 h0 (fun b hb => hd0 b (List.mem_cons_of_mem e hb))
            · intro e' he' sym' hsym'
              rcases List.mem_cons.mp he' with rfl | ht'
              · have hsymeq : sym = sym' := by
                  have := hsym.symm.trans hsym'
                  injection this
                subst hsymeq
                refine ⟨fun _ => ⟨hframe e' heir hdhead, fun hx => absurd hx
                  (by decide)⟩, fun hne => absurd hu hne⟩
              · exact hmain e' ht' sym' hsym'
        | true =>
            rw [if_pos rfl]
            obtain ⟨segs', diags', fail', hfold, hshape, hframe, hmain, hdm,
              hfm, hnoexe⟩ := ih segs
                (diags ++ [.UndefinedRef sym.name sym.location]) true hentt hdt
            refine ⟨segs', diags', fail', hfold, hshape, ?_, ?_, ?_,
              fun _ => hfm rfl, fun hx => absurd hx (by decide)⟩
            · exact fun e0 h0 hd0 =>
                hframe e0 h0 (fun b hb => hd0 b (List.mem_cons_of_mem e hb))
            · intro e' he' sym' hsym'
              rcases List.mem_cons.mp he' with rfl | ht'
              · have hsymeq : sym = sym' := by
                  have := hsym.symm.trans hsym'
                  injection this
                subst hsymeq
                refine ⟨fun _ => ⟨hframe e' heir hdhead, fun _ =>
                  ⟨hfm rfl, hdm _ (by simp)⟩⟩, fun hne => absurd hu hne⟩
              · exact hmain e' ht' sym' hsym'
            · exact fun d hd => hdm d (List.mem_append_left _ hd)
      · obtain ⟨b0, bs, hfind, h1, h2, h3⟩ := heir
        rw [finalResolve_step_defined exe syms segs diags fail e sym b0 bs
          hsym hu hfind h1 h2 h3]
        have hshape1 : ∀ k,
            (segFind? (segReplace e.reference_segment
              (b0, setLE16 bs (wsub e.reference_location b0) sym.location) segs) k).map
                (fun p => (p.1, p.2.length))
              = (segFind? segs k).map (fun p => (p.1, p.2.length)) :=
          segs_shape_setLE16 segs e.reference_segment b0 bs _ _ hfind
        have hent1 : ∀ e' ∈ t, (syms.get? e'.symbol_index).isSome ∧
            InRange (segReplace e.reference_segment
              (b0, setLE16 bs (wsub e.reference_location b0) sym.location) segs) e' :=
          fun e' he' => ⟨(hentt e' he').1,
            InRange_of_shape hshape1 e' (hentt e' he').2⟩
        obtain ⟨segs', diags', fail', hfold, hshape, hframe, hmain, hdm,
          hfm, hnoexe⟩ := ih _ diags fail hent1 hdt
        have hinr : InRange segs e := ⟨b0, bs, hfind, h1, h2, h3⟩
        refine ⟨segs', diags', fail', hfold,
          fun k => (hshape k).trans (hshape1 k), ?_, ?_, hdm, hfm, hnoexe⟩
        · intro e0 h0 hd0
          have hstep := patch_slot_frame segs e b0 bs sym.location hfind e0
            h0 hinr (hd0 e (List.mem_cons_self e t))
          exact (hframe e0 (InRange_of_shape hshape1 e0 h0)
            (fun b hb => hd0 b (List.mem_cons_of_mem e hb))).trans hstep
        · intro e' he' sym' hsym'
          rcases List.mem_cons.mp he' with rfl | ht'
          · have hsymeq : sym = sym' := by
              have := hsym.symm.trans hsym'
              injection this
            subst hsymeq
            refine ⟨fun hx => absurd hx hu, fun _ => ?_⟩
            have hself := patch_slot_self segs e' b0 bs sym.location
              hfind h1 h2 h3
            exact (hframe e' (InRange_of_shape hshape1 e' hinr)
              (fun b hb => hdhead b hb)).trans hself
          · have hstep := patch_slot_frame segs e b0 bs sym.location hfind e'
              (hentt e' ht').2 hinr (Rdisj_symm (hdhead e' ht'))
            refine ⟨fun hx => ⟨((hmain e' ht' sym' hsym').1 hx).1.trans hstep,
              ((hmain e' ht' sym' hsym').1 hx).2⟩, (hmain e' ht' sym' hsym').2⟩

/-- **C4**: the final resolution pass over the undefined references recorded
at merge time (valid symbol indices, in-range and pairwise-disjoint sites)
patches the 2 bytes at each site whose symbol is by then defined with the
symbol's final little-endian location; a site whose symbol is still
`Unknown` keeps its bytes, and in executable mode sets the failure flag
(failing the link) with an unresolved-external diagnostic, while in
relocatable mode diagnostics and failure flag are untouched.  End to end:
linking `A B` where `A` references `helper` and `B` defines it patches the
slot with the final location (here 259 = `[3, 1]`) and retains the
relocation entry; linking `A` alone relocatably leaves the slot at zero and
retains the entry against `helper`, still `Unknown`; linking `A` alone as an
executable fails with the unresolved-external error. -/
theorem final_relocation_resolution
    (exe : Bool) (syms : List SymbolDefinition) (l : List RelocationEntry)
    (segs : List (SegmentType × (Nat × List Nat))) (diags : List Diag)
    (fail : Bool)
    (hent : ∀ e ∈ l, (syms.get? e.symbol_index).isSome ∧ InRange segs e)
    (hdisj : l.Pairwise Rdisj) :
    (∃ segs' diags' fail',
        l.foldl (finalResolve exe syms) (.ok (segs, diags, fail))
          = .ok (segs', diags', fail') ∧
        (∀ e ∈ l, ∀ sym, syms.get? e.symbol_index = some sym →
          (sym.segment_type = SegmentType.Unknown →
            relocSlot segs' e = relocSlot segs e ∧
            (exe = true → fail' = true ∧
              Diag.UndefinedRef sym.name sym.location ∈ diags')) ∧
          (sym.segment_type ≠ SegmentType.Unknown →
            relocSlot segs' e = some (le16 sym.location))) ∧
        (exe = false → diags' = diags ∧ fail' = fail)) ∧
    tl_link [("a.to", objRefHelper), ("b.to", objDefHelper)] none false false
      = ([], .ok (LinkOutput.mk
          (Object.mk [(SegmentType.Text, (256, [1, 3, 1, 9]))]
            [⟨"helper", true, SegmentType.Text, 259⟩]
            [⟨SegmentType.Text, 257, 0⟩] none 0)
          false false)) ∧
    tl_link [("a.to", objRefHelper)] none false false
      = ([], .ok (LinkOutput.mk
          (Object.mk [(SegmentType.Text, (256, [1, 0, 0]))]
            [⟨"helper", true, SegmentType.Unknown, 0⟩]
            [⟨SegmentType.Text, 257, 0⟩] none 0)
          false false)) ∧
    tl_link [("a.to", objRefHelper)] none false true
      = ([Diag.UndefinedRef "helper" 0], .error .ObjectFailure) := by
  obtain ⟨segs', diags', fail', hfold, _, _, hmain, _, _, hnoexe⟩ :=
    finalResolve_fold_spec exe syms l segs diags fail hent hdisj
  exact ⟨⟨segs', diags', fail', hfold, hmain, hnoexe⟩,
    by decide, by decide, by decide⟩

/-- Witness for `final_relocation_resolution`: an executable-mode final pass
over two disjoint `Text` sites, one symbol resolved to 259 and one still
`Unknown`. -/
theorem final_relocation_resolution_witness :
    ∃ segs' diags' fail',
      ([⟨SegmentType.Text, 257, 0⟩, ⟨SegmentType.Text, 260, 1⟩] :
          List RelocationEntry).foldl
          (finalResolve true [⟨"helper", true, SegmentType.Text, 259⟩,
            ⟨"ext", true, SegmentType.Unknown, 0⟩])
          (.ok ([(SegmentType.Text, (256, [1, 0, 0, 9, 2, 0, 0]))], [], false))
        = .ok (segs', diags', fail') ∧
      (∀ e ∈ ([⟨SegmentType.Text, 257, 0⟩, ⟨SegmentType.Text, 260, 1⟩] :
          List RelocationEntry),
        ∀ sym, ([⟨"helper", true, SegmentType.Text, 259⟩,
            ⟨"ext", true, SegmentType.Unknown, 0⟩] :
              List SymbolDefinition).get? e.symbol_index = some sym →
        (sym.segment_type = SegmentType.Unknown →
          relocSlot segs' e
              = relocSlot [(SegmentType.Text, (256, [1, 0, 0, 9, 2, 0, 0]))] e ∧
          (true = true → fail' = true ∧
            Diag.UndefinedRef sym.name sym.location ∈ diags')) ∧
        (sym.segment_type ≠ SegmentType.Unknown →
          relocSlot segs' e = some (le16 sym.location))) ∧
      (true = false → diags' = [] ∧ fail' = false) :=
  (final_relocation_resolution true
    [⟨"helper", true, SegmentType.Text, 259⟩,
     ⟨"ext", true, SegmentType.Unknown, 0⟩]
    [⟨SegmentType.Text, 257, 0⟩, ⟨SegmentType.Text, 260, 1⟩]
    [(SegmentType.Text, (256, [1, 0, 0, 9, 2, 0, 0]))] [] false
    (by
      intro e he
      rcases List.mem_cons.mp he with rfl | he
      · exact ⟨by decide, 256, [1, 0, 0, 9, 2, 0, 0], by decide,
          by decide, by decide, by decide⟩
      rcases List.mem_cons.mp he with rfl | he
      · exact ⟨by decide, 256, [1, 0, 0, 9, 2, 0, 0], by decide,
          by decide, by decide, by decide⟩
      · exact absurd he (List.not_mem_nil e))
    (List.pairwise_cons.mpr ⟨fun b hb => by
        rcases List.mem_cons.mp hb with rfl | hb
        · exact Or.inr (Or.inl (by decide))
        · exact absurd hb (List.not_mem_nil b),
      List.pairwise_singleton _ _⟩)).1

/-! ## Claim about entry-point selection (C8) -/

theorem segFind?_map_base (m : List (SegmentType × (Nat × List Nat)))
    (k : SegmentType) :
    segFind? (m.map (fun p => (p.1, p.2.1))) k = (segFind? m k).map (·.1) := by
  induction m with
  | nil => rfl
  | cons p rest ih =>
      simp only [List.map_cons, segFind?_cons]
      by_cases h : p.1 = k
      · rw [if_pos h, if_pos h]
        rfl
      · rw [if_neg h, if_neg h]
        exact ih

theorem layout_fold_base :
    ∀ (l : List (SegmentType × Nat))
      (acc : List (SegmentType × (Nat × List Nat)) × Nat)
      (q : SegmentType × (Nat × List Nat)),
      q ∈ (l.foldl layoutStep acc).1 →
      q ∈ acc.1 ∨ (q.2.1 < M16 ∧ q.2.2 = []) := by
  intro l
  induction l with
  | nil => intro acc q h; exact .inl h
  | cons sv rest ih =>
      intro acc q h
      rw [List.foldl_cons] at h
      rcases ih (layoutStep acc sv) q h with h1 | h2
      · unfold layoutStep at h1
        rcases List.mem_append.mp h1 with h3 | h3
        · exact .inl h3
        · refine .inr ?_
          rcases List.mem_singleton.mp h3 with rfl
          refine ⟨?_, rfl⟩
          show align acc.2 SEGMENT_ALIGNMENT < M16
          unfold align
          exact Nat.mod_lt _ (by decide)
      · exact .inr h2

theorem segLayout_entry_shape {objects : List (String × Object)}
    {q : SegmentType × (Nat × List Nat)} (h : q ∈ segLayout objects) :
    q.2.1 < M16 ∧ q.2.2 = [] := by
  unfold segLayout at h
  rcases layout_fold_base _ _ _ h with h1 | h2
  · simp at h1
  · exact h2

theorem CBInv_init (inputs : List (String × Object)) :
    CBInv (initMergeSt (segLayout inputs)) := by
  intro st p hf
  simp only [initMergeSt] at hf ⊢
  have hsh := segLayout_entry_shape (segFind?_mem hf)
  rw [segFind?_map_base, hf, Option.map_some']
  have h2 : p.2 = [] := hsh.2
  rw [h2]
  simp only [List.length_nil, Nat.zero_mod]
  rw [show wadd p.1 0 = p.1 % M16 from rfl, Nat.mod_eq_of_lt hsh.1]

theorem CBInv_congr {s s' : MergeSt} (hp : CBInv s)
    (h1 : s'.segsOut = s.segsOut) (h2 : s'.curBase = s.curBase) : CBInv s' := by
  intro st p hf
  rw [h2]
  exact hp st p (by rw [← h1]; exact hf)

theorem concatStep_CBInv (s : MergeSt) (b : SegmentType × (Nat × List Nat))
    (s' : MergeSt) (h : concatStep (.ok s) b = .ok s') (hp : CBInv s) :
    CBInv s' := by
  simp only [concatStep] at h
  split at h
  · rename_i cb bo h1 h2
    cases h
    intro st p hf
    have hf' : segFind? (segReplace b.1 (bo.1, bo.2 ++ b.2.2) s.segsOut) st
        = some p := hf
    show segFind? (segReplace b.1 (wadd cb (b.2.2.length % M16)) s.curBase) st
      = some (wadd p.1 (p.2.length % M16))
    by_cases hst : st = b.1
    · subst hst
      rw [segFind?_segReplace_self _ _ _ (by rw [h2]; rfl)] at hf'
      injection hf' with hf'
      subst hf'
      rw [segFind?_segReplace_self _ _ _ (by rw [h1]; rfl)]
      have hcb := (hp b.1 bo h2).symm.trans h1
      injection hcb with hcb
      rw [← hcb]
      congr 1
      show wadd (wadd bo.1 (bo.2.length % M16)) (b.2.2.length % M16)
        = wadd bo.1 ((bo.2 ++ b.2.2).length % M16)
      rw [List.length_append]
      unfold wadd M16
      omega
    · rw [segFind?_segReplace_ne _ _ _ _ hst] at hf'
      rw [segFind?_segReplace_ne _ _ _ _ hst]
      exact hp st p hf'
  · cases h

theorem processObject_CBInv (strip : Bool) (s : MergeSt) (b : String × Object)
    (s' : MergeSt) (h : processObject strip (.ok s) b = .ok s')
    (hp : CBInv s) : CBInv s' := by
  obtain ⟨ms1, mos, h1, h2, h3⟩ := processObject_phases strip s b s' h
  have hme := mergeEntry_frame s b.2 ms1 h1
  have hp1 : CBInv ms1 := CBInv_congr hp hme.1 hme.2.1
  have hsym := processSymbol_fold_frame strip b.1 b.2.segs b.2.symbols (ms1, [])
  have hp2 : CBInv (b.2.symbols.foldl (processSymbol strip b.1 b.2.segs) (ms1, [])).1 :=
    CBInv_congr hp1 hsym.1 hsym.2.1
  have hrel := processReloc_fold_segsOut _ _ _ _ h2
  have hp3 : CBInv mos.1 := CBInv_congr hp2 hrel.1 hrel.2.1
  exact foldl_except_ok concatStep CBInv (fun e b => rfl)
    (fun t b t' ht hq => concatStep_CBInv t b t' ht hq) mos.2 mos.1 s' h3 hp3

theorem mergefold_CBInv (strip : Bool) :
    ∀ (l : List (String × Object)) (s s' : MergeSt),
      l.foldl (processObject strip) (.ok s) = .ok s' → CBInv s → CBInv s' :=
  foldl_except_ok (processObject strip) CBInv (fun e b => rfl)
    (fun s b s' h hp => processObject_CBInv strip s b s' h hp)

/-- An already-chosen entry point is kept unchanged by the propagation step
(`entry_point.or_else(..)`). -/
theorem mergeEntry_ignored (ms : MergeSt) (obj : Object)
    (v : SegmentType × Nat) (h : ms.entry = some v) :
    mergeEntry ms obj = .ok ms := by
  unfold mergeEntry
  rw [h]

/-- The first carried entry point is rebased against the running insertion
base of its segment. -/
theorem mergeEntry_first (ms : MergeSt) (obj : Object) (st : SegmentType)
    (ep b : Nat) (bytes : List Nat) (cb : Nat)
    (hms : ms.entry = none) (hobj : obj.entry = some (st, ep))
    (h1 : segFind? obj.segs st = some (b, bytes))
    (h2 : segFind? ms.curBase st = some cb) :
    mergeEntry ms obj = .ok { ms with entry := some (st, wadd (wsub ep b) cb) } := by
  have hred : mergeEntry ms obj
      = match segFind? obj.segs st, segFind? ms.curBase st with
        | some (b, _), some cb =>
            .ok { ms with entry := some (st, wadd (wsub ep b) cb) }
        | _, _ => .error LinkError.Panic := by
    unfold mergeEntry
    rw [hms, hobj]
  rw [hred, h1, h2]

/-- `-E 0xHHHH`: a `0x`-prefixed argument that parses as 16-bit hex replaces
the entry point with `(Zero, value)`. -/
theorem applySetEntry_hex (ms : MergeSt) (s : String) (rest : List Char)
    (v : Nat) (hd : s.data = '0' :: 'x' :: rest)
    (hv : parseHexU16 rest = some v) :
    applySetEntry (some s) ms
      = .ok { ms with entry := some (SegmentType.Zero, v) } := by
  unfold applySetEntry
  split
  · rename_i heq
    cases heq
  rename_i entry heq
  injection heq with heq
  subst heq
  split
  · rename_i rest' heq
    rw [hd] at heq
    injection heq with h1 heq
    injection heq with h2 heq
    subst heq
    split
    · rename_i v' heq2
      rw [hv] at heq2
      injection heq2 with heq2
      subst heq2
      rfl
    · rename_i heq2
      rw [hv] at heq2
      cases heq2
  · rename_i hnall
    exact absurd hd (hnall rest)

/-- `-E 0x...` with an unparsable suffix is the fatal
`InvalidEntryPointFormat`. -/
theorem applySetEntry_hex_bad (ms : MergeSt) (s : String) (rest : List Char)
    (hd : s.data = '0' :: 'x' :: rest) (hv : parseHexU16 rest = none) :
    applySetEntry (some s) ms = .error .InvalidEntryPointFormat := by
  unfold applySetEntry
  split
  · rename_i heq
    cases heq
  rename_i entry heq
  injection heq with heq
  subst heq
  split
  · rename_i rest' heq
    rw [hd] at heq
    injection heq with h1 heq
    injection heq with h2 heq
    subst heq
    split
    · rename_i v' heq2
      rw [hv] at heq2
      cases heq2
    · rfl
  · rename_i hnall
    exact absurd hd (hnall rest)

/-- `-E name` with `name` among the global symbols replaces the entry point
with the symbol's segment and final location. -/
theorem applySetEntry_symbol (ms : MergeSt) (s : String) (pos : Nat)
    (sym : SymbolDefinition)
    (hne : ∀ r : List Char, s.data ≠ '0' :: 'x' :: r)
    (hfind : strFind? ms.globalSymbols s = some pos)
    (hsym : ms.symbolsOut.get? pos = some sym) :
    applySetEntry (some s) ms
      = .ok { ms with entry := some (sym.segment_type, sym.location) } := by
  unfold applySetEntry
  split
  · rename_i heq
    cases heq
  rename_i entry heq
  injection heq with heq
  subst heq
  split
  · rename_i rest heq
    exact absurd heq (hne rest)
  · split
    · rename_i pos' heq
      rw [hfind] at heq
      injection heq with heq
      subst heq
      split
      · rename_i sym' heq2
        rw [hsym] at heq2
        injection heq2 with heq2
        subst heq2
        rfl
      · rename_i heq2
        rw [hsym] at heq2
        cases heq2
    · rename_i heq
      rw [hfind] at heq
      cases heq

/-- `-E name` with `name` not among the global symbols reports the missing
start symbol and sets the failure flag, which fails the link. -/
theorem applySetEntry_missing (ms : MergeSt) (s : String)
    (hne : ∀ r : List Char, s.data ≠ '0' :: 'x' :: r)
    (hfind : strFind? ms.globalSymbols s = none) :
    applySetEntry (some s) ms
      = .ok { ms with diags := ms.diags ++ [.StartSymbolNotFound s], failure := true, entry := some (SegmentType.Unknown, 0xffff) } := by
  unfold applySetEntry
  split
  · rename_i heq
    cases heq
  rename_i entry heq
  injection heq with heq
  subst heq
  split
  · rename_i rest heq
    exact absurd heq (hne rest)
  · split
    · rename_i pos' heq
      rw [hfind] at heq
      cases heq
    · rfl

/-- An already-chosen entry point survives the whole per-object merge. -/
theorem processObject_entry_keep (strip : Bool) (s : MergeSt)
    (b : String × Object) (s' : MergeSt)
    (h : processObject strip (.ok s) b = .ok s')
    (v : SegmentType × Nat) (hv : s.entry = some v) : s'.entry = some v := by
  obtain ⟨ms1, mos, h1, h2, h3⟩ := processObject_phases strip s b s' h
  rw [mergeEntry_ignored s b.2 v hv] at h1
  injection h1 with h1
  subst h1
  have hsym := processSymbol_fold_frame strip b.1 b.2.segs b.2.symbols (s, [])
  have hrel := processReloc_fold_segsOut _ _ _ _ h2
  have hcf := concatFold_frame mos.2 mos.1 s' h3
  rw [hcf.2.2.2.2.1, hrel.2.2.2.1, hsym.2.2.1]
  exact hv

/-- C8, counterexample: the entry rebase (tl.rs:132) adds `segs[&st].0`, the
*running insertion base*, not the output segment's base.  With `objPad`
(two entryless `Text` bytes) linked before `objEntryOne` (entry `(Text, 1)`,
input `Text` base 0), the output `Text` base is 256 but the output entry is
`(Text, 259)` — the claimed formula `1 − 0 + 256` yields 257. -/
theorem entry_rebase_output_base_fails :
    (tl_link [("a.to", objPad), ("b.to", objEntryOne)] none false false).2
      = .ok (LinkOutput.mk
          (Object.mk [(SegmentType.Text, (256, [5, 5, 7, 7]))] [] []
            (some (SegmentType.Text, 259)) 0) false false) ∧
    segFind? (segLayout [("a.to", objPad), ("b.to", objEntryOne)])
        SegmentType.Text = some (256, []) ∧
    objEntryOne.entry = some (SegmentType.Text, 1) ∧
    (segFind? objEntryOne.segs SegmentType.Text).map (fun p => p.1) = some 0 ∧
    wadd (wsub 1 0) 256 = 257 ∧
    (259 : Nat) ≠ 257 :=
  ⟨by decide, by decide, rfl, rfl, by decide, by decide⟩

/-- **C8**, amended: the first input carrying an entry point defines the
output entry; its offset is rebased against the *running insertion base* of
its segment — the output segment base plus (mod 2^16) the bytes already
placed into that segment by earlier inputs — which equals the output
segment base only when the entry carrier is the first contributor to that
segment.  An already-chosen entry survives every later merge step, so
subsequent inputs' entry points are ignored.  A `-E` override then replaces
the value: a `0x`-prefixed argument parses as 16-bit hex with segment
`Zero` (a parse failure is the fatal `InvalidEntryPointFormat`), any other
argument is looked up among the global symbols, and a missing symbol is
reported and fails the link.  Concrete runs exercise first-entry-wins and
all four `-E` outcomes end to end. -/
theorem entry_point_selection :
    (∀ (ms : MergeSt) (obj : Object) (v : SegmentType × Nat),
      ms.entry = some v → mergeEntry ms obj = .ok ms) ∧
    (∀ (strip : Bool) (s : MergeSt) (b : String × Object) (s' : MergeSt),
      processObject strip (.ok s) b = .ok s' →
      ∀ v, s.entry = some v → s'.entry = some v) ∧
    (∀ (ms : MergeSt) (obj : Object) (st : SegmentType) (ep b : Nat)
      (bytes : List Nat) (cb : Nat),
      ms.entry = none → obj.entry = some (st, ep) →
      segFind? obj.segs st = some (b, bytes) →
      segFind? ms.curBase st = some cb →
      mergeEntry ms obj = .ok { ms with entry := some (st, wadd (wsub ep b) cb) }) ∧
    (∀ (inputs : List (String × Object)) (strip : Bool) (ms : MergeSt),
      inputs.foldl (processObject strip)
        (.ok (initMergeSt (segLayout inputs))) = .ok ms → CBInv ms) ∧
    (∀ (ms : MergeSt) (s : String) (rest : List Char) (v : Nat),
      s.data = '0' :: 'x' :: rest → parseHexU16 rest = some v →
      applySetEntry (some s) ms
        = .ok { ms with entry := some (SegmentType.Zero, v) }) ∧
    (∀ (ms : MergeSt) (s : String) (rest : List Char),
      s.data = '0' :: 'x' :: rest → parseHexU16 rest = none →
      applySetEntry (some s) ms = .error .InvalidEntryPointFormat) ∧
    (∀ (ms : MergeSt) (s : String) (pos : Nat) (sym : SymbolDefinition),
      (∀ r : List Char, s.data ≠ '0' :: 'x' :: r) →
      strFind? ms.globalSymbols s = some pos →
      ms.symbolsOut.get? pos = some sym →
      applySetEntry (some s) ms
        = .ok { ms with entry := some (sym.segment_type, sym.location) }) ∧
    (∀ (ms : MergeSt) (s : String),
      (∀ r : List Char, s.data ≠ '0' :: 'x' :: r) →
      strFind? ms.globalSymbols s = none →
      applySetEntry (some s) ms
        = .ok { ms with diags := ms.diags ++ [.StartSymbolNotFound s], failure := true, entry := some (SegmentType.Unknown, 0xffff) }) ∧
    (tl_link [("a.to", objEntryOne), ("b.to", objEntryZero)] none false false).2
      = .ok (LinkOutput.mk
          (Object.mk [(SegmentType.Text, (256, [7, 7, 7, 7]))] [] []
            (some (SegmentType.Text, 257)) 0) false false) ∧
    (tl_link [("a.to", objStart)] (some "0x1f3") false true).2
      = .ok (LinkOutput.mk
          (Object.mk [(SegmentType.Text, (256, [7, 7]))]
            [⟨"start", true, SegmentType.Text, 257⟩] []
            (some (SegmentType.Zero, 499)) 13) true false) ∧
    tl_link [("a.to", objStart)] (some "0xzz") false true
      = ([], .error .InvalidEntryPointFormat) ∧
    (tl_link [("a.to", objStart)] (some "start") false true).2
      = .ok (LinkOutput.mk
          (Object.mk [(SegmentType.Text, (256, [7, 7]))]
            [⟨"start", true, SegmentType.Text, 257⟩] []
            (some (SegmentType.Text, 257)) 13) true false) ∧
    tl_link [("a.to", objStart)] (some "nope") false true
      = ([.StartSymbolNotFound "nope"], .error .ObjectFailure) :=
  ⟨mergeEntry_ignored, processObject_entry_keep, mergeEntry_first,
   fun inputs strip ms h => mergefold_CBInv strip inputs _ ms h (CBInv_init inputs),
   applySetEntry_hex, applySetEntry_hex_bad, applySetEntry_symbol,
   applySetEntry_missing,
   by decide, by decide, by decide, by decide, by decide⟩

/-! ## Claim about single-object linking (C5) -/

/-- Without `-S`, a non-global symbol is appended re-based, like a fresh
global. -/
theorem processSymbol_nonglobal (file : String)
    (objSegs : List (SegmentType × (Nat × List Nat))) (ms : MergeSt)
    (fstos : List Nat) (sym : SymbolDefinition) (hng : sym.is_global = false) :
    processSymbol false file objSegs (ms, fstos) sym
      = ({ ms with symbolsOut := ms.symbolsOut ++ [rebasedSym objSegs ms.curBase sym] },
         fstos ++ [ms.symbolsOut.length]) := by
  simp only [processSymbol, rebasedSym_is_global, hng, Bool.false_eq_true,
    if_false, if_neg]

/-- The symbol-rewriting fold on a symbol list whose global names are fresh
and pairwise distinct: every symbol is appended re-based in order, the
translation list is an initial range, and diagnostics and failure flag are
untouched. -/
theorem symfold_fresh (file : String)
    (objSegs : List (SegmentType × (Nat × List Nat))) :
    ∀ (syms : List SymbolDefinition) (ms : MergeSt) (fst : List Nat),
      (∀ s ∈ syms, s.is_global = true → strFind? ms.globalSymbols s.name = none) →
      List.Pairwise (fun a b => a.is_global = true → b.is_global = true →
        a.name ≠ b.name) syms →
      (syms.foldl (processSymbol false file objSegs) (ms, fst)).1.symbolsOut
          = ms.symbolsOut ++ syms.map (rebasedSym objSegs ms.curBase) ∧
      (syms.foldl (processSymbol false file objSegs) (ms, fst)).1.diags
          = ms.diags ∧
      (syms.foldl (processSymbol false file objSegs) (ms, fst)).1.failure
          = ms.failure ∧
      (syms.foldl (processSymbol false file objSegs) (ms, fst)).2
          = fst ++ List.range' ms.symbolsOut.length syms.length := by
  intro syms
  induction syms with
  | nil =>
      intro ms fst _ _
      exact ⟨by simp, rfl, rfl, by simp [List.range']⟩
  | cons sym rest ih =>
      intro ms fst hfresh hpw
      rw [List.foldl_cons]
      have hpwh := (List.pairwise_cons.mp hpw).1
      have hpwt := (List.pairwise_cons.mp hpw).2
      have hfresht : ∀ s ∈ rest, s.is_global = true →
          strFind? ms.globalSymbols s.name = none :=
        fun s hs h => hfresh s (List.mem_cons_of_mem sym hs) h
      by_cases hg : sym.is_global = true
      · have hnone := hfresh sym (List.mem_cons_self sym rest) hg
        have hstep : processSymbol false file objSegs (ms, fst) sym
            = ({ ms with globalSymbols := (sym.name, ms.symbolsOut.length) :: ms.globalSymbols, symbolsOut := ms.symbolsOut ++ [rebasedSym objSegs ms.curBase sym] },
               fst ++ [ms.symbolsOut.length]) := by
          rcases processSymbol_spec false file objSegs ms fst sym with
            ⟨_, _, heq⟩ | ⟨id, _, hsome, _, _⟩ | ⟨id, _, hsome, _, _, _⟩ |
            ⟨id, _, hsome, _, _, _⟩ | ⟨hng, _⟩
          · exact heq
          · rw [hnone] at hsome; cases hsome
          · rw [hnone] at hsome; cases hsome
          · rw [hnone] at hsome; cases hsome
          · rw [hg] at hng; cases hng
        rw [hstep]
        have hmain := ih
          { ms with globalSymbols := (sym.name, ms.symbolsOut.length) :: ms.globalSymbols, symbolsOut := ms.symbolsOut ++ [rebasedSym objSegs ms.curBase sym] }
          (fst ++ [ms.symbolsOut.length])
          (by
            intro s hs hsg
            show strFind? ((sym.name, ms.symbolsOut.length) :: ms.globalSymbols)
              s.name = none
            rw [strFind?_cons_ne _ _ _ _ (Ne.symm (hpwh s hs hg hsg))]
            exact hfresht s hs hsg)
          hpwt
        refine ⟨?_, ?_, ?_, ?_⟩
        · rw [hmain.1]
          simp
        · rw [hmain.2.1]
        · rw [hmain.2.2.1]
        · rw [hmain.2.2.2]
          simp [List.range'_succ, List.length_append]
      · have hng : sym.is_global = false := by
          cases hx : sym.is_global
          · rfl
          · exact absurd hx hg
        rw [processSymbol_nonglobal file objSegs ms fst sym hng]
        have hmain := ih
          { ms with symbolsOut := ms.symbolsOut ++ [rebasedSym objSegs ms.curBase sym] }
          (fst ++ [ms.symbolsOut.length])
          (fun s hs hsg => hfresht s hs hsg)
          hpwt
        refine ⟨?_, ?_, ?_, ?_⟩
        · rw [hmain.1]
          simp
        · rw [hmain.2.1]
        · rw [hmain.2.2.1]
        · rw [hmain.2.2.2]
          simp [List.range'_succ, List.length_append]

/-- A successful relocation re-keying step, fully evaluated. -/
theorem processReloc_step_ok (fstos : List Nat) (ms : MergeSt)
    (objSegs : List (SegmentType × (Nat × List Nat))) (re : RelocationEntry)
    (i : Nat) (b : Nat) (bytes : List Nat) (cb : Nat) (sym : SymbolDefinition)
    (hfst : fstos.get? re.symbol_index = some i)
    (hfind : segFind? objSegs re.reference_segment = some (b, bytes))
    (hcb : segFind? ms.curBase re.reference_segment = some cb)
    (hsym : ms.symbolsOut.get? i = some sym)
    (hrange : wsub re.reference_location b + 2 ≤ bytes.length) :
    processReloc fstos (.ok (ms, objSegs)) re
      = .ok ({ ms with relocOut := ms.relocOut ++ [RelocationEntry.mk re.reference_segment (wadd (wsub re.reference_location b) cb) (i % M16)], undefinedRefs := if sym.segment_type = SegmentType.Unknown then ms.undefinedRefs ++ [RelocationEntry.mk re.reference_segment (wadd (wsub re.reference_location b) cb) (i % M16)] else ms.undefinedRefs },
          segReplace re.reference_segment
            (b, setLE16 bytes (wsub re.reference_location b) sym.location)
            objSegs) := by
  simp only [processReloc, hfst, hfind, hcb, hsym, if_pos hrange]

/-- Equal bases-and-lengths give equal base maps. -/
theorem base_of_shape {s1 s2 : List (SegmentType × (Nat × List Nat))}
    (h : ∀ k, (segFind? s1 k).map (fun p => (p.1, p.2.length))
      = (segFind? s2 k).map (fun p => (p.1, p.2.length))) :
    ∀ k, (segFind? s1 k).map (·.1) = (segFind? s2 k).map (·.1) := by
  intro k
  have h2 := congrArg (Option.map (fun q : Nat × Nat => q.1)) (h k)
  simpa [Option.map_map, Function.comp] using h2

/-- `rebaseLocation` only reads segment bases, so it is invariant under
byte patching. -/
theorem rebaseLocation_congr {s1 s2 : List (SegmentType × (Nat × List Nat))}
    (cb : List (SegmentType × Nat))
    (h : ∀ k, (segFind? s1 k).map (·.1) = (segFind? s2 k).map (·.1))
    (st : SegmentType) (loc : Nat) :
    rebaseLocation s1 cb st loc = rebaseLocation s2 cb st loc := by
  unfold rebaseLocation
  rw [h st]

/-- The relocation re-keying fold of a single-object link (identity symbol
translation, valid indices, in-range sites): it patches the input copy
exactly as `specPatchSlot` does, appends the re-based relocation entries
with unchanged symbol indices, and records only `Unknown`-symbol entries
among the undefined references. -/
theorem relocfold_single (fstos : List Nat) :
    ∀ (l : List RelocationEntry) (ms : MergeSt)
      (objSegs : List (SegmentType × (Nat × List Nat))),
      (∀ e ∈ l, fstos.get? e.symbol_index = some e.symbol_index ∧
        e.symbol_index < M16 ∧ (ms.symbolsOut.get? e.symbol_index).isSome ∧
        (segFind? ms.curBase e.reference_segment).isSome ∧ InRange objSegs e) →
      ∃ ms' objSegs',
        l.foldl (processReloc fstos) (.ok (ms, objSegs)) = .ok (ms', objSegs') ∧
        objSegs' = l.foldl (specPatchSlot ms.symbolsOut) objSegs ∧
        ms'.relocOut = ms.relocOut ++ l.map (fun e =>
          RelocationEntry.mk e.reference_segment
            (rebaseLocation objSegs ms.curBase e.reference_segment
              e.reference_location)
            e.symbol_index) ∧
        (∀ e' ∈ ms'.undefinedRefs, e' ∈ ms.undefinedRefs ∨
          ∃ sym, ms.symbolsOut.get? e'.symbol_index = some sym ∧
            sym.segment_type = SegmentType.Unknown) := by
  intro l
  induction l with
  | nil =>
      intro ms objSegs _
      exact ⟨ms, objSegs, rfl, rfl, by simp, fun e' he' => .inl he'⟩
  | cons e t ih =>
      intro ms objSegs hent
      obtain ⟨hfst, hlt, hsome, hcbs, hinr⟩ := hent e (List.mem_cons_self e t)
      obtain ⟨sym, hsym⟩ := Option.isSome_iff_exists.mp hsome
      obtain ⟨cb, hcb⟩ := Option.isSome_iff_exists.mp hcbs
      obtain ⟨b, bytes, hfind, h1, h2, h3⟩ := hinr
      have hw : wsub e.reference_location b = e.reference_location - b :=
        wsub_of_le _ _ h1 h2
      have hrange : wsub e.reference_location b + 2 ≤ bytes.length := by
        rw [hw]; omega
      rw [List.foldl_cons,
        processReloc_step_ok fstos ms objSegs e e.symbol_index b bytes cb sym
          hfst hfind hcb hsym hrange]
      have hshape1 : ∀ k,
          (segFind? (segReplace e.reference_segment
            (b, setLE16 bytes (wsub e.reference_location b) sym.location)
            objSegs) k).map (fun p => (p.1, p.2.length))
          = (segFind? objSegs k).map (fun p => (p.1, p.2.length)) :=
        segs_shape_setLE16 objSegs e.reference_segment b bytes _ _ hfind
      have hent1 : ∀ e' ∈ t, fstos.get? e'.symbol_index = some e'.symbol_index ∧
          e'.symbol_index < M16 ∧
          (ms.symbolsOut.get? e'.symbol_index).isSome ∧
          (segFind? ms.curBase e'.reference_segment).isSome ∧
          InRange (segReplace e.reference_segment
            (b, setLE16 bytes (wsub e.reference_location b) sym.location)
            objSegs) e' := by
        intro e' he'
        obtain ⟨a1, a2, a3, a4, a5⟩ := hent e' (List.mem_cons_of_mem e he')
        exact ⟨a1, a2, a3, a4, InRange_of_shape hshape1 e' a5⟩
      obtain ⟨ms', objSegs', hfold, hspec, hrel, hundef⟩ :=
        ih { ms with relocOut := ms.relocOut ++ [RelocationEntry.mk e.reference_segment (wadd (wsub e.reference_location b) cb) (e.symbol_index % M16)], undefinedRefs := if sym.segment_type = SegmentType.Unknown then ms.undefinedRefs ++ [RelocationEntry.mk e.reference_segment (wadd (wsub e.reference_location b) cb) (e.symbol_index % M16)] else ms.undefinedRefs }
          (segReplace e.reference_segment
            (b, setLE16 bytes (wsub e.reference_location b) sym.location)
            objSegs)
          (fun e' he' => hent1 e' he')
      have hrebase : rebaseLocation objSegs ms.curBase e.reference_segment
          e.reference_location = wadd (wsub e.reference_location b) cb := by
        unfold rebaseLocation segFindD
        rw [hfind, hcb]
        rfl
      have hmod : e.symbol_index % M16 = e.symbol_index := Nat.mod_eq_of_lt hlt
      refine ⟨ms', objSegs', hfold, ?_, ?_, ?_⟩
      · rw [hspec, List.foldl_cons]
        have hstep : specPatchSlot ms.symbolsOut objSegs e
            = segReplace e.reference_segment
              (b, setLE16 bytes (wsub e.reference_location b) sym.location)
              objSegs := by
          unfold specPatchSlot
          rw [hfind, hsym]
        rw [hstep]
      · rw [hrel]
        have hbase := base_of_shape hshape1
        have hmapeq : t.map (fun e' =>
            RelocationEntry.mk e'.reference_segment
              (rebaseLocation (segReplace e.reference_segment
                (b, setLE16 bytes (wsub e.reference_location b) sym.location)
                objSegs) ms.curBase e'.reference_segment e'.reference_location)
              e'.symbol_index)
            = t.map (fun e' =>
              RelocationEntry.mk e'.reference_segment
                (rebaseLocation objSegs ms.curBase e'.reference_segment
                  e'.reference_location)
                e'.symbol_index) :=
          List.map_congr_left (fun e' _ => by
            rw [rebaseLocation_congr ms.curBase hbase])
        rw [hmapeq]
        simp only [List.map_cons]
        rw [hrebase, hmod]
        simp
      · intro e' he'
        rcases hundef e' he' with hin | hex
        · by_cases hu : sym.segment_type = SegmentType.Unknown
          · rw [if_pos hu] at hin
            rcases List.mem_append.mp hin with hin2 | hin2
            · exact .inl hin2
            · refine .inr ⟨sym, ?_, hu⟩
              rcases List.mem_singleton.mp hin2 with rfl
              show ms.symbolsOut.get? (e.symbol_index % M16) = some sym
              rw [hmod]
              exact hsym
          · rw [if_neg hu] at hin
            exact .inl hin
        · exact .inr hex

/-- A successful byte-concatenation step, fully evaluated. -/
theorem concatStep_ok (ms : MergeSt) (sv : SegmentType × (Nat × List Nat))
    (cb : Nat) (bo : Nat × List Nat)
    (h1 : segFind? ms.curBase sv.1 = some cb)
    (h2 : segFind? ms.segsOut sv.1 = some bo) :
    concatStep (.ok ms) sv
      = .ok { ms with curBase := segReplace sv.1 (wadd cb (sv.2.2.length % M16)) ms.curBase, segsOut := segReplace sv.1 (bo.1, bo.2 ++ sv.2.2) ms.segsOut } := by
  simp only [concatStep, h1, h2]

/-- The byte-concatenation fold over an input copy with distinct segment
keys: each output segment gains exactly its input segment's bytes, keeping
its base, and segments not in the input are untouched. -/
theorem concatfold_single :
    ∀ (l : List (SegmentType × (Nat × List Nat))) (ms : MergeSt),
      (l.map Prod.fst).Nodup →
      (∀ sv ∈ l, (segFind? ms.curBase sv.1).isSome ∧
        (segFind? ms.segsOut sv.1).isSome) →
      ∃ ms', l.foldl concatStep (.ok ms) = .ok ms' ∧
        (∀ sv ∈ l, ∀ bo, segFind? ms.segsOut sv.1 = some bo →
          segFind? ms'.segsOut sv.1 = some (bo.1, bo.2 ++ sv.2.2)) ∧
        (∀ k, k ∉ l.map Prod.fst →
          segFind? ms'.segsOut k = segFind? ms.segsOut k) := by
  intro l
  induction l with
  | nil =>
      intro ms _ _
      exact ⟨ms, rfl, fun sv hsv => absurd hsv (List.not_mem_nil sv),
        fun k _ => rfl⟩
  | cons sv rest ih =>
      intro ms hnd hpres
      obtain ⟨hcbs, hbos⟩ := hpres sv (List.mem_cons_self sv rest)
      obtain ⟨cb, hcb⟩ := Option.isSome_iff_exists.mp hcbs
      obtain ⟨bo, hbo⟩ := Option.isSome_iff_exists.mp hbos
      have hnd' : (sv.1 :: rest.map Prod.fst).Nodup := by
        rw [List.map_cons] at hnd
        exact hnd
      have hhead : sv.1 ∉ rest.map Prod.fst := (List.nodup_cons.mp hnd').1
      have hndt : (rest.map Prod.fst).Nodup := (List.nodup_cons.mp hnd').2
      have hne : ∀ sv' ∈ rest, sv'.1 ≠ sv.1 := by
        intro sv' hsv' heq
        exact hhead (heq ▸ List.mem_map_of_mem Prod.fst hsv')
      rw [List.foldl_cons, concatStep_ok ms sv cb bo hcb hbo]
      have hpres1 : ∀ sv' ∈ rest,
          (segFind? (segReplace sv.1 (wadd cb (sv.2.2.length % M16)) ms.curBase) sv'.1).isSome ∧
          (segFind? (segReplace sv.1 (bo.1, bo.2 ++ sv.2.2) ms.segsOut) sv'.1).isSome := by
        intro sv' hsv'
        rw [segFind?_segReplace_ne _ _ _ _ (hne sv' hsv'),
          segFind?_segReplace_ne _ _ _ _ (hne sv' hsv')]
        exact hpres sv' (List.mem_cons_of_mem sv hsv')
      obtain ⟨ms', hfold, hmem, hframe⟩ :=
        ih { ms with curBase := segReplace sv.1 (wadd cb (sv.2.2.length % M16)) ms.curBase, segsOut := segReplace sv.1 (bo.1, bo.2 ++ sv.2.2) ms.segsOut }
          hndt (fun sv' hsv' => hpres1 sv' hsv')
      refine ⟨ms', hfold, ?_, ?_⟩
      · intro sv' hsv' bo' hbo'
        rcases List.mem_cons.mp hsv' with rfl | hsv2
        · rw [hbo] at hbo'
          injection hbo' with hbo'
          subst hbo'
          rw [hframe sv'.1 hhead]
          show segFind? (segReplace sv'.1 (bo.1, bo.2 ++ sv'.2.2) ms.segsOut)
            sv'.1 = _
          rw [segFind?_segReplace_self _ _ _ (by rw [hbo]; rfl)]
        · have := hmem sv' hsv2 bo' (by
            show segFind? (segReplace sv.1 (bo.1, bo.2 ++ sv.2.2) ms.segsOut)
              sv'.1 = some bo'
            rw [segFind?_segReplace_ne _ _ _ _ (hne sv' hsv2)]
            exact hbo')
          exact this
      · intro k hk
        have hk1 : k ∉ rest.map Prod.fst := fun hx =>
          hk (List.mem_cons_of_mem sv.1 hx)
        have hk2 : k ≠ sv.1 := fun hx =>
          hk (by rw [List.map_cons, hx]; exact List.mem_cons_self _ _)
        rw [hframe k hk1]
        show segFind? (segReplace sv.1 (bo.1, bo.2 ++ sv.2.2) ms.segsOut) k
          = segFind? ms.segsOut k
        rw [segFind?_segReplace_ne _ _ _ _ hk2]

/-- In relocatable mode, the final pass over undefined references whose
symbols are all still `Unknown` changes nothing. -/
theorem finalResolve_fold_id (syms : List SymbolDefinition) :
    ∀ (l : List RelocationEntry)
      (segs : List (SegmentType × (Nat × List Nat))) (diags : List Diag)
      (fail : Bool),
      (∀ e ∈ l, ∃ sym, syms.get? e.symbol_index = some sym ∧
        sym.segment_type = SegmentType.Unknown) →
      l.foldl (finalResolve false syms) (.ok (segs, diags, fail))
        = .ok (segs, diags, fail) := by
  intro l
  induction l with
  | nil => intro segs diags fail _; rfl
  | cons e t ih =>
      intro segs diags fail h
      obtain ⟨sym, hsym, hu⟩ := h e (List.mem_cons_self e t)
      rw [List.foldl_cons,
        finalResolve_step_unknown false syms segs diags fail e sym hsym hu,
        if_neg (by decide : ¬(false = true))]
      exact ih segs diags fail (fun e' he' => h e' (List.mem_cons_of_mem e he'))

theorem segReplace_keys {α : Type} (k : SegmentType) (v : α)
    (m : List (SegmentType × α)) :
    (segReplace k v m).map Prod.fst = m.map Prod.fst := by
  unfold segReplace
  rw [List.map_map]
  refine List.map_congr_left ?_
  intro q _
  by_cases h : q.1 = k
  · simp [h]
  · simp [h]

theorem specPatchSlot_keys (syms : List SymbolDefinition)
    (segs : List (SegmentType × (Nat × List Nat))) (re : RelocationEntry) :
    (specPatchSlot syms segs re).map Prod.fst = segs.map Prod.fst := by
  unfold specPatchSlot
  split
  · exact segReplace_keys _ _ _
  · rfl

theorem patchfold_keys (syms : List SymbolDefinition) :
    ∀ (l : List RelocationEntry)
      (segs : List (SegmentType × (Nat × List Nat))),
      ((l.foldl (specPatchSlot syms) segs).map Prod.fst) = segs.map Prod.fst := by
  intro l
  induction l with
  | nil => intro segs; rfl
  | cons e t ih =>
      intro segs
      rw [List.foldl_cons, ih (specPatchSlot syms segs e), specPatchSlot_keys]

theorem range'_get? (n : Nat) : ∀ i, i < n →
    (List.range' 0 n).get? i = some i := by
  intro i hi
  rw [List.get?_eq_getElem?, List.getElem?_range' 0 1 hi]
  simp

theorem processObject_forward (strip : Bool) (s : MergeSt) (b : String × Object)
    (ms1 : MergeSt) (mos : MergeSt × List (SegmentType × (Nat × List Nat)))
    (s' : MergeSt)
    (h1 : mergeEntry s b.2 = .ok ms1)
    (h2 : b.2.relocation_table.foldl
      (processReloc (b.2.symbols.foldl (processSymbol strip b.1 b.2.segs) (ms1, [])).2)
      (.ok ((b.2.symbols.foldl (processSymbol strip b.1 b.2.segs) (ms1, [])).1,
        b.2.segs)) = .ok mos)
    (h3 : mos.2.foldl concatStep (.ok mos.1) = .ok s') :
    processObject strip (.ok s) b = .ok s' := by
  simp only [processObject, h1, h2, h3]

theorem mergeEntry_single (p : String) (o : Object)
    (hentry : ∀ st ep, o.entry = some (st, ep) →
      (segFind? o.segs st).isSome ∧
      (segFind? (layoutBases [(p, o)]) st).isSome) :
    mergeEntry (initMergeSt (segLayout [(p, o)])) o
      = .ok { initMergeSt (segLayout [(p, o)]) with entry := o.entry.map (fun v => (v.1, rebaseLocation o.segs (layoutBases [(p, o)]) v.1 v.2)) } := by
  rcases ho : o.entry with _ | v
  · simp [mergeEntry, initMergeSt, ho]
  · obtain ⟨st2, ep2⟩ := v
    obtain ⟨hes, hls⟩ := hentry st2 ep2 ho
    obtain ⟨bb, hbb⟩ := Option.isSome_iff_exists.mp hes
    obtain ⟨cbv, hcbv⟩ := Option.isSome_iff_exists.mp hls
    have hme1 := mergeEntry_first (initMergeSt (segLayout [(p, o)])) o st2 ep2
      bb.1 bb.2 cbv rfl ho (by rw [hbb]) hcbv
    rw [hme1]
    have hrb : rebaseLocation o.segs (layoutBases [(p, o)]) st2 ep2
        = wadd (wsub ep2 bb.1) cbv := by
      unfold rebaseLocation segFindD
      rw [hbb, hcbv]
      rfl
    simp only [Option.map_some']
    rw [hrb]

/-- **C5**: linking a single well-formed input object with no flags
succeeds with no diagnostics and yields the input object with only its
location values re-based to the output's segment bases: the symbol table is
the input's with re-based locations, the relocation table is the input's
with re-based reference locations and unchanged symbol indices, each output
segment holds the input segment's bytes (with every relocation slot re-based
to hold its symbol's output-coordinate location) at the layout-assigned
base, the entry point is re-based likewise, and the file offset is 0.  The
spec side of the refinement is `specLinkSymbols`, `specLinkRelocs` and
`specLinkSegs`. -/
theorem single_object_link (p : String) (o : Object)
    (hsd : List.Pairwise (fun a b => a.is_global = true → b.is_global = true →
      a.name ≠ b.name) o.symbols)
    (hlen : o.symbols.length ≤ M16)
    (hri : ∀ re ∈ o.relocation_table, re.symbol_index < o.symbols.length)
    (hrr : ∀ re ∈ o.relocation_table, InRange o.segs re ∧
      (segFind? (layoutBases [(p, o)]) re.reference_segment).isSome)
    (hkeys : (o.segs.map Prod.fst).Nodup)
    (hsl : ∀ k ∈ o.segs.map Prod.fst,
      (segFind? (segLayout [(p, o)]) k).isSome)
    (hentry : ∀ st ep, o.entry = some (st, ep) →
      (segFind? o.segs st).isSome ∧
      (segFind? (layoutBases [(p, o)]) st).isSome) :
    ∃ out, tl_link [(p, o)] none false false = ([], .ok out) ∧
      out.obj.symbols = specLinkSymbols o (layoutBases [(p, o)]) ∧
      out.obj.relocation_table = specLinkRelocs o (layoutBases [(p, o)]) ∧
      (∀ k q, segFind? (specLinkSegs o (layoutBases [(p, o)])) k = some q →
        segFind? out.obj.segs k
          = some (segFindD (layoutBases [(p, o)]) k 0, q.2)) ∧
      out.obj.entry = o.entry.map (fun v =>
        (v.1, rebaseLocation o.segs (layoutBases [(p, o)]) v.1 v.2)) ∧
      out.obj.file_offset = 0 ∧ out.shebangWritten = false := by
  have hme := mergeEntry_single p o hentry
  have hsymf := symfold_fresh p o.segs o.symbols
    { initMergeSt (segLayout [(p, o)]) with entry := o.entry.map (fun v => (v.1, rebaseLocation o.segs (layoutBases [(p, o)]) v.1 v.2)) }
    [] (fun s hs hg => rfl) hsd
  have hsymfr := processSymbol_fold_frame false p o.segs o.symbols
    ({ initMergeSt (segLayout [(p, o)]) with entry := o.entry.map (fun v => (v.1, rebaseLocation o.segs (layoutBases [(p, o)]) v.1 v.2)) }, [])
  -- shorthand facts about the post-symbols state
  have hfs_sym : (o.symbols.foldl (processSymbol false p o.segs)
      ({ initMergeSt (segLayout [(p, o)]) with entry := o.entry.map (fun v => (v.1, rebaseLocation o.segs (layoutBases [(p, o)]) v.1 v.2)) }, [])).1.symbolsOut
      = specLinkSymbols o (layoutBases [(p, o)]) := by
    rw [hsymf.1]
    simp [initMergeSt, specLinkSymbols, layoutBases]
  have hfs_cb : (o.symbols.foldl (processSymbol false p o.segs)
      ({ initMergeSt (segLayout [(p, o)]) with entry := o.entry.map (fun v => (v.1, rebaseLocation o.segs (layoutBases [(p, o)]) v.1 v.2)) }, [])).1.curBase
      = layoutBases [(p, o)] := by
    rw [hsymfr.2.1]
    simp [initMergeSt, layoutBases]
  have hfs_fst : (o.symbols.foldl (processSymbol false p o.segs)
      ({ initMergeSt (segLayout [(p, o)]) with entry := o.entry.map (fun v => (v.1, rebaseLocation o.segs (layoutBases [(p, o)]) v.1 v.2)) }, [])).2
      = List.range' 0 o.symbols.length := by
    rw [hsymf.2.2.2]
    simp [initMergeSt]
  -- relocation phase hypotheses
  have hypR : ∀ re ∈ o.relocation_table,
      (o.symbols.foldl (processSymbol false p o.segs)
        ({ initMergeSt (segLayout [(p, o)]) with entry := o.entry.map (fun v => (v.1, rebaseLocation o.segs (layoutBases [(p, o)]) v.1 v.2)) }, [])).2.get?
          re.symbol_index = some re.symbol_index ∧
      re.symbol_index < M16 ∧
      ((o.symbols.foldl (processSymbol false p o.segs)
        ({ initMergeSt (segLayout [(p, o)]) with entry := o.entry.map (fun v => (v.1, rebaseLocation o.segs (layoutBases [(p, o)]) v.1 v.2)) }, [])).1.symbolsOut.get?
          re.symbol_index).isSome ∧
      (segFind? (o.symbols.foldl (processSymbol false p o.segs)
        ({ initMergeSt (segLayout [(p, o)]) with entry := o.entry.map (fun v => (v.1, rebaseLocation o.segs (layoutBases [(p, o)]) v.1 v.2)) }, [])).1.curBase
          re.reference_segment).isSome ∧
      InRange o.segs re := by
    intro re hre
    refine ⟨?_, lt_of_lt_of_le (hri re hre) hlen, ?_, ?_, (hrr re hre).1⟩
    · rw [hfs_fst]
      exact range'_get? o.symbols.length re.symbol_index (hri re hre)
    · rw [hfs_sym]
      have hlt : re.symbol_index < (specLinkSymbols o (layoutBases [(p, o)])).length := by
        unfold specLinkSymbols
        rw [List.length_map]
        exact hri re hre
      rw [List.get?_eq_getElem?, List.getElem?_eq_getElem hlt]
      rfl
    · rw [hfs_cb]
      exact (hrr re hre).2
  obtain ⟨ms3, objSegs', hfold3, hspec3, hrel3, hundef3⟩ :=
    relocfold_single _ o.relocation_table _ o.segs hypR
  have hrelfr := processReloc_fold_segsOut _ o.relocation_table _ _ hfold3
  -- the patched copy is the spec's patched segments
  have hobjspec : objSegs' = specLinkSegs o (layoutBases [(p, o)]) := by
    rw [hspec3, hfs_sym]
    rfl
  -- concat phase
  have hkeys' : (objSegs'.map Prod.fst).Nodup := by
    rw [hspec3, patchfold_keys]
    exact hkeys
  have hkeyset : objSegs'.map Prod.fst = o.segs.map Prod.fst := by
    rw [hspec3, patchfold_keys]
  have hms3_segs : ms3.segsOut = segLayout [(p, o)] := by
    rw [hrelfr.1, hsymfr.1]
    rfl
  have hms3_cb : ms3.curBase = layoutBases [(p, o)] := by
    rw [hrelfr.2.1, hfs_cb]
  have hpresC : ∀ sv ∈ objSegs', (segFind? ms3.curBase sv.1).isSome ∧
      (segFind? ms3.segsOut sv.1).isSome := by
    intro sv hsv
    have hk : sv.1 ∈ o.segs.map Prod.fst := by
      rw [← hkeyset]
      exact List.mem_map_of_mem Prod.fst hsv
    have hLs := hsl sv.1 hk
    constructor
    · rw [hms3_cb]
      have hfind : segFind? (layoutBases [(p, o)]) sv.1
          = (segFind? (segLayout [(p, o)]) sv.1).map (·.1) :=
        segFind?_map_base _ _
      rw [hfind]
      rcases hx : segFind? (segLayout [(p, o)]) sv.1 with _ | w
      · rw [hx] at hLs
        cases hLs
      · rfl
    · rw [hms3_segs]
      exact hLs
  obtain ⟨ms4, hfold4, hmem4, hframe4⟩ :=
    concatfold_single objSegs' ms3 hkeys' hpresC
  have hcfr := concatFold_frame objSegs' ms3 ms4 hfold4
  -- the whole per-object merge
  have hproc : processObject false
      (.ok (initMergeSt (segLayout [(p, o)]))) (p, o) = .ok ms4 :=
    processObject_forward false _ (p, o) _ (ms3, objSegs') ms4 hme hfold3 hfold4
  have hfoldall : [(p, o)].foldl (processObject false)
      (.ok (initMergeSt (segLayout [(p, o)]))) = .ok ms4 := by
    rw [List.foldl_cons, hproc, List.foldl_nil]
  -- field chains
  have hsymb4 : ms4.symbolsOut = specLinkSymbols o (layoutBases [(p, o)]) := by
    rw [hcfr.2.1, hrelfr.2.2.1, hfs_sym]
  have hdiags4 : ms4.diags = [] := by
    rw [hcfr.2.2.1, hrelfr.2.2.2.2.2.1, hsymf.2.1]
    simp [initMergeSt]
  have hfail4 : ms4.failure = false := by
    rw [hcfr.2.2.2.1, hrelfr.2.2.2.2.2.2, hsymf.2.2.1]
    simp [initMergeSt]
  have hrelo4 : ms4.relocOut = specLinkRelocs o (layoutBases [(p, o)]) := by
    rw [hcfr.2.2.2.2.2.1, hrel3, hfs_cb, hsymfr.2.2.2.1]
    simp [initMergeSt, specLinkRelocs]
  have hentry4 : ms4.entry = o.entry.map (fun v =>
      (v.1, rebaseLocation o.segs (layoutBases [(p, o)]) v.1 v.2)) := by
    rw [hcfr.2.2.2.2.1, hrelfr.2.2.2.1, hsymfr.2.2.1]
  -- final pass is the identity
  have hids : ∀ e ∈ ms4.undefinedRefs, ∃ sym,
      ms4.symbolsOut.get? e.symbol_index = some sym ∧
      sym.segment_type = SegmentType.Unknown := by
    intro e he
    rw [hcfr.2.2.2.2.2.2] at he
    rcases hundef3 e he with hin | ⟨sym, hs, hu⟩
    · rw [hsymfr.2.2.2.2] at hin
      simp [initMergeSt] at hin
    · refine ⟨sym, ?_, hu⟩
      rw [hcfr.2.1, hrelfr.2.2.1]
      exact hs
  have hfin := finalResolve_fold_id ms4.symbolsOut ms4.undefinedRefs
    ms4.segsOut ms4.diags ms4.failure hids
  -- assemble the link
  have hfin2 := hfin
  rw [hfail4] at hfin2
  have htl : tl_link [(p, o)] none false false
      = (ms4.diags, .ok (LinkOutput.mk (Object.mk ms4.segsOut ms4.symbolsOut ms4.relocOut ms4.entry 0) false false)) := by
    simp only [tl_link, hfoldall, applySetEntry]
    rw [hfail4, hfin2]
    simp
  refine ⟨LinkOutput.mk (Object.mk ms4.segsOut ms4.symbolsOut ms4.relocOut ms4.entry 0) false false,
    ?_, hsymb4, hrelo4, ?_, hentry4, rfl, rfl⟩
  · rw [htl, hdiags4]
  · intro k q hq
    rw [← hobjspec] at hq
    have hmemq : (k, q) ∈ objSegs' := segFind?_mem hq
    have hk : k ∈ o.segs.map Prod.fst := by
      rw [← hkeyset]
      exact List.mem_map_of_mem Prod.fst hmemq
    have hLs := hsl k hk
    obtain ⟨bo, hbo⟩ := Option.isSome_iff_exists.mp hLs
    have hshape := segLayout_entry_shape (segFind?_mem hbo)
    have hmm := hmem4 (k, q) hmemq bo (by rw [hms3_segs]; exact hbo)
    show segFind? ms4.segsOut k = _
    rw [hmm]
    have hcbfind : segFind? (layoutBases [(p, o)]) k
        = (segFind? (segLayout [(p, o)]) k).map (·.1) :=
      segFind?_map_base _ _
    have hbase : segFindD (layoutBases [(p, o)]) k 0 = bo.1 := by
      unfold segFindD
      rw [hcbfind, hbo]
      rfl
    rw [hbase, hshape.2]
    simp

/-- Witness for `single_object_link`: a self-contained one-segment object
with one symbol, one relocation and an entry point. -/
theorem single_object_link_witness :
    ∃ out, tl_link [("a.to", objSelf)] none false false = ([], .ok out) ∧
      out.obj.symbols = specLinkSymbols objSelf (layoutBases [("a.to", objSelf)]) ∧
      out.obj.relocation_table
        = specLinkRelocs objSelf (layoutBases [("a.to", objSelf)]) ∧
      (∀ k q, segFind? (specLinkSegs objSelf (layoutBases [("a.to", objSelf)])) k
          = some q →
        segFind? out.obj.segs k
          = some (segFindD (layoutBases [("a.to", objSelf)]) k 0, q.2)) ∧
      out.obj.entry = objSelf.entry.map (fun v =>
        (v.1, rebaseLocation objSelf.segs (layoutBases [("a.to", objSelf)])
          v.1 v.2)) ∧
      out.obj.file_offset = 0 ∧ out.shebangWritten = false :=
  single_object_link "a.to" objSelf
    (List.pairwise_singleton _ _)
    (by decide)
    (fun re hre => by
      rcases List.mem_singleton.mp hre with rfl
      decide)
    (fun re hre => by
      rcases List.mem_singleton.mp hre with rfl
      exact ⟨⟨0, [1, 0, 0], by decide, by decide, by decide, by decide⟩,
        by decide⟩)
    (by decide)
    (fun k hk => by
      simp only [objSelf, List.map_cons, List.map_nil] at hk
      rcases List.mem_singleton.mp hk with rfl
      decide)
    (fun st ep h => by
      rw [show objSelf.entry = some (SegmentType.Text, 0) from rfl] at h
      injection h with h
      injection h with h1 h2
      subst h1
      exact ⟨by decide, by decide⟩)

/-- Witness for `entry_point_selection`: an already-chosen entry point
`(Text, 7)` is kept unchanged when a later input carrying its own entry
point is merged. -/
theorem entry_point_selection_witness :
    mergeEntry { initMergeSt [] with entry := some (SegmentType.Text, 7) }
        objEntryZero
      = .ok { initMergeSt [] with entry := some (SegmentType.Text, 7) } :=
  entry_point_selection.1
    { initMergeSt [] with entry := some (SegmentType.Text, 7) }
    objEntryZero (SegmentType.Text, 7) rfl

end Telda
